import Mathlib

/-! # Smart pointers: shared / weak ownership

A shallow embedding of `src/shared-from-this/shared.h` (control blocks and
`SharedPtr`) and `src/weak/weak.h` (`WeakPtr`), followed by the exclusive
handle of `src/unique/unique.h` and the single-counter `SharedPtr` of
`src/shared/shared.h`.

* Raw memory is an explicit heap: a table of control blocks indexed by block
  id.  A `ControlBlockBase*` is an `Option Nat` (`none` is `nullptr`), a `T*`
  is an `Option Addr`.
* `size_t` counters are natural numbers below `2^64`; `++` and `--` wrap.
* `delete ptr_` / `std::destroy_at` and `delete block_` have no value the
  program can read back, so every block carries two ghost tallies:
  `destroyed` (how often the managed object was destroyed) and `freed` (how
  often the block itself was deleted).  A deleted block keeps its last field
  values in the table; nothing in the model hides a use after free.
* Element types are erased: the cross-type copy constructor and `Reset(Y*)`
  have the bodies of their same-type versions and share their definitions.
  The cross-type move constructor has a body of its own (`moveCross`).
* The self-reference wiring of lines 74-77, 84-87 and 125-128 writes into the
  managed object, not into a block or a handle.  The statements of the
  program machine leave it out; `fromRawWired` and `MakeSharedWired` return
  the record it writes, and `SharedFromThis` reads that record.
* The program machine (`Op`, `step`, `run`) is for a plain element type:
  destroying a managed object runs no code of `shared.h` or `weak.h`, and no
  handle is a member of a managed object.  There `delete ptr_` followed by
  `ptr_deleted = true` is one update of the block, and the `other` of an
  assignment is the same before and after the release block.
* Objects that hold `SharedPtr` or `WeakPtr` members are run by a second
  machine (`Mem`, `exec`, `execStmt`), in which `delete ptr_` calls the
  destructors of the members before `ptr_deleted` is set and an assignment
  reads `other` from memory after its release block.
-/

namespace SmartPtr

/-! ## Machine integers -/

/-- Number of values of a `size_t` (64-bit). -/
def SIZE_MOD : Nat := 18446744073709551616

/-- The C++ `++x` on a `size_t`. -/
def incr (n : Nat) : Nat := (n + 1) % SIZE_MOD

/-- The C++ `--x` on a `size_t`. -/
def decr (n : Nat) : Nat := (SIZE_MOD - 1 + n) % SIZE_MOD

/-! ## Addresses -/

/-- An object address: either an address supplied by the caller, or the
address of the inline `storage_` of an emplace control block. -/
inductive Addr where
  | raw (a : Nat)
  | storage (block : Nat)
deriving DecidableEq

/-- A `T*`; `none` is `nullptr`. -/
abbrev Ptr := Option Addr

/-! ## Control blocks (shared.h lines 14-60) -/

/-- Which concrete control block this is: `ControlBlockPointer` (with its
`ptr_` member) or `ControlBlockEmplace` (object lives in `storage_`). -/
inductive BlockKind where
  | pointer (ptr_ : Ptr)
  | emplace
deriving DecidableEq

/-- The `struct ControlBlockBase` together with the variant tag of the derived
class and the two ghost tallies. -/
structure ControlBlockBase where
  strong_cnt : Nat := 1
  weak_cnt : Nat := 0
  ptr_deleted : Bool := false
  kind : BlockKind := BlockKind.emplace
  destroyed : Nat := 0
  freed : Nat := 0
deriving DecidableEq

/-- Method `ControlBlockPointer::DeletePtr` (lines 27-32): `delete ptr_` guarded by
`ptr_deleted`, for an object whose destructor runs no handle code: nothing
reads the block between `delete ptr_` and `ptr_deleted = true`, and the two
are one update (`exec_DeletePtr_plain`).  For an object with handle members
see `exec` (`Call.DeletePtr`), which runs the destructor of the object in
between. -/
def ControlBlockPointer.DeletePtr (c : ControlBlockBase) : ControlBlockBase :=
  if !c.ptr_deleted then
    { c with destroyed := c.destroyed + 1, ptr_deleted := true }
  else c

/-- Destructor `~ControlBlockPointer` (lines 33-37). -/
def ControlBlockPointer.destructor (c : ControlBlockBase) : ControlBlockBase :=
  if !c.ptr_deleted then { c with destroyed := c.destroyed + 1 } else c

/-- Method `ControlBlockEmplace::DeletePtr` (lines 47-52): `std::destroy_at` on the
storage, guarded by `ptr_deleted`, for an object whose destructor runs no
handle code: nothing reads the block between `std::destroy_at` and
`ptr_deleted = true`, and the two are one update (`exec_DeletePtr_plain`).
For an object with handle members see `exec` (`Call.DeletePtr`). -/
def ControlBlockEmplace.DeletePtr (c : ControlBlockBase) : ControlBlockBase :=
  if !c.ptr_deleted then
    { c with destroyed := c.destroyed + 1, ptr_deleted := true }
  else c

/-- Destructor `~ControlBlockEmplace` (lines 54-58). -/
def ControlBlockEmplace.destructor (c : ControlBlockBase) : ControlBlockBase :=
  if !c.ptr_deleted then { c with destroyed := c.destroyed + 1 } else c

namespace ControlBlockBase

/-- The virtual call `block_->DeletePtr()`. -/
def DeletePtr (c : ControlBlockBase) : ControlBlockBase :=
  match c.kind with
  | BlockKind.pointer _ => ControlBlockPointer.DeletePtr c
  | BlockKind.emplace => ControlBlockEmplace.DeletePtr c

/-- The statement `delete block_`: the virtual destructor runs, then the
block's memory is returned. -/
def delete (c : ControlBlockBase) : ControlBlockBase :=
  let c1 := match c.kind with
    | BlockKind.pointer _ => ControlBlockPointer.destructor c
    | BlockKind.emplace => ControlBlockEmplace.destructor c
  { c1 with freed := c1.freed + 1 }

/-- The statement `block_->strong_cnt++` (also `++block_->strong_cnt`). -/
def incStrong (c : ControlBlockBase) : ControlBlockBase :=
  { c with strong_cnt := incr c.strong_cnt }

/-- The statement `--block_->strong_cnt`. -/
def decStrong (c : ControlBlockBase) : ControlBlockBase :=
  { c with strong_cnt := decr c.strong_cnt }

/-- The statement `block_->weak_cnt++`. -/
def incWeak (c : ControlBlockBase) : ControlBlockBase :=
  { c with weak_cnt := incr c.weak_cnt }

/-- The statement `--block_->weak_cnt`. -/
def decWeak (c : ControlBlockBase) : ControlBlockBase :=
  { c with weak_cnt := decr c.weak_cnt }

/-- The release sequence every `SharedPtr` destructor, `Reset` and assignment
runs on the block it holds (shared.h lines 176-182, 196-202, 217-223,
232-238, 246-252): decrement, then either delete the block or call
`DeletePtr`.  The flag tells whether the `DeletePtr` branch was taken. -/
def releaseStrong (c : ControlBlockBase) : ControlBlockBase × Bool :=
  let c1 := c.decStrong
  if c1.strong_cnt = 0 ∧ c1.weak_cnt = 0 then (c1.delete, false)
  else if c1.strong_cnt = 0 then (c1.DeletePtr, true)
  else (c1, false)

/-- The release sequence of every `WeakPtr` destructor, `Reset` and assignment
(weak.h lines 45-50, 64-69, 84-89, 98-103). -/
def releaseWeak (c : ControlBlockBase) : ControlBlockBase :=
  let c1 := c.decWeak
  if c1.strong_cnt = 0 ∧ c1.weak_cnt = 0 then c1.delete
  else if c1.strong_cnt = 0 then c1.DeletePtr
  else c1

end ControlBlockBase

/-- The heap of control blocks; `new` appends, a block id is its index. -/
abbrev Heap := List ControlBlockBase

namespace Heap

/-- Apply a statement to the block behind a non-null block pointer. -/
def modify (heap : Heap) (b : Nat) (f : ControlBlockBase → ControlBlockBase) : Heap :=
  match heap[b]? with
  | some c => heap.set b (f c)
  | none => heap

/-- Read `block->strong_cnt`. -/
def strong (heap : Heap) (b : Nat) : Nat :=
  match heap[b]? with
  | some c => c.strong_cnt
  | none => 0

/-- Read `block->weak_cnt`. -/
def weak (heap : Heap) (b : Nat) : Nat :=
  match heap[b]? with
  | some c => c.weak_cnt
  | none => 0

end Heap

/-! ## Handles -/

/-- The two private members `block_` and `ptr_`, which `SharedPtr` (shared.h
lines 322-324) and `WeakPtr` (weak.h lines 143-145) both have, with the same
default member initialisers. -/
structure Handle where
  block_ : Option Nat := none
  ptr_ : Ptr := none
deriving DecidableEq

/-- The `class SharedPtr`. -/
abbrev SharedPtr := Handle

/-- The `class WeakPtr`. -/
abbrev WeakPtr := Handle

/-- Modelled from the spec: the expired-reference error of section 7, thrown
by the promoting constructor; its declaration (`sw_fwd.h`) is not among the
sources. -/
inductive BadWeakPtr where
  | mk
deriving DecidableEq

namespace SharedPtr

/-- Constructors `SharedPtr()` and `SharedPtr(std::nullptr_t)` (lines 68-70). -/
def default : SharedPtr := {}

/-- Constructor `explicit SharedPtr(T* ptr)` (lines 71-78), without the self-reference
wiring of lines 74-77. -/
def fromRaw (heap : Heap) (ptr : Ptr) : Heap × SharedPtr :=
  let block := heap.length
  let heap1 := heap ++ [{ kind := BlockKind.pointer ptr }]
  (heap1, { block_ := some block, ptr_ := ptr })

/-- Constructor `SharedPtr(ControlBlockEmplace<T>* block)` (lines 122-129), without the
self-reference wiring; the block was allocated by `MakeShared`. -/
def fromEmplace (heap : Heap) (block : Nat) : Heap × SharedPtr :=
  (heap, { block_ := some block, ptr_ := some (Addr.storage block) })

/-- Copy constructor `SharedPtr(const SharedPtr& other)` (lines 90-96); the cross-type copy
constructor (lines 98-105) has the same body. -/
def copy (heap : Heap) (other : SharedPtr) : Heap × SharedPtr :=
  let self : SharedPtr := { block_ := other.block_ }
  let heap1 := match self.block_ with
    | some b => heap.modify b ControlBlockBase.incStrong
    | none => heap
  (heap1, { self with ptr_ := other.ptr_ })

/-- Move constructor `SharedPtr(SharedPtr&& other)` (lines 107-112): returns the new handle and
the moved-from `other`. -/
def move (other : SharedPtr) : SharedPtr × SharedPtr :=
  ({ block_ := other.block_, ptr_ := other.ptr_ }, { block_ := none, ptr_ := none })

/-- Constructor `SharedPtr(ControlBlockBase* block, T* ptr)` (lines 131-137). -/
def fromBlock (heap : Heap) (block : Option Nat) (ptr : Ptr) : Heap × SharedPtr :=
  let self : SharedPtr := { block_ := block, ptr_ := ptr }
  match self.block_ with
  | some b => (heap.modify b ControlBlockBase.incStrong, self)
  | none => (heap, self)

/-- The aliasing constructor `SharedPtr(const SharedPtr<Y>& other, T* ptr)`
(lines 147-154). -/
def aliasing (heap : Heap) (other : SharedPtr) (ptr : Ptr) : Heap × SharedPtr :=
  let self : SharedPtr := { ptr_ := ptr }
  match other.block_ with
  | some b => (heap.modify b ControlBlockBase.incStrong, { self with block_ := some b })
  | none => (heap, self)

/-- Observer `UseCount()` (lines 311-316). -/
def UseCount (heap : Heap) (self : SharedPtr) : Nat :=
  match self.block_ with
  | some b => heap.strong b
  | none => 0

/-- Observer `Get()` (lines 295-301). -/
def Get (self : SharedPtr) : Ptr := self.ptr_

/-- Observer `GetBlock()` (lines 281-293). -/
def GetBlock (self : SharedPtr) : Option Nat :=
  match self.block_ with
  | some b => some b
  | none => none

/-- Conversion `explicit operator bool()` (lines 318-320). -/
def toBool (self : SharedPtr) : Bool := self.block_.isSome

/-- The release block at the head of the destructor, of both `Reset`s and of
both assignment operators: `if (block_) { --block_->strong_cnt; ... }`. -/
def releaseBlock (heap : Heap) (self : SharedPtr) : Heap × SharedPtr :=
  match self.block_ with
  | some b =>
    match heap[b]? with
    | some c =>
      let r := c.releaseStrong
      (heap.set b r.1, if r.2 then { self with ptr_ := none } else self)
    | none => (heap, self)
  | none => (heap, self)

/-- Destructor `~SharedPtr()` (lines 215-225). -/
def destructor (heap : Heap) (self : SharedPtr) : Heap :=
  (releaseBlock heap self).1

/-- Modifier `void Reset()` (lines 230-242). -/
def Reset (heap : Heap) (self : SharedPtr) : Heap × SharedPtr :=
  let r := releaseBlock heap self
  (r.1, { r.2 with block_ := none, ptr_ := none })

/-- Modifier `void Reset(T* ptr)` (lines 244-256; lines 258-271 have the same body). -/
def ResetPtr (heap : Heap) (self : SharedPtr) (ptr : Ptr) : Heap × SharedPtr :=
  let r := releaseBlock heap self
  let block := r.1.length
  (r.1 ++ [{ kind := BlockKind.pointer ptr }], { r.2 with block_ := some block, ptr_ := ptr })

/-- Assignment `operator=(const SharedPtr& other)` (lines 173-191); `same` is the outcome
of the test `this != &other` being false.  The source reads `other` after the
release block; `other` is passed by value here, which is the same for an
`other` that the release block does not end, as every handle of a program
over a plain element type is (`execStmt_sCopyAssign_plain`).  For an `other` inside the object being
released see `execStmt` (`Stmt.sCopyAssign`). -/
def copyAssign (heap : Heap) (self other : SharedPtr) (same : Bool) : Heap × SharedPtr :=
  if same then (heap, self)
  else
    let r := releaseBlock heap self
    let self1 : SharedPtr := { r.2 with ptr_ := other.ptr_, block_ := other.block_ }
    match self1.block_ with
    | some b => (r.1.modify b ControlBlockBase.incStrong, self1)
    | none => (r.1, self1)

/-- Assignment `operator=(SharedPtr&& other)` (lines 193-210): returns the heap, `*this`
and `other`.  The source reads and clears `other` after the release block;
`other` is passed by value here, which is the same for an `other` that the
release block does not end, as every handle of a program over a plain element
type is (`execStmt_sMoveAssign_plain`).  For an `other` inside the object
being released see `execStmt` (`Stmt.sMoveAssign`). -/
def moveAssign (heap : Heap) (self other : SharedPtr) (same : Bool) :
    Heap × SharedPtr × SharedPtr :=
  if same then (heap, self, other)
  else
    let r := releaseBlock heap self
    (r.1, { r.2 with block_ := other.block_, ptr_ := other.ptr_ },
      { other with block_ := none, ptr_ := none })

/-- Modifier `Swap` (lines 273-276). -/
def Swap (self other : SharedPtr) : SharedPtr × SharedPtr :=
  ({ block_ := other.block_, ptr_ := other.ptr_ }, { block_ := self.block_, ptr_ := self.ptr_ })

/-- Comparison `operator==` (lines 327-332).  Control reaches the closing brace without a
`return` unless both handles hold a block; `none` is that outcome (no value is
returned). -/
def eq (left right : SharedPtr) : Option Bool :=
  if left.GetBlock.isSome ∧ right.GetBlock.isSome then
    some (decide (left.Get = right.Get))
  else none

end SharedPtr

/-- Factory `MakeShared` (lines 335-339): allocate a `ControlBlockEmplace`, hand it to
the `SharedPtr(ControlBlockEmplace<T>*)` constructor. -/
def MakeShared (heap : Heap) : Heap × SharedPtr :=
  let block := heap.length
  SharedPtr.fromEmplace (heap ++ [{ kind := BlockKind.emplace }]) block

namespace WeakPtr

/-- Constructor `WeakPtr()` (line 13). -/
def default : WeakPtr := {}

/-- Copy constructor `WeakPtr(const WeakPtr& other)` (lines 15-21). -/
def copy (heap : Heap) (other : WeakPtr) : Heap × WeakPtr :=
  let self : WeakPtr := { block_ := other.block_ }
  let heap1 := match self.block_ with
    | some b => heap.modify b ControlBlockBase.incWeak
    | none => heap
  (heap1, { self with ptr_ := other.ptr_ })

/-- Move constructor `WeakPtr(WeakPtr&& other)` (lines 22-27). -/
def move (other : WeakPtr) : WeakPtr × WeakPtr :=
  ({ block_ := other.block_, ptr_ := other.ptr_ }, { block_ := none, ptr_ := none })

/-- Demoting constructor `WeakPtr(const SharedPtr<T>& other)` (lines 31-37). -/
def fromShared (heap : Heap) (other : SharedPtr) : Heap × WeakPtr :=
  let self : WeakPtr := { block_ := SharedPtr.GetBlock other }
  let heap1 := match self.block_ with
    | some b => heap.modify b ControlBlockBase.incWeak
    | none => heap
  (heap1, { self with ptr_ := SharedPtr.Get other })

/-- The release block at the head of the destructor, of `Reset` and of both
assignment operators: `if (block_) { --block_->weak_cnt; ... }`. -/
def releaseBlock (heap : Heap) (self : WeakPtr) : Heap :=
  match self.block_ with
  | some b => heap.modify b ControlBlockBase.releaseWeak
  | none => heap

/-- Destructor `~WeakPtr()` (lines 82-91). -/
def destructor (heap : Heap) (self : WeakPtr) : Heap :=
  releaseBlock heap self

/-- Modifier `void Reset()` (lines 96-107). -/
def Reset (heap : Heap) (self : WeakPtr) : Heap × WeakPtr :=
  (releaseBlock heap self, { self with block_ := none, ptr_ := none })

/-- Assignment `operator=(const WeakPtr& other)` (lines 42-59). -/
def copyAssign (heap : Heap) (self other : WeakPtr) (same : Bool) : Heap × WeakPtr :=
  if same then (heap, self)
  else
    let heap1 := releaseBlock heap self
    let self1 : WeakPtr := { self with ptr_ := other.ptr_, block_ := other.block_ }
    match self1.block_ with
    | some b => (heap1.modify b ControlBlockBase.incWeak, self1)
    | none => (heap1, self1)

/-- Assignment `operator=(WeakPtr&& other)` (lines 61-77). -/
def moveAssign (heap : Heap) (self other : WeakPtr) (same : Bool) :
    Heap × WeakPtr × WeakPtr :=
  if same then (heap, self, other)
  else
    let heap1 := releaseBlock heap self
    (heap1, { self with block_ := other.block_, ptr_ := other.ptr_ },
      { other with block_ := none, ptr_ := none })

/-- Modifier `Swap` (lines 108-111). -/
def Swap (self other : WeakPtr) : WeakPtr × WeakPtr :=
  ({ block_ := other.block_, ptr_ := other.ptr_ }, { block_ := self.block_, ptr_ := self.ptr_ })

/-- Observer `UseCount()` (lines 116-121). -/
def UseCount (heap : Heap) (self : WeakPtr) : Nat :=
  match self.block_ with
  | some b => heap.strong b
  | none => 0

/-- Observer `Expired()` (lines 122-129). -/
def Expired (heap : Heap) (self : WeakPtr) : Bool :=
  match self.block_ with
  | some b => if heap.strong b > 0 then false else true
  | none => true

/-- Observer `Lock()` (lines 130-141): each branch with a block first runs
`++block_->strong_cnt` and then calls `SharedPtr<T>(block_, ...)`, the
constructor of shared.h lines 131-137. -/
def Lock (heap : Heap) (self : WeakPtr) : Heap × SharedPtr :=
  match self.block_ with
  | some b =>
    if heap.strong b > 0 then
      SharedPtr.fromBlock (heap.modify b ControlBlockBase.incStrong) self.block_ self.ptr_
    else
      SharedPtr.fromBlock (heap.modify b ControlBlockBase.incStrong) self.block_ none
  | none => SharedPtr.fromBlock heap self.block_ self.ptr_

end WeakPtr

/-- The promoting constructor `explicit SharedPtr(const WeakPtr<T>& other)`
(shared.h lines 158-168): the heap afterwards, and either the exception or the
new handle. -/
def SharedPtr.promote (heap : Heap) (other : WeakPtr) : Heap × Except BadWeakPtr SharedPtr :=
  if WeakPtr.UseCount heap other ≠ 0 then
    let self : SharedPtr := { block_ := other.block_, ptr_ := other.ptr_ }
    match self.block_ with
    | some b => (heap.modify b ControlBlockBase.incStrong, Except.ok self)
    | none => (heap, Except.ok self)
  else (heap, Except.error BadWeakPtr.mk)

/-! ## Cross-type move and self-reference (shared.h lines 114-129, 342-364) -/

/-- The cross-type move constructor `SharedPtr(SharedPtr<Y>&& other)` (lines
114-120; `src/shared/shared.h` lines 82-88 have the same body): returns the heap,
the new handle and `other`.  The statement `block_->strong_cnt++` is not guarded;
`none` is the outcome of executing it through a null `block_`. -/
def SharedPtr.moveCross (heap : Heap) (other : SharedPtr) :
    Option (Heap × SharedPtr × SharedPtr) :=
  let self : SharedPtr := { block_ := SharedPtr.GetBlock other, ptr_ := SharedPtr.Get other }
  match self.block_ with
  | some b =>
    let heap1 := heap.modify b ControlBlockBase.incStrong
    let r := SharedPtr.Reset heap1 other
    some (r.1, self, r.2)
  | none => none

/-- The two private members `block_` and `ptr_` of `class EnableSharedFromThis`
(lines 359-361): the self-reference record inside a managed object. -/
structure EnableSharedFromThis where
  block_ : Option Nat := none
  ptr_ : Ptr := none
deriving DecidableEq

/-- Modelled from the spec: the use-before-ready error of section 7.  No
statement of the sources raises it. -/
inductive UseBeforeReady where
  | mk
deriving DecidableEq

/-- Constructor `explicit SharedPtr(T* ptr)` (lines 71-78) for an element type
convertible to `BaseSharedFromThis*`: also the heap, the handle and the
self-reference record written by lines 75-76.  The record lives in the object
at `ptr`; `none` is the outcome of writing it through a null `ptr`. -/
def SharedPtr.fromRawWired (heap : Heap) (ptr : Ptr) :
    Option (Heap × SharedPtr × EnableSharedFromThis) :=
  let r := SharedPtr.fromRaw heap ptr
  match r.2.ptr_ with
  | some _ => some (r.1, r.2, { block_ := r.2.block_, ptr_ := ptr })
  | none => none

/-- Constructor `SharedPtr(ControlBlockEmplace<T>* block)` (lines 122-129) for an
element type convertible to `BaseSharedFromThis*`, called by `MakeShared` on a
block it has just allocated: the heap, the handle and the self-reference record
written by lines 126-127. -/
def MakeSharedWired (heap : Heap) : Heap × SharedPtr × EnableSharedFromThis :=
  let r := MakeShared heap
  (r.1, r.2, { block_ := r.2.block_, ptr_ := r.2.ptr_ })

/-- Method `SharedFromThis()` (lines 345-347): `return SharedPtr<T>(block_, ptr_)`.
Every path returns a handle. -/
def EnableSharedFromThis.SharedFromThis (heap : Heap) (self : EnableSharedFromThis) :
    Heap × Except UseBeforeReady SharedPtr :=
  let r := SharedPtr.fromBlock heap self.block_ self.ptr_
  (r.1, Except.ok r.2)

/-- Method `SharedFromThis() const` (lines 348-350): the temporary
`SharedPtr<T>(block_, ptr_)` is converted to the returned `SharedPtr<const T>`
by the cross-type move constructor, which leaves the temporary empty; `none`
is the outcome of that constructor on an empty temporary. -/
def EnableSharedFromThis.SharedFromThisConst (heap : Heap) (self : EnableSharedFromThis) :
    Option (Heap × SharedPtr) :=
  let r := SharedPtr.fromBlock heap self.block_ self.ptr_
  match SharedPtr.moveCross r.1 r.2 with
  | some (heap2, s, _) => some (heap2, s)
  | none => none

/-! ## The exclusive handle (unique.h)

`CompressedPair<T*, Deleter>` (compressed_pair.h) is a pair of the address and
the deleter whatever the layout.  A deleter is a value the program cannot look
into; calling it has no value the program can read back, so the calls are
kept in a log.  A moved-from deleter keeps its value. -/

/-- A deleter object; `0` is the value-initialised one (`Deleter()`). -/
abbrev Deleter := Nat

/-- The calls `deleter(ptr)` made so far, oldest first. -/
abbrev Calls := List (Deleter × Ptr)

/-- Number of calls made with argument `p`. -/
def Calls.on (log : Calls) (p : Ptr) : Nat := log.countP (fun e => decide (e.2 = p))

/-- The member `pair_` of `UniquePtr` (line 131): `first` is
`pair_.GetFirst()`, `second` is `pair_.GetSecond()`. -/
structure UniquePtr where
  first : Ptr := none
  second : Deleter := 0
deriving DecidableEq

namespace UniquePtr

/-- Constructor `explicit UniquePtr(T* ptr = nullptr)` (line 38). -/
def fromRaw (ptr : Ptr) : UniquePtr := { first := ptr, second := 0 }

/-- Constructor `UniquePtr(T* ptr, Deleter deleter)` (line 40). -/
def withDeleter (ptr : Ptr) (deleter : Deleter) : UniquePtr :=
  { first := ptr, second := deleter }

/-- Modifier `Release()` (lines 84-88): the log, the returned address and
`*this` afterwards. -/
def Release (log : Calls) (self : UniquePtr) : Calls × Ptr × UniquePtr :=
  let tmp := self.first
  (log, tmp, { self with first := none })

/-- Move constructor `UniquePtr(UniquePtr&& other)` (lines 42-43; lines 45-49
store the same two values): the log, the new handle and `other`. -/
def move (log : Calls) (other : UniquePtr) : Calls × UniquePtr × UniquePtr :=
  let r := Release log other
  (r.1, { first := r.2.1, second := r.2.2.second }, r.2.2)

/-- Assignment `operator=(UniquePtr&& other)` (lines 56-64): the log, `*this`
and `other`; `same` is the outcome of the test `this != &other` being false. -/
def moveAssign (log : Calls) (self other : UniquePtr) (same : Bool) :
    Calls × UniquePtr × UniquePtr :=
  if same then (log, self, other)
  else
    let log1 := log ++ [(self.second, self.first)]
    (log1, { first := other.first, second := other.second }, { other with first := none })

/-- Assignment `operator=(std::nullptr_t)` (lines 66-70). -/
def assignNull (log : Calls) (self : UniquePtr) : Calls × UniquePtr :=
  (log ++ [(self.second, self.first)], { self with first := none })

/-- Destructor `~UniquePtr()` (lines 77-79). -/
def destructor (log : Calls) (self : UniquePtr) : Calls :=
  log ++ [(self.second, self.first)]

/-- Modifier `Reset(T* ptr = nullptr)` (lines 90-96). -/
def Reset (log : Calls) (self : UniquePtr) (ptr : Ptr) : Calls × UniquePtr :=
  match self.first with
  | some a =>
    let tmp : Ptr := some a
    (log ++ [(self.second, tmp)], { self with first := ptr })
  | none => (log, self)

/-- Modifier `Swap` (lines 98-101). -/
def Swap (self other : UniquePtr) : UniquePtr × UniquePtr :=
  ({ first := other.first, second := other.second },
    { first := self.first, second := self.second })

/-- Observer `Get()` (lines 106-108). -/
def Get (self : UniquePtr) : Ptr := self.first

/-- Observer `GetDeleter()` (lines 109-114). -/
def GetDeleter (self : UniquePtr) : Deleter := self.second

/-- Conversion `explicit operator bool()` (lines 115-117). -/
def toBool (self : UniquePtr) : Bool := self.first.isSome

end UniquePtr

/-- The specialisation `UniquePtr<T[], Deleter>` (lines 135-162) has the same
member `pair_`. -/
abbrev UniquePtrArray := UniquePtr

namespace UniquePtrArray

/-- Constructor `explicit UniquePtr(T* ptr = nullptr)` of the array
specialisation (line 138). -/
def fromRaw (ptr : Ptr) : UniquePtrArray := { first := ptr, second := 0 }

/-- Modifier `Reset(T* ptr = nullptr)` of the array specialisation (lines
140-146). -/
def Reset (log : Calls) (self : UniquePtrArray) (ptr : Ptr) : Calls × UniquePtrArray :=
  match self.first with
  | some a =>
    let tmp : Ptr := some a
    (log ++ [(self.second, tmp)], { self with first := ptr })
  | none => (log, self)

/-- Destructor of the array specialisation (lines 148-150). -/
def destructor (log : Calls) (self : UniquePtrArray) : Calls :=
  log ++ [(self.second, self.first)]

end UniquePtrArray

/-! ## The single-counter `SharedPtr` (src/shared/shared.h)

The second implementation of `SharedPtr`: its control block has `strong_cnt`
only and is deleted when that reaches 0; the destructor of the block destroys
the object.  Same heap encoding and the same two ghost tallies as above. -/

namespace Single

/-- Control block of `src/shared/shared.h`: `struct ControlBlockBase` (lines
11-14) with the discriminator of its derived class and the two ghost
tallies. -/
structure ControlBlockBase where
  strong_cnt : Nat := 1
  kind : BlockKind := BlockKind.emplace
  destroyed : Nat := 0
  freed : Nat := 0
deriving DecidableEq

/-- Destructor `~ControlBlockPointer` (lines 20-22): `delete ptr_`. -/
def ControlBlockPointer.destructor (c : ControlBlockBase) : ControlBlockBase :=
  { c with destroyed := c.destroyed + 1 }

/-- Destructor `~ControlBlockEmplace` (lines 32-34): `std::destroy_at` on the
storage. -/
def ControlBlockEmplace.destructor (c : ControlBlockBase) : ControlBlockBase :=
  { c with destroyed := c.destroyed + 1 }

namespace ControlBlockBase

/-- The statement `delete block_`: the virtual destructor runs, then the
block's memory is returned. -/
def delete (c : ControlBlockBase) : ControlBlockBase :=
  let c1 := match c.kind with
    | BlockKind.pointer _ => ControlBlockPointer.destructor c
    | BlockKind.emplace => ControlBlockEmplace.destructor c
  { c1 with freed := c1.freed + 1 }

/-- The statement `block_->strong_cnt++`. -/
def incStrong (c : ControlBlockBase) : ControlBlockBase :=
  { c with strong_cnt := incr c.strong_cnt }

/-- The statement `--block_->strong_cnt`. -/
def decStrong (c : ControlBlockBase) : ControlBlockBase :=
  { c with strong_cnt := decr c.strong_cnt }

/-- The release sequence of the destructor, of every `Reset` and of both
assignment operators (lines 115-120, 132-137, 150-155, 162-167, 173-178,
185-190): decrement, then delete the block at 0. -/
def releaseStrong (c : ControlBlockBase) : ControlBlockBase :=
  let c1 := c.decStrong
  if c1.strong_cnt = 0 then c1.delete else c1

end ControlBlockBase

/-- The heap of control blocks; `new` appends, a block id is its index. -/
abbrev Heap := List ControlBlockBase

namespace Heap

/-- Update the block with id `b`, if there is one. -/
def modify (heap : Heap) (b : Nat) (f : ControlBlockBase → ControlBlockBase) : Heap :=
  match heap[b]? with
  | some c => heap.set b (f c)
  | none => heap

/-- Read `block->strong_cnt`. -/
def strong (heap : Heap) (b : Nat) : Nat :=
  match heap[b]? with
  | some c => c.strong_cnt
  | none => 0

end Heap

/-- The two data members of `SharedPtr` (lines 245-246), the same as in
`src/shared-from-this/shared.h`. -/
abbrev SharedPtr := Handle

namespace SharedPtr

/-- Constructors `SharedPtr()` and `SharedPtr(std::nullptr_t)` (lines 44-46). -/
def default : SharedPtr := {}

/-- Constructor `explicit SharedPtr(T* ptr)` (lines 47-50; lines 52-56 have the
same body). -/
def fromRaw (heap : Heap) (ptr : Ptr) : Heap × SharedPtr :=
  let block := heap.length
  let heap1 := heap ++ [{ kind := BlockKind.pointer ptr }]
  (heap1, { block_ := some block, ptr_ := ptr })

/-- Constructor `SharedPtr(ControlBlockEmplace<T>* block)` (lines 90-93). -/
def fromEmplace (heap : Heap) (block : Nat) : Heap × SharedPtr :=
  (heap, { block_ := some block, ptr_ := some (Addr.storage block) })

/-- Copy constructor (lines 58-64; lines 66-73 have the same body). -/
def copy (heap : Heap) (other : SharedPtr) : Heap × SharedPtr :=
  let self : SharedPtr := { block_ := other.block_ }
  let heap1 := match self.block_ with
    | some b => heap.modify b ControlBlockBase.incStrong
    | none => heap
  (heap1, { self with ptr_ := other.ptr_ })

/-- Move constructor (lines 75-80): the new handle and the moved-from `other`. -/
def move (other : SharedPtr) : SharedPtr × SharedPtr :=
  ({ block_ := other.block_, ptr_ := other.ptr_ }, { block_ := none, ptr_ := none })

/-- The aliasing constructor (lines 97-104). -/
def aliasing (heap : Heap) (other : SharedPtr) (ptr : Ptr) : Heap × SharedPtr :=
  let self : SharedPtr := { ptr_ := ptr }
  match other.block_ with
  | some b => (heap.modify b ControlBlockBase.incStrong, { self with block_ := some b })
  | none => (heap, self)

/-- Observer `UseCount()` (lines 233-238). -/
def UseCount (heap : Heap) (self : SharedPtr) : Nat :=
  match self.block_ with
  | some b => heap.strong b
  | none => 0

/-- Observer `Get()` (lines 217-223). -/
def Get (self : SharedPtr) : Ptr := self.ptr_

/-- Conversion `explicit operator bool()` (lines 240-242). -/
def toBool (self : SharedPtr) : Bool := self.block_.isSome

/-- The release block at the head of the destructor, of every `Reset` and of
both assignment operators: `if (block_) { --block_->strong_cnt; ... }`. -/
def releaseBlock (heap : Heap) (self : SharedPtr) : Heap :=
  match self.block_ with
  | some b => heap.modify b ControlBlockBase.releaseStrong
  | none => heap

/-- Destructor `~SharedPtr()` (lines 149-156). -/
def destructor (heap : Heap) (self : SharedPtr) : Heap :=
  releaseBlock heap self

/-- Modifier `void Reset()` (lines 161-170). -/
def Reset (heap : Heap) (self : SharedPtr) : Heap × SharedPtr :=
  (releaseBlock heap self, { self with block_ := none, ptr_ := none })

/-- Modifier `void Reset(T* ptr)` (lines 172-181; lines 183-193 have the same
body). -/
def ResetPtr (heap : Heap) (self : SharedPtr) (ptr : Ptr) : Heap × SharedPtr :=
  let heap1 := releaseBlock heap self
  let block := heap1.length
  (heap1 ++ [{ kind := BlockKind.pointer ptr }], { self with block_ := some block, ptr_ := ptr })

/-- Assignment `operator=(const SharedPtr& other)` (lines 113-128); `same` is
the outcome of the test `this != &other` being false. -/
def copyAssign (heap : Heap) (self other : SharedPtr) (same : Bool) : Heap × SharedPtr :=
  if same then (heap, self)
  else
    let heap1 := releaseBlock heap self
    let self1 : SharedPtr := { self with ptr_ := other.ptr_, block_ := other.block_ }
    match self1.block_ with
    | some b => (heap1.modify b ControlBlockBase.incStrong, self1)
    | none => (heap1, self1)

/-- Assignment `operator=(SharedPtr&& other)` (lines 130-144): the heap,
`*this` and `other`. -/
def moveAssign (heap : Heap) (self other : SharedPtr) (same : Bool) :
    Heap × SharedPtr × SharedPtr :=
  if same then (heap, self, other)
  else
    let heap1 := releaseBlock heap self
    (heap1, { self with block_ := other.block_, ptr_ := other.ptr_ },
      { other with block_ := none, ptr_ := none })

/-- Modifier `Swap` (lines 195-198). -/
def Swap (self other : SharedPtr) : SharedPtr × SharedPtr :=
  ({ block_ := other.block_, ptr_ := other.ptr_ }, { block_ := self.block_, ptr_ := self.ptr_ })

end SharedPtr

/-- Factory `MakeShared` (lines 253-257). -/
def MakeShared (heap : Heap) : Heap × SharedPtr :=
  let block := heap.length
  SharedPtr.fromEmplace (heap ++ [{ kind := BlockKind.emplace }]) block

end Single

/-! ## Programs over handles

A client program is a sequence of constructor calls, member calls and
destructor calls on handle objects.  A handle object is named by its slot in
a table; a slot holds `some h` while the object is alive and `none` once its
destructor has run.  A statement that names a slot which is not alive is not a
statement a client can write, and leaves the state as it is. -/

/-- The heap together with all handle objects created so far. -/
structure State where
  blocks : Heap := []
  shared : List (Option SharedPtr) := []
  weak : List (Option WeakPtr) := []
deriving DecidableEq

namespace State

/-- The live `SharedPtr` object in slot `i`, if any. -/
def sh (s : State) (i : Nat) : Option SharedPtr := (s.shared[i]?).join

/-- The live `WeakPtr` object in slot `i`, if any. -/
def wk (s : State) (i : Nat) : Option WeakPtr := (s.weak[i]?).join

end State

/-- Whether a slot is a live handle holding block `b`. -/
def holds (b : Nat) (o : Option Handle) : Bool :=
  match o with
  | some h => decide (h.block_ = some b)
  | none => false

/-- Number of live handles in a table that hold block `b`. -/
def holders (l : List (Option Handle)) (b : Nat) : Nat := l.countP (holds b)

/-- Number of live `SharedPtr` objects holding block `b`. -/
def State.sharedHolders (s : State) (b : Nat) : Nat := holders s.shared b

/-- Number of live `WeakPtr` objects holding block `b`. -/
def State.weakHolders (s : State) (b : Nat) : Nat := holders s.weak b

/-- One statement of a client program. -/
inductive Op where
  | sDefault
  | sRaw (p : Ptr)
  | sMake
  | sCopy (j : Nat)
  | sMove (j : Nat)
  | sAlias (j : Nat) (p : Ptr)
  | sPromote (w : Nat)
  | sCopyAssign (i j : Nat)
  | sMoveAssign (i j : Nat)
  | sDtor (i : Nat)
  | sReset (i : Nat)
  | sResetPtr (i : Nat) (p : Ptr)
  | sSwap (i j : Nat)
  | wDefault
  | wCopy (j : Nat)
  | wMove (j : Nat)
  | wFromShared (j : Nat)
  | wCopyAssign (i j : Nat)
  | wMoveAssign (i j : Nat)
  | wDtor (i : Nat)
  | wReset (i : Nat)
  | wSwap (i j : Nat)
  | wLock (i : Nat)
deriving DecidableEq

/-- Whether the statement is a call of `WeakPtr::Lock`. -/
def Op.isLock : Op → Bool
  | Op.wLock _ => true
  | _ => false

/-- Execute one statement. -/
def step (s : State) : Op → State
  | Op.sDefault => { s with shared := s.shared ++ [some SharedPtr.default] }
  | Op.sRaw p =>
    let r := SharedPtr.fromRaw s.blocks p
    { s with blocks := r.1, shared := s.shared ++ [some r.2] }
  | Op.sMake =>
    let r := MakeShared s.blocks
    { s with blocks := r.1, shared := s.shared ++ [some r.2] }
  | Op.sCopy j =>
    match s.sh j with
    | some o =>
      let r := SharedPtr.copy s.blocks o
      { s with blocks := r.1, shared := s.shared ++ [some r.2] }
    | none => s
  | Op.sMove j =>
    match s.sh j with
    | some o =>
      let r := SharedPtr.move o
      { s with shared := s.shared.set j (some r.2) ++ [some r.1] }
    | none => s
  | Op.sAlias j p =>
    match s.sh j with
    | some o =>
      let r := SharedPtr.aliasing s.blocks o p
      { s with blocks := r.1, shared := s.shared ++ [some r.2] }
    | none => s
  | Op.sPromote w =>
    match s.wk w with
    | some o =>
      match SharedPtr.promote s.blocks o with
      | (heap, Except.ok h) => { s with blocks := heap, shared := s.shared ++ [some h] }
      | (heap, Except.error _) => { s with blocks := heap }
    | none => s
  | Op.sCopyAssign i j =>
    match s.sh i, s.sh j with
    | some a, some o =>
      let r := SharedPtr.copyAssign s.blocks a o (decide (i = j))
      { s with blocks := r.1, shared := s.shared.set i (some r.2) }
    | _, _ => s
  | Op.sMoveAssign i j =>
    match s.sh i, s.sh j with
    | some a, some o =>
      let r := SharedPtr.moveAssign s.blocks a o (decide (i = j))
      { s with blocks := r.1, shared := (s.shared.set j (some r.2.2)).set i (some r.2.1) }
    | _, _ => s
  | Op.sDtor i =>
    match s.sh i with
    | some a => { s with blocks := SharedPtr.destructor s.blocks a, shared := s.shared.set i none }
    | none => s
  | Op.sReset i =>
    match s.sh i with
    | some a =>
      let r := SharedPtr.Reset s.blocks a
      { s with blocks := r.1, shared := s.shared.set i (some r.2) }
    | none => s
  | Op.sResetPtr i p =>
    match s.sh i with
    | some a =>
      let r := SharedPtr.ResetPtr s.blocks a p
      { s with blocks := r.1, shared := s.shared.set i (some r.2) }
    | none => s
  | Op.sSwap i j =>
    match s.sh i, s.sh j with
    | some a, some o =>
      let r := SharedPtr.Swap a o
      { s with shared := (s.shared.set i (some r.1)).set j (some r.2) }
    | _, _ => s
  | Op.wDefault => { s with weak := s.weak ++ [some WeakPtr.default] }
  | Op.wCopy j =>
    match s.wk j with
    | some o =>
      let r := WeakPtr.copy s.blocks o
      { s with blocks := r.1, weak := s.weak ++ [some r.2] }
    | none => s
  | Op.wMove j =>
    match s.wk j with
    | some o =>
      let r := WeakPtr.move o
      { s with weak := s.weak.set j (some r.2) ++ [some r.1] }
    | none => s
  | Op.wFromShared j =>
    match s.sh j with
    | some o =>
      let r := WeakPtr.fromShared s.blocks o
      { s with blocks := r.1, weak := s.weak ++ [some r.2] }
    | none => s
  | Op.wCopyAssign i j =>
    match s.wk i, s.wk j with
    | some a, some o =>
      let r := WeakPtr.copyAssign s.blocks a o (decide (i = j))
      { s with blocks := r.1, weak := s.weak.set i (some r.2) }
    | _, _ => s
  | Op.wMoveAssign i j =>
    match s.wk i, s.wk j with
    | some a, some o =>
      let r := WeakPtr.moveAssign s.blocks a o (decide (i = j))
      { s with blocks := r.1, weak := (s.weak.set j (some r.2.2)).set i (some r.2.1) }
    | _, _ => s
  | Op.wDtor i =>
    match s.wk i with
    | some a => { s with blocks := WeakPtr.destructor s.blocks a, weak := s.weak.set i none }
    | none => s
  | Op.wReset i =>
    match s.wk i with
    | some a =>
      let r := WeakPtr.Reset s.blocks a
      { s with blocks := r.1, weak := s.weak.set i (some r.2) }
    | none => s
  | Op.wSwap i j =>
    match s.wk i, s.wk j with
    | some a, some o =>
      let r := WeakPtr.Swap a o
      { s with weak := (s.weak.set i (some r.1)).set j (some r.2) }
    | _, _ => s
  | Op.wLock i =>
    match s.wk i with
    | some w =>
      let r := WeakPtr.Lock s.blocks w
      { s with blocks := r.1, shared := s.shared ++ [some r.2] }
    | none => s

/-- Execute a program. -/
def run (s : State) : List Op → State
  | [] => s
  | op :: ops => run (step s op) ops

/-- The state before the first statement: no block, no handle. -/
def State.init : State := {}

/-! ## Programs over shared handles only, on both implementations -/

/-- One statement of a client program that uses `SharedPtr` only: the
constructors, copy, move, the assignments, `Reset()`, `Reset(T*)`, `Swap` and
the destructor.  Both `shared.h` files define every one of them. -/
inductive SharedOp where
  | sDefault
  | sRaw (p : Ptr)
  | sMake
  | sCopy (j : Nat)
  | sMove (j : Nat)
  | sAlias (j : Nat) (p : Ptr)
  | sCopyAssign (i j : Nat)
  | sMoveAssign (i j : Nat)
  | sDtor (i : Nat)
  | sReset (i : Nat)
  | sResetPtr (i : Nat) (p : Ptr)
  | sSwap (i j : Nat)
deriving DecidableEq

/-- The same statement as a statement of the program machine of
`src/shared-from-this/shared.h`. -/
def SharedOp.toOp : SharedOp → Op
  | SharedOp.sDefault => Op.sDefault
  | SharedOp.sRaw p => Op.sRaw p
  | SharedOp.sMake => Op.sMake
  | SharedOp.sCopy j => Op.sCopy j
  | SharedOp.sMove j => Op.sMove j
  | SharedOp.sAlias j p => Op.sAlias j p
  | SharedOp.sCopyAssign i j => Op.sCopyAssign i j
  | SharedOp.sMoveAssign i j => Op.sMoveAssign i j
  | SharedOp.sDtor i => Op.sDtor i
  | SharedOp.sReset i => Op.sReset i
  | SharedOp.sResetPtr i p => Op.sResetPtr i p
  | SharedOp.sSwap i j => Op.sSwap i j

namespace Single

/-- A program state of `src/shared/shared.h`: the heap and the table of every
`SharedPtr` object created so far (`none` once its destructor has run). -/
structure State where
  blocks : Heap := []
  shared : List (Option SharedPtr) := []

/-- The live handle in slot `i`, if any. -/
def State.sh (s : State) (i : Nat) : Option SharedPtr := (s.shared[i]?).join

/-- Execute one statement; a statement that names a slot without a live handle
is not a program statement and leaves the state as it is. -/
def step (s : State) : SharedOp → State
  | SharedOp.sDefault => { s with shared := s.shared ++ [some SharedPtr.default] }
  | SharedOp.sRaw p =>
    let r := SharedPtr.fromRaw s.blocks p
    { s with blocks := r.1, shared := s.shared ++ [some r.2] }
  | SharedOp.sMake =>
    let r := MakeShared s.blocks
    { s with blocks := r.1, shared := s.shared ++ [some r.2] }
  | SharedOp.sCopy j =>
    match s.sh j with
    | some o =>
      let r := SharedPtr.copy s.blocks o
      { s with blocks := r.1, shared := s.shared ++ [some r.2] }
    | none => s
  | SharedOp.sMove j =>
    match s.sh j with
    | some o =>
      let r := SharedPtr.move o
      { s with shared := s.shared.set j (some r.2) ++ [some r.1] }
    | none => s
  | SharedOp.sAlias j p =>
    match s.sh j with
    | some o =>
      let r := SharedPtr.aliasing s.blocks o p
      { s with blocks := r.1, shared := s.shared ++ [some r.2] }
    | none => s
  | SharedOp.sCopyAssign i j =>
    match s.sh i, s.sh j with
    | some a, some o =>
      let r := SharedPtr.copyAssign s.blocks a o (decide (i = j))
      { s with blocks := r.1, shared := s.shared.set i (some r.2) }
    | _, _ => s
  | SharedOp.sMoveAssign i j =>
    match s.sh i, s.sh j with
    | some a, some o =>
      let r := SharedPtr.moveAssign s.blocks a o (decide (i = j))
      { s with blocks := r.1, shared := (s.shared.set j (some r.2.2)).set i (some r.2.1) }
    | _, _ => s
  | SharedOp.sDtor i =>
    match s.sh i with
    | some a => { s with blocks := SharedPtr.destructor s.blocks a, shared := s.shared.set i none }
    | none => s
  | SharedOp.sReset i =>
    match s.sh i with
    | some a =>
      let r := SharedPtr.Reset s.blocks a
      { s with blocks := r.1, shared := s.shared.set i (some r.2) }
    | none => s
  | SharedOp.sResetPtr i p =>
    match s.sh i with
    | some a =>
      let r := SharedPtr.ResetPtr s.blocks a p
      { s with blocks := r.1, shared := s.shared.set i (some r.2) }
    | none => s
  | SharedOp.sSwap i j =>
    match s.sh i, s.sh j with
    | some a, some o =>
      let r := SharedPtr.Swap a o
      { s with shared := (s.shared.set i (some r.1)).set j (some r.2) }
    | _, _ => s

/-- Execute a program. -/
def run (s : State) : List SharedOp → State
  | [] => s
  | op :: ops => run (step s op) ops

/-- The state before the first statement: no block, no handle. -/
def State.init : State := {}

end Single

/-! ## Objects that hold handles

The program machine above is for a plain element type: destroying a managed
object runs no code of `shared.h` or `weak.h`, so `delete ptr_` is one update
of the block and a handle named by a statement is still there when the
statement reads it.  Here a managed object may have `SharedPtr` and `WeakPtr`
members.  `delete ptr_` and `std::destroy_at` then run the destructors of the
members, inside the release sequence that called them, and everything is
read from memory at the moment the source reads it.  Memory keeps its last
values after a destructor or a `delete`, as the heap above does. -/

/-- A `SharedPtr` or `WeakPtr` object in memory: its two data members, whether
it is a `WeakPtr`, the managed object it is a member of (`none` for a variable
of the program) and a ghost tally of the runs of its destructor. -/
structure Cell where
  isWeak : Bool := false
  block_ : Option Nat := none
  ptr_ : Ptr := none
  owner : Option Addr := none
  ended : Nat := 0
deriving DecidableEq

/-- Memory: the heap of control blocks and every handle object created so
far. -/
structure Mem where
  blocks : Heap := []
  cells : List Cell := []
deriving DecidableEq

namespace Mem

/-- Update the block with id `b`, if there is one. -/
def modBlock (m : Mem) (b : Nat) (f : ControlBlockBase → ControlBlockBase) : Mem :=
  { m with blocks := m.blocks.modify b f }

/-- Update the handle object with index `i`, if there is one. -/
def modCell (m : Mem) (i : Nat) (f : Cell → Cell) : Mem :=
  match m.cells[i]? with
  | some c => { m with cells := m.cells.set i (f c) }
  | none => m

/-- The handle members of the object at address `a`, last declared first (the
order in which the destructor of the object ends them); a null address is
the address of no object. -/
def membersOf (m : Mem) (a : Ptr) : List Nat :=
  match a with
  | some x =>
    ((List.range m.cells.length).filter
      (fun i => match m.cells[i]? with
        | some c => decide (c.owner = some x)
        | none => false)).reverse
  | none => []

/-- The `SharedPtr` with index `i` whose destructor has not run, if any. -/
def sh (m : Mem) (i : Nat) : Option Cell :=
  match m.cells[i]? with
  | some c => if c.isWeak = false ∧ c.ended = 0 then some c else none
  | none => none

/-- The `WeakPtr` with index `i` whose destructor has not run, if any. -/
def wk (m : Mem) (i : Nat) : Option Cell :=
  match m.cells[i]? with
  | some c => if c.isWeak = true ∧ c.ended = 0 then some c else none
  | none => none

/-- Observer `UseCount()` (shared.h lines 311-316) of the handle with index `i`. -/
def UseCount (m : Mem) (i : Nat) : Nat :=
  match m.cells[i]? with
  | some c =>
    match c.block_ with
    | some b => m.blocks.strong b
    | none => 0
  | none => 0

/-- Number of `SharedPtr` objects whose destructor has not run and that hold
block `b`. -/
def sharedHolders (m : Mem) (b : Nat) : Nat :=
  m.cells.countP (fun c => decide (c.isWeak = false ∧ c.ended = 0 ∧ c.block_ = some b))

/-- Number of `WeakPtr` objects whose destructor has not run and that hold
block `b`. -/
def weakHolders (m : Mem) (b : Nat) : Nat :=
  m.cells.countP (fun c => decide (c.isWeak = true ∧ c.ended = 0 ∧ c.block_ = some b))

end Mem

/-- What a run gives: the memory it reached and whether it returned; `done`
is false when the run was cut off, and `mem` is then the memory at that
moment. -/
structure Outcome where
  mem : Mem
  done : Bool
deriving DecidableEq

/-- The pieces of code that call one another when a handle lets go of its
block. -/
inductive Call where
  | releaseShared (i : Nat)
  | releaseWeak (i : Nat)
  | deleteBlock (b : Nat)
  | DeletePtr (b : Nat)
  | deleteObject (b : Nat)
  | destroyMembers (l : List Nat)
deriving DecidableEq

/-- Run one call, nested calls included, for at most `fuel` levels of nesting.

* `releaseShared i`: the release block of the `SharedPtr` with index `i`
  (shared.h lines 176-183, 196-203, 216-224, 231-239, 245-253).
* `releaseWeak i`: the release block of the `WeakPtr` with index `i` (weak.h
  lines 44-51, 63-70, 83-90, 97-104).
* `deleteBlock b`: `delete block_`; the destructor of the block (shared.h
  lines 33-37, 54-58) runs, then the memory of the block is returned.
* `DeletePtr b`: the virtual call (shared.h lines 27-32, 47-52); the flag is
  set when `delete ptr_` (`std::destroy_at`) has returned.
* `deleteObject b`: `delete ptr_` (`std::destroy_at`) on the object of block
  `b`: the destructor of the object ends its handle members.
* `destroyMembers l`: the destructors of the handle objects `l`, in turn. -/
def exec : Nat → Call → Mem → Outcome
  | 0, _, m => { mem := m, done := false }
  | fuel + 1, Call.releaseShared i, m =>
    match (m.cells[i]?).bind Cell.block_ with
    | some b =>
      let m1 := m.modBlock b ControlBlockBase.decStrong
      if m1.blocks.strong b = 0 ∧ m1.blocks.weak b = 0 then exec fuel (Call.deleteBlock b) m1
      else if m1.blocks.strong b = 0 then
        let r := exec fuel (Call.DeletePtr b) m1
        if r.done then
          { mem := r.mem.modCell i (fun c => { c with ptr_ := none }), done := true }
        else r
      else { mem := m1, done := true }
    | none => { mem := m, done := true }
  | fuel + 1, Call.releaseWeak i, m =>
    match (m.cells[i]?).bind Cell.block_ with
    | some b =>
      let m1 := m.modBlock b ControlBlockBase.decWeak
      if m1.blocks.strong b = 0 ∧ m1.blocks.weak b = 0 then exec fuel (Call.deleteBlock b) m1
      else if m1.blocks.strong b = 0 then exec fuel (Call.DeletePtr b) m1
      else { mem := m1, done := true }
    | none => { mem := m, done := true }
  | fuel + 1, Call.deleteBlock b, m =>
    match m.blocks[b]? with
    | some c =>
      let r := if c.ptr_deleted = false then exec fuel (Call.deleteObject b) m
        else { mem := m, done := true }
      if r.done then
        { mem := r.mem.modBlock b (fun c => { c with freed := c.freed + 1 }), done := true }
      else r
    | none => { mem := m, done := true }
  | fuel + 1, Call.DeletePtr b, m =>
    match m.blocks[b]? with
    | some c =>
      if c.ptr_deleted = false then
        let r := exec fuel (Call.deleteObject b) m
        if r.done then
          { mem := r.mem.modBlock b (fun c => { c with ptr_deleted := true }), done := true }
        else r
      else { mem := m, done := true }
    | none => { mem := m, done := true }
  | fuel + 1, Call.deleteObject b, m =>
    match m.blocks[b]? with
    | some c =>
      let m1 := m.modBlock b (fun c => { c with destroyed := c.destroyed + 1 })
      let a : Ptr := match c.kind with
        | BlockKind.pointer p => p
        | BlockKind.emplace => some (Addr.storage b)
      exec fuel (Call.destroyMembers (m1.membersOf a)) m1
    | none => { mem := m, done := true }
  | _ + 1, Call.destroyMembers [], m => { mem := m, done := true }
  | fuel + 1, Call.destroyMembers (i :: l), m =>
    match m.cells[i]? with
    | some c =>
      let r := exec fuel (if c.isWeak then Call.releaseWeak i else Call.releaseShared i) m
      if r.done then
        exec fuel (Call.destroyMembers l) (r.mem.modCell i (fun c => { c with ended := c.ended + 1 }))
      else r
    | none => exec fuel (Call.destroyMembers l) m

/-- One statement of a client program whose objects may hold handles.  A
constructor names the object the new handle is a member of (`none` for a
variable of the program); the other statements name handle objects by
index. -/
inductive Stmt where
  | sDefault (owner : Option Addr)
  | sRaw (owner : Option Addr) (p : Ptr)
  | sMake (owner : Option Addr)
  | sCopy (owner : Option Addr) (j : Nat)
  | sMove (owner : Option Addr) (j : Nat)
  | sCopyAssign (i j : Nat)
  | sMoveAssign (i j : Nat)
  | sDtor (i : Nat)
  | sReset (i : Nat)
  | sResetPtr (i : Nat) (p : Ptr)
  | wDefault (owner : Option Addr)
  | wCopy (owner : Option Addr) (j : Nat)
  | wFromShared (owner : Option Addr) (j : Nat)
  | wCopyAssign (i j : Nat)
  | wMoveAssign (i j : Nat)
  | wDtor (i : Nat)
  | wReset (i : Nat)
deriving DecidableEq

/-- Execute one statement with `fuel` levels of nesting for the calls it
makes.  A statement that names a handle whose destructor has run, or one of
the wrong class, is not a program statement and leaves the memory as it is.
An assignment runs its release block first and reads `other` from memory
afterwards, as shared.h lines 184-186 and 204-207 and weak.h lines 52-55 and
71-74 do. -/
def execStmt (fuel : Nat) (m : Mem) : Stmt → Outcome
  | Stmt.sDefault owner =>
    { mem := { m with cells := m.cells ++ [{ owner := owner }] }, done := true }
  | Stmt.sRaw owner p =>
    let block := m.blocks.length
    { mem := { blocks := m.blocks ++ [{ kind := BlockKind.pointer p }],
               cells := m.cells ++ [{ block_ := some block, ptr_ := p, owner := owner }] },
      done := true }
  | Stmt.sMake owner =>
    let block := m.blocks.length
    { mem := { blocks := m.blocks ++ [{ kind := BlockKind.emplace }],
               cells := m.cells ++
                 [{ block_ := some block, ptr_ := some (Addr.storage block), owner := owner }] },
      done := true }
  | Stmt.sCopy owner j =>
    match m.sh j with
    | some o =>
      let m1 : Mem := { m with cells := m.cells ++
        [{ block_ := o.block_, ptr_ := o.ptr_, owner := owner }] }
      match o.block_ with
      | some b => { mem := m1.modBlock b ControlBlockBase.incStrong, done := true }
      | none => { mem := m1, done := true }
    | none => { mem := m, done := true }
  | Stmt.sMove owner j =>
    match m.sh j with
    | some o =>
      let m1 : Mem := { m with cells := m.cells ++
        [{ block_ := o.block_, ptr_ := o.ptr_, owner := owner }] }
      { mem := m1.modCell j (fun c => { c with block_ := none, ptr_ := none }), done := true }
    | none => { mem := m, done := true }
  | Stmt.sCopyAssign i j =>
    match m.sh i, m.sh j with
    | some _, some _ =>
      if i = j then { mem := m, done := true }
      else
        let r := exec fuel (Call.releaseShared i) m
        if r.done then
          match r.mem.cells[j]? with
          | some o =>
            let m1 := r.mem.modCell i (fun c => { c with ptr_ := o.ptr_, block_ := o.block_ })
            match o.block_ with
            | some b => { mem := m1.modBlock b ControlBlockBase.incStrong, done := true }
            | none => { mem := m1, done := true }
          | none => r
        else r
    | _, _ => { mem := m, done := true }
  | Stmt.sMoveAssign i j =>
    match m.sh i, m.sh j with
    | some _, some _ =>
      if i = j then { mem := m, done := true }
      else
        let r := exec fuel (Call.releaseShared i) m
        if r.done then
          match r.mem.cells[j]? with
          | some o =>
            let m1 := r.mem.modCell i (fun c => { c with block_ := o.block_, ptr_ := o.ptr_ })
            { mem := m1.modCell j (fun c => { c with block_ := none, ptr_ := none }),
              done := true }
          | none => r
        else r
    | _, _ => { mem := m, done := true }
  | Stmt.sDtor i =>
    match m.sh i with
    | some _ =>
      let r := exec fuel (Call.releaseShared i) m
      if r.done then
        { mem := r.mem.modCell i (fun c => { c with ended := c.ended + 1 }), done := true }
      else r
    | none => { mem := m, done := true }
  | Stmt.sReset i =>
    match m.sh i with
    | some _ =>
      let r := exec fuel (Call.releaseShared i) m
      if r.done then
        { mem := r.mem.modCell i (fun c => { c with block_ := none, ptr_ := none }),
          done := true }
      else r
    | none => { mem := m, done := true }
  | Stmt.sResetPtr i p =>
    match m.sh i with
    | some _ =>
      let r := exec fuel (Call.releaseShared i) m
      if r.done then
        let block := r.mem.blocks.length
        let m1 : Mem := { r.mem with blocks := r.mem.blocks ++ [{ kind := BlockKind.pointer p }] }
        { mem := m1.modCell i (fun c => { c with block_ := some block, ptr_ := p }),
          done := true }
      else r
    | none => { mem := m, done := true }
  | Stmt.wDefault owner =>
    { mem := { m with cells := m.cells ++ [{ isWeak := true, owner := owner }] }, done := true }
  | Stmt.wCopy owner j =>
    match m.wk j with
    | some o =>
      let m1 : Mem := { m with cells := m.cells ++
        [{ isWeak := true, block_ := o.block_, ptr_ := o.ptr_, owner := owner }] }
      match o.block_ with
      | some b => { mem := m1.modBlock b ControlBlockBase.incWeak, done := true }
      | none => { mem := m1, done := true }
    | none => { mem := m, done := true }
  | Stmt.wFromShared owner j =>
    match m.sh j with
    | some o =>
      let m1 : Mem := { m with cells := m.cells ++
        [{ isWeak := true, block_ := o.block_, ptr_ := o.ptr_, owner := owner }] }
      match o.block_ with
      | some b => { mem := m1.modBlock b ControlBlockBase.incWeak, done := true }
      | none => { mem := m1, done := true }
    | none => { mem := m, done := true }
  | Stmt.wCopyAssign i j =>
    match m.wk i, m.wk j with
    | some _, some _ =>
      if i = j then { mem := m, done := true }
      else
        let r := exec fuel (Call.releaseWeak i) m
        if r.done then
          match r.mem.cells[j]? with
          | some o =>
            let m1 := r.mem.modCell i (fun c => { c with ptr_ := o.ptr_, block_ := o.block_ })
            match o.block_ with
            | some b => { mem := m1.modBlock b ControlBlockBase.incWeak, done := true }
            | none => { mem := m1, done := true }
          | none => r
        else r
    | _, _ => { mem := m, done := true }
  | Stmt.wMoveAssign i j =>
    match m.wk i, m.wk j with
    | some _, some _ =>
      if i = j then { mem := m, done := true }
      else
        let r := exec fuel (Call.releaseWeak i) m
        if r.done then
          match r.mem.cells[j]? with
          | some o =>
            let m1 := r.mem.modCell i (fun c => { c with block_ := o.block_, ptr_ := o.ptr_ })
            { mem := m1.modCell j (fun c => { c with block_ := none, ptr_ := none }),
              done := true }
          | none => r
        else r
    | _, _ => { mem := m, done := true }
  | Stmt.wDtor i =>
    match m.wk i with
    | some _ =>
      let r := exec fuel (Call.releaseWeak i) m
      if r.done then
        { mem := r.mem.modCell i (fun c => { c with ended := c.ended + 1 }), done := true }
      else r
    | none => { mem := m, done := true }
  | Stmt.wReset i =>
    match m.wk i with
    | some _ =>
      let r := exec fuel (Call.releaseWeak i) m
      if r.done then
        { mem := r.mem.modCell i (fun c => { c with block_ := none, ptr_ := none }),
          done := true }
      else r
    | none => { mem := m, done := true }

/-- Execute a program, every statement with `fuel` levels of nesting; a
statement that is cut off ends the run. -/
def execProg (fuel : Nat) (m : Mem) : List Stmt → Outcome
  | [] => { mem := m, done := true }
  | s :: l =>
    let r := execStmt fuel m s
    if r.done then execProg fuel r.mem l else r

/-! ## Vocabulary of the proofs

Everything below is used to state and prove invariants; none of it is part of
the embedded program.

### How a statement acts on one control block -/

/-- The ways one statement can act on one control block and on the number of
shared and weak handles holding it. -/
inductive Effect where
  | same
  | acqS
  | relS
  | acqW
  | relW
  | relAcqS
  | relAcqW
  | lock
deriving DecidableEq

namespace Effect

/-- The block afterwards. -/
def block : Effect → ControlBlockBase → ControlBlockBase
  | same => id
  | acqS => ControlBlockBase.incStrong
  | relS => fun c => c.releaseStrong.1
  | acqW => ControlBlockBase.incWeak
  | relW => ControlBlockBase.releaseWeak
  | relAcqS => fun c => c.releaseStrong.1.incStrong
  | relAcqW => fun c => c.releaseWeak.incWeak
  | lock => fun c => c.incStrong.incStrong

/-- The number of shared holders afterwards. -/
def sh : Effect → Nat → Nat
  | acqS, m => m + 1
  | relS, m => m - 1
  | lock, m => m + 1
  | _, m => m

/-- The number of weak holders afterwards. -/
def wk : Effect → Nat → Nat
  | acqW, n => n + 1
  | relW, n => n - 1
  | _, n => n

/-- What is known, when the effect happens, about the block's `strong_cnt` and
about the numbers of shared and weak holders: the statement was issued by a
holder (or, for an acquisition, took its share from one). -/
def pre : Effect → Nat → Nat → Nat → Prop
  | same, _, _, _ => True
  | acqS, k, m, n => 1 ≤ m ∨ (1 ≤ n ∧ k ≠ 0)
  | relS, _, m, _ => 1 ≤ m
  | acqW, _, m, n => 1 ≤ m ∨ 1 ≤ n
  | relW, _, _, n => 1 ≤ n
  | relAcqS, _, m, _ => 2 ≤ m
  | relAcqW, _, _, n => 2 ≤ n
  | lock, _, _, n => 1 ≤ n

end Effect

/-- Heap part of every constructor that takes a share of a block. -/
def Heap.acquireStrong (heap : Heap) (ob : Option Nat) : Heap :=
  match ob with
  | some x => heap.modify x ControlBlockBase.incStrong
  | none => heap

/-- Heap part of every `WeakPtr` constructor that takes a weak share. -/
def Heap.acquireWeak (heap : Heap) (ob : Option Nat) : Heap :=
  match ob with
  | some x => heap.modify x ControlBlockBase.incWeak
  | none => heap

/-- Heap part of the `SharedPtr` release block. -/
def Heap.dropStrong (heap : Heap) (ob : Option Nat) : Heap :=
  match ob with
  | some x => heap.modify x (fun c => c.releaseStrong.1)
  | none => heap

/-- Heap part of the `WeakPtr` release block. -/
def Heap.dropWeak (heap : Heap) (ob : Option Nat) : Heap :=
  match ob with
  | some x => heap.modify x ControlBlockBase.releaseWeak
  | none => heap

/-- One if the block pointer is `b`, zero otherwise. -/
def cntIf (ob : Option Nat) (b : Nat) : Nat := if ob = some b then 1 else 0

/-- One statement acts on block `b` by one of the effects. -/
def EffectOf (s : State) (op : Op) (b : Nat) : Prop :=
  ∃ e : Effect, e.pre (s.blocks.strong b) (s.sharedHolders b) (s.weakHolders b) ∧
      (step s op).blocks[b]? = (s.blocks[b]?).map e.block ∧
      (step s op).sharedHolders b = e.sh (s.sharedHolders b) ∧
      (step s op).weakHolders b = e.wk (s.weakHolders b) ∧
      (e = Effect.lock →
        op.isLock = true ∧ (step s op).shared.length = s.shared.length + 1)

/-! ### Invariants -/

/-- Whether the statement allocates a control block. -/
def Op.allocates : Op → Bool
  | Op.sRaw _ => true
  | Op.sMake => true
  | Op.sResetPtr _ _ => true
  | _ => false

/-- No handle points past the end of the heap. -/
def State.Valid (s : State) : Prop :=
  ∀ b, s.blocks.length ≤ b → s.sharedHolders b = 0 ∧ s.weakHolders b = 0

/-- The tables are small enough for no counter to wrap: fewer than `2^63`
`SharedPtr` objects and fewer than `2^64` `WeakPtr` objects were ever
created. -/
def State.inRange (s : State) : Prop :=
  2 * s.shared.length < SIZE_MOD ∧ s.weak.length < SIZE_MOD

/-- The relation between a block and the numbers `m`, `n` of shared and weak
handles holding it, in programs that never call `Lock`. -/
def Good (c : ControlBlockBase) (m n : Nat) : Prop :=
  c.strong_cnt = m ∧ c.weak_cnt = n ∧
  (m = 0 → c.destroyed = 1) ∧ (0 < m → c.destroyed = 0) ∧
  (m = 0 ∧ n = 0 → c.freed = 1) ∧ (0 < m ∨ 0 < n → c.freed = 0) ∧
  (c.ptr_deleted = true → m = 0) ∧ (m = 0 → 0 < n → c.ptr_deleted = true)

/-- The relation between a block and the numbers `m`, `n` of shared and weak
handles holding it, in arbitrary programs; `k` bounds the number of `Lock`
calls so far. -/
def Fair (c : ControlBlockBase) (m n k : Nat) : Prop :=
  m ≤ c.strong_cnt ∧ c.strong_cnt ≤ m + k ∧ c.weak_cnt = n ∧
  (c.strong_cnt = 0 ∧ n = 0 → c.freed = 1) ∧ (0 < c.strong_cnt ∨ 0 < n → c.freed = 0)

/-- Invariant of programs that never call `Lock`. -/
def Inv (s : State) : Prop :=
  s.Valid ∧ ∀ b c, s.blocks[b]? = some c → Good c (s.sharedHolders b) (s.weakHolders b)

/-- Invariant of arbitrary programs. -/
def InvL (s : State) : Prop :=
  s.Valid ∧
    ∀ b c, s.blocks[b]? = some c → Fair c (s.sharedHolders b) (s.weakHolders b) s.shared.length

/-- The statements of the first testable property: copy construction, move
construction, copy assignment, move assignment, `Reset()`, `Reset(T*)` and
destruction of shared handles. -/
def Op.isSharedBasic : Op → Bool
  | Op.sCopy _ => true
  | Op.sMove _ => true
  | Op.sCopyAssign _ _ => true
  | Op.sMoveAssign _ _ => true
  | Op.sReset _ => true
  | Op.sResetPtr _ _ => true
  | Op.sDtor _ => true
  | _ => false

/-- What is known about `ptr_deleted` in arbitrary programs: a block whose
object was destroyed through `DeletePtr` either has `strong_cnt == 0` or has a
`strong_cnt` above the number `m` of its shared holders (it was revived by
`Lock`); and a block with `strong_cnt == 0` that weak handles still hold has
had its object destroyed through `DeletePtr`. -/
def FairP (c : ControlBlockBase) (m n : Nat) : Prop :=
  (c.ptr_deleted = true → c.strong_cnt = 0 ∨ m < c.strong_cnt) ∧
  (c.strong_cnt = 0 → 0 < n → c.ptr_deleted = true)

/-- Invariant of arbitrary programs, with the facts about `ptr_deleted`. -/
def InvP (s : State) : Prop :=
  InvL s ∧ ∀ b c, s.blocks[b]? = some c → FairP c (s.sharedHolders b) (s.weakHolders b)

/-- The block of `src/shared-from-this/shared.h` that stands for a block of
`src/shared/shared.h` while no weak handle exists: the same `strong_cnt`, kind
and tallies, `weak_cnt` 0 and `ptr_deleted` false. -/
def Single.ControlBlockBase.dual (c : Single.ControlBlockBase) :
    SmartPtr.ControlBlockBase :=
  { strong_cnt := c.strong_cnt, weak_cnt := 0, ptr_deleted := false, kind := c.kind,
    destroyed := c.destroyed, freed := c.freed }

/-- The relation between a state of `src/shared/shared.h` and a state of
`src/shared-from-this/shared.h` that the same program of shared-handle
statements keeps: block by block the heaps correspond, the handle tables are
equal and there is no weak handle. -/
def Sim (t : Single.State) (s : State) : Prop :=
  s.blocks = t.blocks.map Single.ControlBlockBase.dual ∧ s.shared = t.shared ∧ s.weak = []

/-! ### Example programs -/

/-- The program `SharedPtr<T> h(p); WeakPtr<T> w(h);` with `p` the address 7:
one block, one shared and one weak handle. -/
def progShared : List Op := [Op.sRaw (some (Addr.raw 7)), Op.wFromShared 0]

/-- The program `SharedPtr<T> h(p); WeakPtr<T> w(h); h.Reset();`: afterwards
`w` is expired and its block is still allocated. -/
def progExpired : List Op := [Op.sRaw (some (Addr.raw 7)), Op.wFromShared 0, Op.sReset 0]

/-- The program `SharedPtr<T> a(p); SharedPtr<T> b(a);`: two shared handles on
one block. -/
def progTwoShared : List Op := [Op.sRaw (some (Addr.raw 7)), Op.sCopy 0]

/-- The program `struct Node { SharedPtr<Node> m; };  SharedPtr<Node> h(p0);
Node* n = new Node{h};  h.Reset(n);` with `p0` a `Node` at address 0 and `n` at
address 1: handle 0 is `p0->m`, handle 1 is `h`, handle 2 is `n->m`. -/
def progOwner : List Stmt :=
  [Stmt.sDefault (some (Addr.raw 0)), Stmt.sRaw none (some (Addr.raw 0)),
    Stmt.sCopy (some (Addr.raw 1)) 1, Stmt.sResetPtr 1 (some (Addr.raw 1))]

/-- The program `struct Node { SharedPtr<Node> next; };  SharedPtr<Node>
tail(n1);  SharedPtr<Node> head(new Node{tail});  tail.Reset();` with `n1` at
address 1 and the new node at address 0: handle 0 is `n1->next`, handle 1 is
`tail`, handle 2 is `head->next`, handle 3 is `head`. -/
def progList : List Stmt :=
  [Stmt.sDefault (some (Addr.raw 1)), Stmt.sRaw none (some (Addr.raw 1)),
    Stmt.sCopy (some (Addr.raw 0)) 1, Stmt.sRaw none (some (Addr.raw 0)), Stmt.sReset 1]

/-- The program `struct Node { WeakPtr<Node> self; };  SharedPtr<Node> h(n0);
h->self = h;` with `n0` at address 0: handle 0 is `n0->self`, handle 1 is `h`,
handle 2 is the temporary `WeakPtr<Node>(h)` of the assignment, which the
assignment moves from and which ends with the statement. -/
def progSelf : List Stmt :=
  [Stmt.wDefault (some (Addr.raw 0)), Stmt.sRaw none (some (Addr.raw 0)),
    Stmt.wFromShared none 1, Stmt.wMoveAssign 0 2, Stmt.wDtor 2]

/-- The program `struct Node { WeakPtr<Node> self; };  auto h =
MakeShared<Node>();  h->self = h;`: as `progSelf`, with the object in the
storage of block 0. -/
def progSelfMake : List Stmt :=
  [Stmt.wDefault (some (Addr.storage 0)), Stmt.sMake none,
    Stmt.wFromShared none 1, Stmt.wMoveAssign 0 2, Stmt.wDtor 2]

/-- The memory inside `h.Reset()` of `progSelf`, when `weak_cnt` is `w` and the
object has been destroyed `d` times. -/
def memSelf (w d : Nat) : Mem :=
  { blocks := [{ strong_cnt := 0, weak_cnt := w, ptr_deleted := false,
                 kind := BlockKind.pointer (some (Addr.raw 0)), destroyed := d }],
    cells := [{ isWeak := true, block_ := some 0, ptr_ := some (Addr.raw 0),
                owner := some (Addr.raw 0) },
              { block_ := some 0, ptr_ := some (Addr.raw 0) },
              { isWeak := true, ended := 1 }] }

/-- The two data members of a handle object. -/
def Cell.handle (c : Cell) : Handle := { block_ := c.block_, ptr_ := c.ptr_ }

/-- A memory in which no handle is a member of a managed object: the memory of
a program over a plain element type. -/
def Mem.plain (m : Mem) : Prop := ∀ c ∈ m.cells, c.owner = none

/-! ## Lemmas

### Reading the heap after an update -/

theorem Heap.getElem?_modify (heap : Heap) (x b : Nat) (f : ControlBlockBase → ControlBlockBase) :
    (heap.modify x f)[b]? = if x = b then (heap[b]?).map f else heap[b]? := by
  unfold Heap.modify
  by_cases hxb : x = b
  · subst hxb
    cases hx : heap[x]? with
    | none => simp [hx]
    | some c =>
      have hlt : x < heap.length := by
        rcases List.getElem?_eq_some.mp hx with ⟨h, _⟩; exact h
      simp [List.getElem?_set, hlt]
  · cases hx : heap[x]? with
    | none => simp [hxb]
    | some c => simp [hxb, List.getElem?_set]

theorem Heap.length_modify (heap : Heap) (x : Nat) (f : ControlBlockBase → ControlBlockBase) :
    (heap.modify x f).length = heap.length := by
  unfold Heap.modify
  cases heap[x]? <;> simp

theorem Heap.getElem?_acquireStrong (heap : Heap) (ob : Option Nat) (b : Nat) :
    (heap.acquireStrong ob)[b]? =
      if ob = some b then (heap[b]?).map ControlBlockBase.incStrong else heap[b]? := by
  cases ob with
  | none => simp [Heap.acquireStrong]
  | some x => simp [Heap.acquireStrong, Heap.getElem?_modify]

theorem Heap.getElem?_acquireWeak (heap : Heap) (ob : Option Nat) (b : Nat) :
    (heap.acquireWeak ob)[b]? =
      if ob = some b then (heap[b]?).map ControlBlockBase.incWeak else heap[b]? := by
  cases ob with
  | none => simp [Heap.acquireWeak]
  | some x => simp [Heap.acquireWeak, Heap.getElem?_modify]

theorem Heap.getElem?_dropStrong (heap : Heap) (ob : Option Nat) (b : Nat) :
    (heap.dropStrong ob)[b]? =
      if ob = some b then (heap[b]?).map (fun c => c.releaseStrong.1) else heap[b]? := by
  cases ob with
  | none => simp [Heap.dropStrong]
  | some x => simp [Heap.dropStrong, Heap.getElem?_modify]

theorem Heap.getElem?_dropWeak (heap : Heap) (ob : Option Nat) (b : Nat) :
    (heap.dropWeak ob)[b]? =
      if ob = some b then (heap[b]?).map ControlBlockBase.releaseWeak else heap[b]? := by
  cases ob with
  | none => simp [Heap.dropWeak]
  | some x => simp [Heap.dropWeak, Heap.getElem?_modify]

theorem Heap.length_acquireStrong (heap : Heap) (ob : Option Nat) :
    (heap.acquireStrong ob).length = heap.length := by
  cases ob <;> simp [Heap.acquireStrong, Heap.length_modify]

theorem Heap.length_acquireWeak (heap : Heap) (ob : Option Nat) :
    (heap.acquireWeak ob).length = heap.length := by
  cases ob <;> simp [Heap.acquireWeak, Heap.length_modify]

theorem Heap.length_dropStrong (heap : Heap) (ob : Option Nat) :
    (heap.dropStrong ob).length = heap.length := by
  cases ob <;> simp [Heap.dropStrong, Heap.length_modify]

theorem Heap.length_dropWeak (heap : Heap) (ob : Option Nat) :
    (heap.dropWeak ob).length = heap.length := by
  cases ob <;> simp [Heap.dropWeak, Heap.length_modify]

/-! ### The handle operations in terms of the four heap actions -/

theorem SharedPtr.copy_eq (heap : Heap) (o : SharedPtr) :
    SharedPtr.copy heap o = (heap.acquireStrong o.block_, { block_ := o.block_, ptr_ := o.ptr_ }) := by
  cases o with
  | mk ob op => cases ob <;> rfl

theorem SharedPtr.aliasing_eq (heap : Heap) (o : SharedPtr) (p : Ptr) :
    SharedPtr.aliasing heap o p = (heap.acquireStrong o.block_, { block_ := o.block_, ptr_ := p }) := by
  cases o with
  | mk ob op => cases ob <;> rfl

theorem SharedPtr.fromBlock_eq (heap : Heap) (ob : Option Nat) (p : Ptr) :
    SharedPtr.fromBlock heap ob p = (heap.acquireStrong ob, { block_ := ob, ptr_ := p }) := by
  cases ob <;> rfl

theorem SharedPtr.releaseBlock_fst (heap : Heap) (a : SharedPtr) :
    (SharedPtr.releaseBlock heap a).1 = heap.dropStrong a.block_ := by
  cases a with
  | mk ab ap =>
    cases ab with
    | none => rfl
    | some x =>
      simp only [SharedPtr.releaseBlock, Heap.dropStrong, Heap.modify]
      cases heap[x]? <;> rfl

theorem SharedPtr.releaseBlock_block (heap : Heap) (a : SharedPtr) :
    (SharedPtr.releaseBlock heap a).2.block_ = a.block_ := by
  cases a with
  | mk ab ap =>
    cases ab with
    | none => rfl
    | some x =>
      simp only [SharedPtr.releaseBlock]
      cases heap[x]? with
      | none => rfl
      | some c => simp only []; split <;> rfl

theorem SharedPtr.destructor_eq (heap : Heap) (a : SharedPtr) :
    SharedPtr.destructor heap a = heap.dropStrong a.block_ :=
  SharedPtr.releaseBlock_fst heap a

theorem SharedPtr.Reset_eq (heap : Heap) (a : SharedPtr) :
    SharedPtr.Reset heap a = (heap.dropStrong a.block_, { block_ := none, ptr_ := none }) := by
  simp [SharedPtr.Reset, SharedPtr.releaseBlock_fst]

theorem SharedPtr.ResetPtr_eq (heap : Heap) (a : SharedPtr) (p : Ptr) :
    SharedPtr.ResetPtr heap a p =
      (heap.dropStrong a.block_ ++ [{ kind := BlockKind.pointer p }],
        { block_ := some heap.length, ptr_ := p }) := by
  simp [SharedPtr.ResetPtr, SharedPtr.releaseBlock_fst, Heap.length_dropStrong]

theorem SharedPtr.copyAssign_eq (heap : Heap) (a o : SharedPtr) :
    SharedPtr.copyAssign heap a o false =
      ((heap.dropStrong a.block_).acquireStrong o.block_, { block_ := o.block_, ptr_ := o.ptr_ }) := by
  cases o with
  | mk ob op =>
    cases ob <;> simp [SharedPtr.copyAssign, SharedPtr.releaseBlock_fst, Heap.acquireStrong]

theorem SharedPtr.moveAssign_eq (heap : Heap) (a o : SharedPtr) :
    SharedPtr.moveAssign heap a o false =
      (heap.dropStrong a.block_, { block_ := o.block_, ptr_ := o.ptr_ },
        { block_ := none, ptr_ := none }) := by
  simp [SharedPtr.moveAssign, SharedPtr.releaseBlock_fst]

theorem SharedPtr.promote_eq (heap : Heap) (o : WeakPtr) :
    SharedPtr.promote heap o =
      if WeakPtr.UseCount heap o ≠ 0 then
        (heap.acquireStrong o.block_, Except.ok { block_ := o.block_, ptr_ := o.ptr_ })
      else (heap, Except.error BadWeakPtr.mk) := by
  cases o with
  | mk ob op =>
    cases ob with
    | none => simp [SharedPtr.promote, WeakPtr.UseCount]
    | some x =>
      simp only [SharedPtr.promote, Heap.acquireStrong]

theorem WeakPtr.weak_copy_eq (heap : Heap) (o : WeakPtr) :
    WeakPtr.copy heap o = (heap.acquireWeak o.block_, { block_ := o.block_, ptr_ := o.ptr_ }) := by
  cases o with
  | mk ob op => cases ob <;> rfl

theorem WeakPtr.fromShared_eq (heap : Heap) (o : SharedPtr) :
    WeakPtr.fromShared heap o = (heap.acquireWeak o.block_, { block_ := o.block_, ptr_ := o.ptr_ }) := by
  cases o with
  | mk ob op => cases ob <;> rfl

theorem WeakPtr.releaseBlock_eq (heap : Heap) (a : WeakPtr) :
    WeakPtr.releaseBlock heap a = heap.dropWeak a.block_ := by
  cases a with
  | mk ab ap => cases ab <;> rfl

theorem WeakPtr.weak_copyAssign_eq (heap : Heap) (a o : WeakPtr) :
    WeakPtr.copyAssign heap a o false =
      ((heap.dropWeak a.block_).acquireWeak o.block_, { block_ := o.block_, ptr_ := o.ptr_ }) := by
  cases o with
  | mk ob op =>
    cases ob <;> simp [WeakPtr.copyAssign, WeakPtr.releaseBlock_eq, Heap.acquireWeak]

theorem WeakPtr.weak_moveAssign_eq (heap : Heap) (a o : WeakPtr) :
    WeakPtr.moveAssign heap a o false =
      (heap.dropWeak a.block_, { block_ := o.block_, ptr_ := o.ptr_ },
        { block_ := none, ptr_ := none }) := by
  simp [WeakPtr.moveAssign, WeakPtr.releaseBlock_eq]

theorem WeakPtr.Lock_eq (heap : Heap) (w : WeakPtr) :
    WeakPtr.Lock heap w =
      ((heap.acquireStrong w.block_).acquireStrong w.block_,
        { block_ := w.block_,
          ptr_ := if w.block_ = none ∨ WeakPtr.UseCount heap w ≠ 0 then w.ptr_ else none }) := by
  cases w with
  | mk wb wp =>
    cases wb with
    | none => simp [WeakPtr.Lock, SharedPtr.fromBlock_eq, Heap.acquireStrong, WeakPtr.UseCount]
    | some x =>
      by_cases h : heap.strong x > 0
      · have h0 : heap.strong x ≠ 0 := by omega
        simp [WeakPtr.Lock, SharedPtr.fromBlock_eq, Heap.acquireStrong, WeakPtr.UseCount, h, h0]
      · have h0 : heap.strong x = 0 := by omega
        simp [WeakPtr.Lock, SharedPtr.fromBlock_eq, Heap.acquireStrong, WeakPtr.UseCount, h0]

/-! ### Counting holders in a handle table -/

theorem cntIf_pos {ob : Option Nat} {b : Nat} (h : ob = some b) : cntIf ob b = 1 := by
  simp [cntIf, h]

theorem cntIf_neg {ob : Option Nat} {b : Nat} (h : ¬ ob = some b) : cntIf ob b = 0 := by
  simp [cntIf, h]

theorem cntIf_none (b : Nat) : cntIf none b = 0 := rfl

theorem cntIf_le (ob : Option Nat) (b : Nat) : cntIf ob b ≤ 1 := by
  unfold cntIf; split <;> omega

theorem State.sh_eq_some {s : State} {i : Nat} {a : SharedPtr} :
    s.sh i = some a ↔ s.shared[i]? = some (some a) := by
  unfold State.sh
  cases s.shared[i]? with
  | none => simp
  | some o => cases o <;> simp

theorem State.wk_eq_some {s : State} {i : Nat} {a : WeakPtr} :
    s.wk i = some a ↔ s.weak[i]? = some (some a) := by
  unfold State.wk
  cases s.weak[i]? with
  | none => simp
  | some o => cases o <;> simp

theorem holders_le_length (l : List (Option Handle)) (b : Nat) : holders l b ≤ l.length :=
  List.countP_le_length _

theorem holders_push (l : List (Option Handle)) (vb : Option Nat) (vp : Ptr) (b : Nat) :
    holders (l ++ [some (Handle.mk vb vp)]) b = holders l b + cntIf vb b := by
  simp [holders, cntIf, holds, List.countP_append, List.countP_cons]

theorem countP_holds_set (l : List (Option Handle)) (i : Nat) (o v : Option Handle)
    (h : l[i]? = some o) (b : Nat) :
    (l.set i v).countP (holds b) + (if holds b o = true then 1 else 0) =
      l.countP (holds b) + (if holds b v = true then 1 else 0) := by
  obtain ⟨hlt, hget⟩ := List.getElem?_eq_some.mp h
  have hle := List.boole_getElem_le_countP (holds b) l i hlt
  rw [List.countP_set (holds b) l i v hlt, hget]
  rw [hget] at hle
  omega

theorem holders_set (l : List (Option Handle)) (i : Nat) (a : Handle) (vb : Option Nat)
    (vp : Ptr) (h : l[i]? = some (some a)) (b : Nat) :
    holders (l.set i (some (Handle.mk vb vp))) b + cntIf a.block_ b =
      holders l b + cntIf vb b := by
  have e := countP_holds_set l i (some a) (some (Handle.mk vb vp)) h b
  simpa [holders, cntIf, holds] using e

theorem holders_set_none (l : List (Option Handle)) (i : Nat) (a : Handle)
    (h : l[i]? = some (some a)) (b : Nat) :
    holders (l.set i none) b + cntIf a.block_ b = holders l b := by
  have e := countP_holds_set l i (some a) none h b
  simpa [holders, cntIf, holds] using e

theorem holders_set_set (l : List (Option Handle)) (i j : Nat) (ai aj : Handle)
    (vbi vbj : Option Nat) (vpi vpj : Ptr) (hij : i ≠ j)
    (hi : l[i]? = some (some ai)) (hj : l[j]? = some (some aj)) (b : Nat) :
    holders ((l.set j (some (Handle.mk vbj vpj))).set i (some (Handle.mk vbi vpi))) b
        + cntIf ai.block_ b + cntIf aj.block_ b =
      holders l b + cntIf vbi b + cntIf vbj b := by
  have e1 := holders_set l j aj vbj vpj hj b
  have hi' : (l.set j (some (Handle.mk vbj vpj)))[i]? = some (some ai) := by
    rw [List.getElem?_set_ne (Ne.symm hij)]; exact hi
  have e2 := holders_set (l.set j (some (Handle.mk vbj vpj))) i ai vbi vpi hi' b
  omega

theorem one_le_holders (l : List (Option Handle)) (i : Nat) (a : Handle)
    (h : l[i]? = some (some a)) (b : Nat) (hb : a.block_ = some b) : 1 ≤ holders l b := by
  have e := holders_set_none l i a h b
  rw [cntIf_pos hb] at e
  omega

theorem two_le_holders (l : List (Option Handle)) (i j : Nat) (a1 a2 : Handle)
    (hij : i ≠ j) (h1 : l[i]? = some (some a1)) (h2 : l[j]? = some (some a2)) (b : Nat)
    (hb1 : a1.block_ = some b) (hb2 : a2.block_ = some b) : 2 ≤ holders l b := by
  have e := holders_set_set l i j a1 a2 none none none none hij h1 h2 b
  rw [cntIf_pos hb1, cntIf_pos hb2, cntIf_none] at e
  omega

/-! ### The effect of each statement on each block -/

theorem effectOf_of_eq (s : State) (op : Op) (b : Nat) (h : step s op = s) : EffectOf s op b :=
  ⟨Effect.same, trivial, by rw [h]; simp [Effect.block], by rw [h]; rfl, by rw [h]; rfl,
    by intro h; cases h⟩

theorem EffectOf.intro (s : State) (op : Op) (b : Nat) (e : Effect) (heap : Heap)
    (sh wk : List (Option Handle)) (hs : step s op = State.mk heap sh wk)
    (hpre : e.pre (s.blocks.strong b) (holders s.shared b) (holders s.weak b))
    (hblk : heap[b]? = (s.blocks[b]?).map e.block)
    (hsh : holders sh b = e.sh (holders s.shared b))
    (hwk : holders wk b = e.wk (holders s.weak b))
    (hl : e = Effect.lock → op.isLock = true ∧ sh.length = s.shared.length + 1) :
    EffectOf s op b :=
  ⟨e, hpre, by rw [hs]; exact hblk, by rw [hs]; exact hsh, by rw [hs]; exact hwk,
    by rw [hs]; exact hl⟩

theorem getElem?_alloc (heap : Heap) (c : ControlBlockBase) (b : Nat) (hb : b ≠ heap.length) :
    (heap ++ [c])[b]? = heap[b]? := by
  rcases Nat.lt_or_gt_of_ne hb with h | h
  · exact List.getElem?_append_left h
  · rw [List.getElem?_eq_none (by simp; omega), List.getElem?_eq_none (by omega)]

theorem effect_sDefault (s : State) (b : Nat) : EffectOf s Op.sDefault b := by
  refine EffectOf.intro s _ b Effect.same s.blocks (s.shared ++ [some (Handle.mk none none)])
    s.weak rfl trivial ?_ ?_ rfl (by simp)
  · simp [Effect.block]
  · rw [holders_push, cntIf_none]; rfl

theorem effect_sRaw (s : State) (p : Ptr) (b : Nat) (hb : b ≠ s.blocks.length) :
    EffectOf s (Op.sRaw p) b := by
  refine EffectOf.intro s _ b Effect.same (s.blocks ++ [{ kind := BlockKind.pointer p }])
    (s.shared ++ [some (Handle.mk (some s.blocks.length) p)]) s.weak rfl trivial ?_ ?_ rfl (by simp)
  · rw [getElem?_alloc _ _ _ hb]; simp [Effect.block]
  · rw [holders_push, cntIf_neg (by simpa using Ne.symm hb)]; rfl

theorem effect_sMake (s : State) (b : Nat) (hb : b ≠ s.blocks.length) :
    EffectOf s Op.sMake b := by
  refine EffectOf.intro s _ b Effect.same (s.blocks ++ [{ kind := BlockKind.emplace }])
    (s.shared ++ [some (Handle.mk (some s.blocks.length) (some (Addr.storage s.blocks.length)))])
    s.weak rfl trivial ?_ ?_ rfl (by simp)
  · rw [getElem?_alloc _ _ _ hb]; simp [Effect.block]
  · rw [holders_push, cntIf_neg (by simpa using Ne.symm hb)]; rfl

theorem effect_sCopy (s : State) (j : Nat) (b : Nat) : EffectOf s (Op.sCopy j) b := by
  cases hj : s.sh j with
  | none => exact effectOf_of_eq s _ b (by simp only [step, hj])
  | some o =>
    have hj' := State.sh_eq_some.mp hj
    have hs : step s (Op.sCopy j) = State.mk (s.blocks.acquireStrong o.block_)
        (s.shared ++ [some (Handle.mk o.block_ o.ptr_)]) s.weak := by
      simp only [step, hj, SharedPtr.copy_eq]
    by_cases hob : o.block_ = some b
    · refine EffectOf.intro s _ b Effect.acqS _ _ _ hs (Or.inl ?_) ?_ ?_ rfl (by simp)
      · exact one_le_holders s.shared j o hj' b hob
      · simp [Heap.getElem?_acquireStrong, hob, Effect.block]
      · rw [holders_push, cntIf_pos hob]; rfl
    · refine EffectOf.intro s _ b Effect.same _ _ _ hs trivial ?_ ?_ rfl (by simp)
      · simp [Heap.getElem?_acquireStrong, hob, Effect.block]
      · rw [holders_push, cntIf_neg hob]; rfl

theorem effect_sMove (s : State) (j : Nat) (b : Nat) : EffectOf s (Op.sMove j) b := by
  cases hj : s.sh j with
  | none => exact effectOf_of_eq s _ b (by simp only [step, hj])
  | some o =>
    have hj' := State.sh_eq_some.mp hj
    have hs : step s (Op.sMove j) = State.mk s.blocks
        (s.shared.set j (some (Handle.mk none none)) ++ [some (Handle.mk o.block_ o.ptr_)])
        s.weak := by
      simp only [step, hj, SharedPtr.move]
    refine EffectOf.intro s _ b Effect.same _ _ _ hs trivial ?_ ?_ rfl (by simp)
    · simp [Effect.block]
    · have e := holders_set s.shared j o none none hj' b
      rw [cntIf_none] at e
      rw [holders_push]
      show _ = holders s.shared b
      omega

theorem effect_sAlias (s : State) (j : Nat) (p : Ptr) (b : Nat) :
    EffectOf s (Op.sAlias j p) b := by
  cases hj : s.sh j with
  | none => exact effectOf_of_eq s _ b (by simp only [step, hj])
  | some o =>
    have hj' := State.sh_eq_some.mp hj
    have hs : step s (Op.sAlias j p) = State.mk (s.blocks.acquireStrong o.block_)
        (s.shared ++ [some (Handle.mk o.block_ p)]) s.weak := by
      simp only [step, hj, SharedPtr.aliasing_eq]
    by_cases hob : o.block_ = some b
    · refine EffectOf.intro s _ b Effect.acqS _ _ _ hs (Or.inl ?_) ?_ ?_ rfl (by simp)
      · exact one_le_holders s.shared j o hj' b hob
      · simp [Heap.getElem?_acquireStrong, hob, Effect.block]
      · rw [holders_push, cntIf_pos hob]; rfl
    · refine EffectOf.intro s _ b Effect.same _ _ _ hs trivial ?_ ?_ rfl (by simp)
      · simp [Heap.getElem?_acquireStrong, hob, Effect.block]
      · rw [holders_push, cntIf_neg hob]; rfl

theorem effect_sPromote (s : State) (w : Nat) (b : Nat) : EffectOf s (Op.sPromote w) b := by
  cases hw : s.wk w with
  | none => exact effectOf_of_eq s _ b (by simp only [step, hw])
  | some o =>
    have hw' := State.wk_eq_some.mp hw
    by_cases hu : WeakPtr.UseCount s.blocks o = 0
    · exact effectOf_of_eq s _ b (by simp [step, hw, SharedPtr.promote_eq, hu])
    · have hs : step s (Op.sPromote w) = State.mk (s.blocks.acquireStrong o.block_)
          (s.shared ++ [some (Handle.mk o.block_ o.ptr_)]) s.weak := by
        simp [step, hw, SharedPtr.promote_eq, hu]
      by_cases hob : o.block_ = some b
      · refine EffectOf.intro s _ b Effect.acqS _ _ _ hs (Or.inr ⟨?_, ?_⟩) ?_ ?_ rfl (by simp)
        · exact one_le_holders s.weak w o hw' b hob
        · simpa [WeakPtr.UseCount, hob] using hu
        · simp [Heap.getElem?_acquireStrong, hob, Effect.block]
        · rw [holders_push, cntIf_pos hob]; rfl
      · refine EffectOf.intro s _ b Effect.same _ _ _ hs trivial ?_ ?_ rfl (by simp)
        · simp [Heap.getElem?_acquireStrong, hob, Effect.block]
        · rw [holders_push, cntIf_neg hob]; rfl

theorem effect_sCopyAssign (s : State) (i j : Nat) (b : Nat) :
    EffectOf s (Op.sCopyAssign i j) b := by
  cases hi : s.sh i with
  | none => exact effectOf_of_eq s _ b (by simp only [step, hi])
  | some a =>
    cases hj : s.sh j with
    | none => exact effectOf_of_eq s _ b (by simp only [step, hi, hj])
    | some o =>
      have hi' := State.sh_eq_some.mp hi
      have hj' := State.sh_eq_some.mp hj
      by_cases hij : i = j
      · subst hij
        refine effectOf_of_eq s _ b ?_
        have hset : s.shared.set i (some a) = s.shared := by
          apply List.ext_getElem? ; intro k
          by_cases hk : i = k
          · subst hk; rw [List.getElem?_set, hi']; simp
            exact (List.getElem?_eq_some.mp hi').1
          · rw [List.getElem?_set_ne hk]
        simp [step, hi, SharedPtr.copyAssign, hset]
      · have hs : step s (Op.sCopyAssign i j) =
            State.mk ((s.blocks.dropStrong a.block_).acquireStrong o.block_)
              (s.shared.set i (some (Handle.mk o.block_ o.ptr_))) s.weak := by
          simp [step, hi, hj, hij, SharedPtr.copyAssign_eq]
        have e := holders_set s.shared i a o.block_ o.ptr_ hi' b
        by_cases hab : a.block_ = some b <;> by_cases hob : o.block_ = some b
        · refine EffectOf.intro s _ b Effect.relAcqS _ _ _ hs ?_ ?_ ?_ rfl (by simp)
          · exact two_le_holders s.shared i j a o hij hi' hj' b hab hob
          · simp only [Heap.getElem?_acquireStrong, Heap.getElem?_dropStrong, hab, hob, if_true,
              Option.map_map, Effect.block]
            rfl
          · rw [cntIf_pos hab, cntIf_pos hob] at e
            show _ = holders s.shared b
            omega
        · refine EffectOf.intro s _ b Effect.relS _ _ _ hs ?_ ?_ ?_ rfl (by simp)
          · exact one_le_holders s.shared i a hi' b hab
          · simp [Heap.getElem?_acquireStrong, Heap.getElem?_dropStrong, hab, hob, Effect.block]
          · rw [cntIf_pos hab, cntIf_neg hob] at e
            show _ = holders s.shared b - 1
            omega
        · refine EffectOf.intro s _ b Effect.acqS _ _ _ hs (Or.inl ?_) ?_ ?_ rfl (by simp)
          · exact one_le_holders s.shared j o hj' b hob
          · simp [Heap.getElem?_acquireStrong, Heap.getElem?_dropStrong, hab, hob, Effect.block]
          · rw [cntIf_neg hab, cntIf_pos hob] at e
            show _ = holders s.shared b + 1
            omega
        · refine EffectOf.intro s _ b Effect.same _ _ _ hs trivial ?_ ?_ rfl (by simp)
          · simp [Heap.getElem?_acquireStrong, Heap.getElem?_dropStrong, hab, hob, Effect.block]
          · rw [cntIf_neg hab, cntIf_neg hob] at e
            show _ = holders s.shared b
            omega
theorem set_self_eq (l : List (Option Handle)) (i : Nat) (a : Handle)
    (h : l[i]? = some (some a)) : l.set i (some a) = l := by
  apply List.ext_getElem?
  intro k
  by_cases hk : i = k
  · subst hk
    rw [List.getElem?_set, h]
    simp
    exact (List.getElem?_eq_some.mp h).1
  · rw [List.getElem?_set_ne hk]

theorem effect_sMoveAssign (s : State) (i j : Nat) (b : Nat) :
    EffectOf s (Op.sMoveAssign i j) b := by
  cases hi : s.sh i with
  | none => exact effectOf_of_eq s _ b (by simp only [step, hi])
  | some a =>
    cases hj : s.sh j with
    | none => exact effectOf_of_eq s _ b (by simp only [step, hi, hj])
    | some o =>
      have hi' := State.sh_eq_some.mp hi
      have hj' := State.sh_eq_some.mp hj
      by_cases hij : i = j
      · subst hij
        refine effectOf_of_eq s _ b ?_
        have ho : o = a := by rw [hi] at hj; exact (Option.some.inj hj).symm
        subst ho
        simp [step, hi, SharedPtr.moveAssign, set_self_eq s.shared i o hi']
      · have hs : step s (Op.sMoveAssign i j) =
            State.mk (s.blocks.dropStrong a.block_)
              ((s.shared.set j (some (Handle.mk none none))).set i
                (some (Handle.mk o.block_ o.ptr_))) s.weak := by
          simp [step, hi, hj, hij, SharedPtr.moveAssign_eq]
        have e := holders_set_set s.shared i j a o o.block_ none o.ptr_ none hij hi' hj' b
        rw [cntIf_none] at e
        by_cases hab : a.block_ = some b
        · refine EffectOf.intro s _ b Effect.relS _ _ _ hs ?_ ?_ ?_ rfl (by simp)
          · exact one_le_holders s.shared i a hi' b hab
          · simp [Heap.getElem?_dropStrong, hab, Effect.block]
          · rw [cntIf_pos hab] at e
            show _ = holders s.shared b - 1
            omega
        · refine EffectOf.intro s _ b Effect.same _ _ _ hs trivial ?_ ?_ rfl (by simp)
          · simp [Heap.getElem?_dropStrong, hab, Effect.block]
          · rw [cntIf_neg hab] at e
            show _ = holders s.shared b
            omega

theorem effect_sDtor (s : State) (i : Nat) (b : Nat) : EffectOf s (Op.sDtor i) b := by
  cases hi : s.sh i with
  | none => exact effectOf_of_eq s _ b (by simp only [step, hi])
  | some a =>
    have hi' := State.sh_eq_some.mp hi
    have hs : step s (Op.sDtor i) = State.mk (s.blocks.dropStrong a.block_)
        (s.shared.set i none) s.weak := by
      simp only [step, hi, SharedPtr.destructor_eq]
    have e := holders_set_none s.shared i a hi' b
    by_cases hab : a.block_ = some b
    · refine EffectOf.intro s _ b Effect.relS _ _ _ hs ?_ ?_ ?_ rfl (by simp)
      · exact one_le_holders s.shared i a hi' b hab
      · simp [Heap.getElem?_dropStrong, hab, Effect.block]
      · rw [cntIf_pos hab] at e
        show _ = holders s.shared b - 1
        omega
    · refine EffectOf.intro s _ b Effect.same _ _ _ hs trivial ?_ ?_ rfl (by simp)
      · simp [Heap.getElem?_dropStrong, hab, Effect.block]
      · rw [cntIf_neg hab] at e
        show _ = holders s.shared b
        omega

theorem effect_sReset (s : State) (i : Nat) (b : Nat) : EffectOf s (Op.sReset i) b := by
  cases hi : s.sh i with
  | none => exact effectOf_of_eq s _ b (by simp only [step, hi])
  | some a =>
    have hi' := State.sh_eq_some.mp hi
    have hs : step s (Op.sReset i) = State.mk (s.blocks.dropStrong a.block_)
        (s.shared.set i (some (Handle.mk none none))) s.weak := by
      simp only [step, hi, SharedPtr.Reset_eq]
    have e := holders_set s.shared i a none none hi' b
    rw [cntIf_none] at e
    by_cases hab : a.block_ = some b
    · refine EffectOf.intro s _ b Effect.relS _ _ _ hs ?_ ?_ ?_ rfl (by simp)
      · exact one_le_holders s.shared i a hi' b hab
      · simp [Heap.getElem?_dropStrong, hab, Effect.block]
      · rw [cntIf_pos hab] at e
        show _ = holders s.shared b - 1
        omega
    · refine EffectOf.intro s _ b Effect.same _ _ _ hs trivial ?_ ?_ rfl (by simp)
      · simp [Heap.getElem?_dropStrong, hab, Effect.block]
      · rw [cntIf_neg hab] at e
        show _ = holders s.shared b
        omega

theorem effect_sResetPtr (s : State) (i : Nat) (p : Ptr) (b : Nat)
    (hb : b ≠ s.blocks.length) : EffectOf s (Op.sResetPtr i p) b := by
  cases hi : s.sh i with
  | none => exact effectOf_of_eq s _ b (by simp only [step, hi])
  | some a =>
    have hi' := State.sh_eq_some.mp hi
    have hs : step s (Op.sResetPtr i p) =
        State.mk (s.blocks.dropStrong a.block_ ++ [{ kind := BlockKind.pointer p }])
          (s.shared.set i (some (Handle.mk (some s.blocks.length) p))) s.weak := by
      simp only [step, hi, SharedPtr.ResetPtr_eq]
    have e := holders_set s.shared i a (some s.blocks.length) p hi' b
    have hn : cntIf (some s.blocks.length) b = 0 := cntIf_neg (by simpa using Ne.symm hb)
    rw [hn] at e
    have hb' : b ≠ (s.blocks.dropStrong a.block_).length := by
      rw [Heap.length_dropStrong]; exact hb
    by_cases hab : a.block_ = some b
    · refine EffectOf.intro s _ b Effect.relS _ _ _ hs ?_ ?_ ?_ rfl (by simp)
      · exact one_le_holders s.shared i a hi' b hab
      · rw [getElem?_alloc _ _ _ hb']
        simp [Heap.getElem?_dropStrong, hab, Effect.block]
      · rw [cntIf_pos hab] at e
        show _ = holders s.shared b - 1
        omega
    · refine EffectOf.intro s _ b Effect.same _ _ _ hs trivial ?_ ?_ rfl (by simp)
      · rw [getElem?_alloc _ _ _ hb']
        simp [Heap.getElem?_dropStrong, hab, Effect.block]
      · rw [cntIf_neg hab] at e
        show _ = holders s.shared b
        omega

theorem effect_sSwap (s : State) (i j : Nat) (b : Nat) : EffectOf s (Op.sSwap i j) b := by
  cases hi : s.sh i with
  | none => exact effectOf_of_eq s _ b (by simp only [step, hi])
  | some a =>
    cases hj : s.sh j with
    | none => exact effectOf_of_eq s _ b (by simp only [step, hi, hj])
    | some o =>
      have hi' := State.sh_eq_some.mp hi
      have hj' := State.sh_eq_some.mp hj
      by_cases hij : i = j
      · subst hij
        refine effectOf_of_eq s _ b ?_
        have ho : o = a := by rw [hi] at hj; exact (Option.some.inj hj).symm
        subst ho
        have h1 : s.shared.set i (some (Handle.mk o.block_ o.ptr_)) = s.shared :=
          set_self_eq s.shared i o hi'
        simp only [step, hi, SharedPtr.Swap, h1]
      · have hs : step s (Op.sSwap i j) = State.mk s.blocks
            ((s.shared.set i (some (Handle.mk o.block_ o.ptr_))).set j
              (some (Handle.mk a.block_ a.ptr_))) s.weak := by
          simp only [step, hi, hj, SharedPtr.Swap]
        have e := holders_set_set s.shared j i o a a.block_ o.block_ a.ptr_ o.ptr_
          (Ne.symm hij) hj' hi' b
        refine EffectOf.intro s _ b Effect.same _ _ _ hs trivial ?_ ?_ rfl (by simp)
        · simp [Effect.block]
        · show _ = holders s.shared b
          omega
theorem effect_wDefault (s : State) (b : Nat) : EffectOf s Op.wDefault b := by
  refine EffectOf.intro s _ b Effect.same s.blocks s.shared (s.weak ++ [some (Handle.mk none none)])
    rfl trivial ?_ rfl ?_ (by simp)
  · simp [Effect.block]
  · rw [holders_push, cntIf_none]; rfl

theorem effect_wCopy (s : State) (j : Nat) (b : Nat) : EffectOf s (Op.wCopy j) b := by
  cases hj : s.wk j with
  | none => exact effectOf_of_eq s _ b (by simp only [step, hj])
  | some o =>
    have hj' := State.wk_eq_some.mp hj
    have hs : step s (Op.wCopy j) = State.mk (s.blocks.acquireWeak o.block_) s.shared
        (s.weak ++ [some (Handle.mk o.block_ o.ptr_)]) := by
      simp only [step, hj, WeakPtr.weak_copy_eq]
    by_cases hob : o.block_ = some b
    · refine EffectOf.intro s _ b Effect.acqW _ _ _ hs (Or.inr ?_) ?_ rfl ?_ (by simp)
      · exact one_le_holders s.weak j o hj' b hob
      · simp [Heap.getElem?_acquireWeak, hob, Effect.block]
      · rw [holders_push, cntIf_pos hob]; rfl
    · refine EffectOf.intro s _ b Effect.same _ _ _ hs trivial ?_ rfl ?_ (by simp)
      · simp [Heap.getElem?_acquireWeak, hob, Effect.block]
      · rw [holders_push, cntIf_neg hob]; rfl

theorem effect_wMove (s : State) (j : Nat) (b : Nat) : EffectOf s (Op.wMove j) b := by
  cases hj : s.wk j with
  | none => exact effectOf_of_eq s _ b (by simp only [step, hj])
  | some o =>
    have hj' := State.wk_eq_some.mp hj
    have hs : step s (Op.wMove j) = State.mk s.blocks s.shared
        (s.weak.set j (some (Handle.mk none none)) ++ [some (Handle.mk o.block_ o.ptr_)]) := by
      simp only [step, hj, WeakPtr.move]
    refine EffectOf.intro s _ b Effect.same _ _ _ hs trivial ?_ rfl ?_ (by simp)
    · simp [Effect.block]
    · have e := holders_set s.weak j o none none hj' b
      rw [cntIf_none] at e
      rw [holders_push]
      show _ = holders s.weak b
      omega

theorem effect_wFromShared (s : State) (j : Nat) (b : Nat) :
    EffectOf s (Op.wFromShared j) b := by
  cases hj : s.sh j with
  | none => exact effectOf_of_eq s _ b (by simp only [step, hj])
  | some o =>
    have hj' := State.sh_eq_some.mp hj
    have hs : step s (Op.wFromShared j) = State.mk (s.blocks.acquireWeak o.block_) s.shared
        (s.weak ++ [some (Handle.mk o.block_ o.ptr_)]) := by
      simp only [step, hj, WeakPtr.fromShared_eq]
    by_cases hob : o.block_ = some b
    · refine EffectOf.intro s _ b Effect.acqW _ _ _ hs (Or.inl ?_) ?_ rfl ?_ (by simp)
      · exact one_le_holders s.shared j o hj' b hob
      · simp [Heap.getElem?_acquireWeak, hob, Effect.block]
      · rw [holders_push, cntIf_pos hob]; rfl
    · refine EffectOf.intro s _ b Effect.same _ _ _ hs trivial ?_ rfl ?_ (by simp)
      · simp [Heap.getElem?_acquireWeak, hob, Effect.block]
      · rw [holders_push, cntIf_neg hob]; rfl

theorem effect_wCopyAssign (s : State) (i j : Nat) (b : Nat) :
    EffectOf s (Op.wCopyAssign i j) b := by
  cases hi : s.wk i with
  | none => exact effectOf_of_eq s _ b (by simp only [step, hi])
  | some a =>
    cases hj : s.wk j with
    | none => exact effectOf_of_eq s _ b (by simp only [step, hi, hj])
    | some o =>
      have hi' := State.wk_eq_some.mp hi
      have hj' := State.wk_eq_some.mp hj
      by_cases hij : i = j
      · subst hij
        refine effectOf_of_eq s _ b ?_
        simp [step, hi, WeakPtr.copyAssign, set_self_eq s.weak i a hi']
      · have hs : step s (Op.wCopyAssign i j) =
            State.mk ((s.blocks.dropWeak a.block_).acquireWeak o.block_) s.shared
              (s.weak.set i (some (Handle.mk o.block_ o.ptr_))) := by
          simp [step, hi, hj, hij, WeakPtr.weak_copyAssign_eq]
        have e := holders_set s.weak i a o.block_ o.ptr_ hi' b
        by_cases hab : a.block_ = some b <;> by_cases hob : o.block_ = some b
        · refine EffectOf.intro s _ b Effect.relAcqW _ _ _ hs ?_ ?_ rfl ?_ (by simp)
          · exact two_le_holders s.weak i j a o hij hi' hj' b hab hob
          · simp only [Heap.getElem?_acquireWeak, Heap.getElem?_dropWeak, hab, hob, if_true,
              Option.map_map, Effect.block]
            rfl
          · rw [cntIf_pos hab, cntIf_pos hob] at e
            show _ = holders s.weak b
            omega
        · refine EffectOf.intro s _ b Effect.relW _ _ _ hs ?_ ?_ rfl ?_ (by simp)
          · exact one_le_holders s.weak i a hi' b hab
          · simp [Heap.getElem?_acquireWeak, Heap.getElem?_dropWeak, hab, hob, Effect.block]
          · rw [cntIf_pos hab, cntIf_neg hob] at e
            show _ = holders s.weak b - 1
            omega
        · refine EffectOf.intro s _ b Effect.acqW _ _ _ hs (Or.inr ?_) ?_ rfl ?_ (by simp)
          · exact one_le_holders s.weak j o hj' b hob
          · simp [Heap.getElem?_acquireWeak, Heap.getElem?_dropWeak, hab, hob, Effect.block]
          · rw [cntIf_neg hab, cntIf_pos hob] at e
            show _ = holders s.weak b + 1
            omega
        · refine EffectOf.intro s _ b Effect.same _ _ _ hs trivial ?_ rfl ?_ (by simp)
          · simp [Heap.getElem?_acquireWeak, Heap.getElem?_dropWeak, hab, hob, Effect.block]
          · rw [cntIf_neg hab, cntIf_neg hob] at e
            show _ = holders s.weak b
            omega

theorem effect_wMoveAssign (s : State) (i j : Nat) (b : Nat) :
    EffectOf s (Op.wMoveAssign i j) b := by
  cases hi : s.wk i with
  | none => exact effectOf_of_eq s _ b (by simp only [step, hi])
  | some a =>
    cases hj : s.wk j with
    | none => exact effectOf_of_eq s _ b (by simp only [step, hi, hj])
    | some o =>
      have hi' := State.wk_eq_some.mp hi
      have hj' := State.wk_eq_some.mp hj
      by_cases hij : i = j
      · subst hij
        refine effectOf_of_eq s _ b ?_
        have ho : o = a := by rw [hi] at hj; exact (Option.some.inj hj).symm
        subst ho
        simp [step, hi, WeakPtr.moveAssign, set_self_eq s.weak i o hi']
      · have hs : step s (Op.wMoveAssign i j) =
            State.mk (s.blocks.dropWeak a.block_) s.shared
              ((s.weak.set j (some (Handle.mk none none))).set i
                (some (Handle.mk o.block_ o.ptr_))) := by
          simp [step, hi, hj, hij, WeakPtr.weak_moveAssign_eq]
        have e := holders_set_set s.weak i j a o o.block_ none o.ptr_ none hij hi' hj' b
        rw [cntIf_none] at e
        by_cases hab : a.block_ = some b
        · refine EffectOf.intro s _ b Effect.relW _ _ _ hs ?_ ?_ rfl ?_ (by simp)
          · exact one_le_holders s.weak i a hi' b hab
          · simp [Heap.getElem?_dropWeak, hab, Effect.block]
          · rw [cntIf_pos hab] at e
            show _ = holders s.weak b - 1
            omega
        · refine EffectOf.intro s _ b Effect.same _ _ _ hs trivial ?_ rfl ?_ (by simp)
          · simp [Heap.getElem?_dropWeak, hab, Effect.block]
          · rw [cntIf_neg hab] at e
            show _ = holders s.weak b
            omega

theorem effect_wDtor (s : State) (i : Nat) (b : Nat) : EffectOf s (Op.wDtor i) b := by
  cases hi : s.wk i with
  | none => exact effectOf_of_eq s _ b (by simp only [step, hi])
  | some a =>
    have hi' := State.wk_eq_some.mp hi
    have hs : step s (Op.wDtor i) = State.mk (s.blocks.dropWeak a.block_) s.shared
        (s.weak.set i none) := by
      simp only [step, hi, WeakPtr.destructor, WeakPtr.releaseBlock_eq]
    have e := holders_set_none s.weak i a hi' b
    by_cases hab : a.block_ = some b
    · refine EffectOf.intro s _ b Effect.relW _ _ _ hs ?_ ?_ rfl ?_ (by simp)
      · exact one_le_holders s.weak i a hi' b hab
      · simp [Heap.getElem?_dropWeak, hab, Effect.block]
      · rw [cntIf_pos hab] at e
        show _ = holders s.weak b - 1
        omega
    · refine EffectOf.intro s _ b Effect.same _ _ _ hs trivial ?_ rfl ?_ (by simp)
      · simp [Heap.getElem?_dropWeak, hab, Effect.block]
      · rw [cntIf_neg hab] at e
        show _ = holders s.weak b
        omega

theorem effect_wReset (s : State) (i : Nat) (b : Nat) : EffectOf s (Op.wReset i) b := by
  cases hi : s.wk i with
  | none => exact effectOf_of_eq s _ b (by simp only [step, hi])
  | some a =>
    have hi' := State.wk_eq_some.mp hi
    have hs : step s (Op.wReset i) = State.mk (s.blocks.dropWeak a.block_) s.shared
        (s.weak.set i (some (Handle.mk none none))) := by
      simp only [step, hi, WeakPtr.Reset, WeakPtr.releaseBlock_eq]
    have e := holders_set s.weak i a none none hi' b
    rw [cntIf_none] at e
    by_cases hab : a.block_ = some b
    · refine EffectOf.intro s _ b Effect.relW _ _ _ hs ?_ ?_ rfl ?_ (by simp)
      · exact one_le_holders s.weak i a hi' b hab
      · simp [Heap.getElem?_dropWeak, hab, Effect.block]
      · rw [cntIf_pos hab] at e
        show _ = holders s.weak b - 1
        omega
    · refine EffectOf.intro s _ b Effect.same _ _ _ hs trivial ?_ rfl ?_ (by simp)
      · simp [Heap.getElem?_dropWeak, hab, Effect.block]
      · rw [cntIf_neg hab] at e
        show _ = holders s.weak b
        omega

theorem effect_wSwap (s : State) (i j : Nat) (b : Nat) : EffectOf s (Op.wSwap i j) b := by
  cases hi : s.wk i with
  | none => exact effectOf_of_eq s _ b (by simp only [step, hi])
  | some a =>
    cases hj : s.wk j with
    | none => exact effectOf_of_eq s _ b (by simp only [step, hi, hj])
    | some o =>
      have hi' := State.wk_eq_some.mp hi
      have hj' := State.wk_eq_some.mp hj
      by_cases hij : i = j
      · subst hij
        refine effectOf_of_eq s _ b ?_
        have ho : o = a := by rw [hi] at hj; exact (Option.some.inj hj).symm
        subst ho
        have h1 : s.weak.set i (some (Handle.mk o.block_ o.ptr_)) = s.weak :=
          set_self_eq s.weak i o hi'
        simp only [step, hi, WeakPtr.Swap, h1]
      · have hs : step s (Op.wSwap i j) = State.mk s.blocks s.shared
            ((s.weak.set i (some (Handle.mk o.block_ o.ptr_))).set j
              (some (Handle.mk a.block_ a.ptr_))) := by
          simp only [step, hi, hj, WeakPtr.Swap]
        have e := holders_set_set s.weak j i o a a.block_ o.block_ a.ptr_ o.ptr_
          (Ne.symm hij) hj' hi' b
        refine EffectOf.intro s _ b Effect.same _ _ _ hs trivial ?_ rfl ?_ (by simp)
        · simp [Effect.block]
        · show _ = holders s.weak b
          omega

theorem effect_wLock (s : State) (i : Nat) (b : Nat) : EffectOf s (Op.wLock i) b := by
  cases hi : s.wk i with
  | none => exact effectOf_of_eq s _ b (by simp only [step, hi])
  | some w =>
    have hi' := State.wk_eq_some.mp hi
    have hs : step s (Op.wLock i) =
        State.mk ((s.blocks.acquireStrong w.block_).acquireStrong w.block_)
          (s.shared ++ [some (Handle.mk w.block_
            (if w.block_ = none ∨ WeakPtr.UseCount s.blocks w ≠ 0 then w.ptr_ else none))])
          s.weak := by
      simp only [step, hi, WeakPtr.Lock_eq]
    by_cases hwb : w.block_ = some b
    · refine EffectOf.intro s _ b Effect.lock _ _ _ hs ?_ ?_ ?_ rfl (by simp [Op.isLock])
      · exact one_le_holders s.weak i w hi' b hwb
      · simp only [Heap.getElem?_acquireStrong, hwb, if_true, Option.map_map, Effect.block]
        rfl
      · rw [holders_push, cntIf_pos hwb]; rfl
    · refine EffectOf.intro s _ b Effect.same _ _ _ hs trivial ?_ ?_ rfl (by simp)
      · simp [Heap.getElem?_acquireStrong, hwb, Effect.block]
      · rw [holders_push, cntIf_neg hwb]; rfl

/-- Every statement acts on every block that it does not allocate by one of the
effects. -/
theorem step_effect (s : State) (op : Op) (b : Nat)
    (hb : b ≠ s.blocks.length ∨ op.allocates = false) : EffectOf s op b := by
  cases op with
  | sDefault => exact effect_sDefault s b
  | sRaw p => exact effect_sRaw s p b (by simpa [Op.allocates] using hb)
  | sMake => exact effect_sMake s b (by simpa [Op.allocates] using hb)
  | sCopy j => exact effect_sCopy s j b
  | sMove j => exact effect_sMove s j b
  | sAlias j p => exact effect_sAlias s j p b
  | sPromote w => exact effect_sPromote s w b
  | sCopyAssign i j => exact effect_sCopyAssign s i j b
  | sMoveAssign i j => exact effect_sMoveAssign s i j b
  | sDtor i => exact effect_sDtor s i b
  | sReset i => exact effect_sReset s i b
  | sResetPtr i p => exact effect_sResetPtr s i p b (by simpa [Op.allocates] using hb)
  | sSwap i j => exact effect_sSwap s i j b
  | wDefault => exact effect_wDefault s b
  | wCopy j => exact effect_wCopy s j b
  | wMove j => exact effect_wMove s j b
  | wFromShared j => exact effect_wFromShared s j b
  | wCopyAssign i j => exact effect_wCopyAssign s i j b
  | wMoveAssign i j => exact effect_wMoveAssign s i j b
  | wDtor i => exact effect_wDtor s i b
  | wReset i => exact effect_wReset s i b
  | wSwap i j => exact effect_wSwap s i j b
  | wLock i => exact effect_wLock s i b

/-! ### What the block operations do to the fields -/

theorem incr_eq (n : Nat) (h : n + 1 < SIZE_MOD) : incr n = n + 1 := by
  unfold incr; exact Nat.mod_eq_of_lt h

theorem decr_eq (n : Nat) (h0 : 1 ≤ n) (h : n < SIZE_MOD) : decr n = n - 1 := by
  unfold decr SIZE_MOD at *; omega

theorem ControlBlockBase.DeletePtr_eq (c : ControlBlockBase) :
    c.DeletePtr =
      if c.ptr_deleted = true then c
      else { c with destroyed := c.destroyed + 1, ptr_deleted := true } := by
  obtain ⟨s, w, pd, k, d, f⟩ := c
  cases k <;> cases pd <;> rfl

theorem ControlBlockBase.delete_eq (c : ControlBlockBase) :
    c.delete =
      { c with destroyed := c.destroyed + (if c.ptr_deleted = true then 0 else 1),
               freed := c.freed + 1 } := by
  obtain ⟨s, w, pd, k, d, f⟩ := c
  cases k <;> cases pd <;> rfl

namespace ControlBlockBase

theorem releaseStrong_strong (c : ControlBlockBase) :
    c.releaseStrong.1.strong_cnt = decr c.strong_cnt := by
  simp only [releaseStrong, decStrong, delete_eq, DeletePtr_eq]
  split_ifs <;> rfl

theorem releaseStrong_weak (c : ControlBlockBase) :
    c.releaseStrong.1.weak_cnt = c.weak_cnt := by
  simp only [releaseStrong, decStrong, delete_eq, DeletePtr_eq]
  split_ifs <;> rfl

theorem releaseStrong_kind (c : ControlBlockBase) :
    c.releaseStrong.1.kind = c.kind := by
  simp only [releaseStrong, decStrong, delete_eq, DeletePtr_eq]
  split_ifs <;> rfl

theorem releaseStrong_destroyed (c : ControlBlockBase) :
    c.releaseStrong.1.destroyed =
      c.destroyed + (if decr c.strong_cnt = 0 ∧ c.ptr_deleted = false then 1 else 0) := by
  simp only [releaseStrong, decStrong, delete_eq, DeletePtr_eq]
  split_ifs <;> simp_all

theorem releaseStrong_freed (c : ControlBlockBase) :
    c.releaseStrong.1.freed =
      c.freed + (if decr c.strong_cnt = 0 ∧ c.weak_cnt = 0 then 1 else 0) := by
  simp only [releaseStrong, decStrong, delete_eq, DeletePtr_eq]
  split_ifs <;> simp_all

theorem releaseStrong_ptr_deleted (c : ControlBlockBase) :
    c.releaseStrong.1.ptr_deleted =
      (c.ptr_deleted || decide (decr c.strong_cnt = 0 ∧ c.weak_cnt ≠ 0)) := by
  simp only [releaseStrong, decStrong, delete_eq, DeletePtr_eq]
  split_ifs <;> simp_all

theorem releaseWeak_strong (c : ControlBlockBase) :
    c.releaseWeak.strong_cnt = c.strong_cnt := by
  simp only [releaseWeak, decWeak, delete_eq, DeletePtr_eq]
  split_ifs <;> rfl

theorem releaseWeak_weak (c : ControlBlockBase) :
    c.releaseWeak.weak_cnt = decr c.weak_cnt := by
  simp only [releaseWeak, decWeak, delete_eq, DeletePtr_eq]
  split_ifs <;> rfl

theorem releaseWeak_kind (c : ControlBlockBase) :
    c.releaseWeak.kind = c.kind := by
  simp only [releaseWeak, decWeak, delete_eq, DeletePtr_eq]
  split_ifs <;> rfl

theorem releaseWeak_destroyed (c : ControlBlockBase) :
    c.releaseWeak.destroyed =
      c.destroyed + (if c.strong_cnt = 0 ∧ c.ptr_deleted = false then 1 else 0) := by
  simp only [releaseWeak, decWeak, delete_eq, DeletePtr_eq]
  split_ifs <;> simp_all

theorem releaseWeak_freed (c : ControlBlockBase) :
    c.releaseWeak.freed =
      c.freed + (if c.strong_cnt = 0 ∧ decr c.weak_cnt = 0 then 1 else 0) := by
  simp only [releaseWeak, decWeak, delete_eq, DeletePtr_eq]
  split_ifs <;> simp_all

theorem releaseWeak_ptr_deleted (c : ControlBlockBase) :
    c.releaseWeak.ptr_deleted =
      (c.ptr_deleted || decide (c.strong_cnt = 0 ∧ decr c.weak_cnt ≠ 0)) := by
  simp only [releaseWeak, decWeak, delete_eq, DeletePtr_eq]
  split_ifs <;> simp_all

end ControlBlockBase
theorem good_effect (e : Effect) (c : ControlBlockBase) (m n : Nat) (hg : Good c m n)
    (hpre : e.pre c.strong_cnt m n) (hne : e ≠ Effect.lock)
    (hm0 : m < SIZE_MOD) (hn0 : n < SIZE_MOD)
    (hm : e.sh m < SIZE_MOD) (hn : e.wk n < SIZE_MOD) :
    Good (e.block c) (e.sh m) (e.wk n) := by
  obtain ⟨h1, h2, h3, h4, h5, h6, h7, h8⟩ := hg
  cases e with
  | same => exact ⟨h1, h2, h3, h4, h5, h6, h7, h8⟩
  | lock => exact absurd rfl hne
  | acqS =>
    simp only [Effect.pre, Effect.sh, Effect.wk] at hpre hm hn
    have hi : incr c.strong_cnt = m + 1 := by rw [h1]; exact incr_eq m hm
    simp only [Good, Effect.block, Effect.sh, Effect.wk, ControlBlockBase.incStrong, hi]
    cases hp : c.ptr_deleted <;> simp only [hp] at h7 h8 <;>
      refine ⟨trivial, h2, ?_, ?_, ?_, ?_, ?_, ?_⟩ <;> (try simp at h7 h8 ⊢) <;> omega
  | relS =>
    simp only [Effect.pre, Effect.sh, Effect.wk] at hpre hm hn
    have hd : decr c.strong_cnt = m - 1 := by rw [h1]; exact decr_eq m hpre hm0
    simp only [Good, Effect.block, Effect.sh, Effect.wk, ControlBlockBase.releaseStrong_strong,
      ControlBlockBase.releaseStrong_weak, ControlBlockBase.releaseStrong_destroyed,
      ControlBlockBase.releaseStrong_freed, ControlBlockBase.releaseStrong_ptr_deleted, hd, h2]
    cases hp : c.ptr_deleted <;> simp only [hp] at h7 h8 <;>
      refine ⟨trivial, trivial, ?_, ?_, ?_, ?_, ?_, ?_⟩ <;> (try simp at h7 h8 ⊢) <;>
      (try split_ifs) <;> omega
  | acqW =>
    simp only [Effect.pre, Effect.sh, Effect.wk] at hpre hm hn
    have hi : incr c.weak_cnt = n + 1 := by rw [h2]; exact incr_eq n hn
    simp only [Good, Effect.block, Effect.sh, Effect.wk, ControlBlockBase.incWeak, hi]
    cases hp : c.ptr_deleted <;> simp only [hp] at h7 h8 <;>
      refine ⟨h1, trivial, ?_, ?_, ?_, ?_, ?_, ?_⟩ <;> (try simp at h7 h8 ⊢) <;> omega
  | relW =>
    simp only [Effect.pre, Effect.sh, Effect.wk] at hpre hm hn
    have hd : decr c.weak_cnt = n - 1 := by rw [h2]; exact decr_eq n hpre hn0
    simp only [Good, Effect.block, Effect.sh, Effect.wk, ControlBlockBase.releaseWeak_strong,
      ControlBlockBase.releaseWeak_weak, ControlBlockBase.releaseWeak_destroyed,
      ControlBlockBase.releaseWeak_freed, ControlBlockBase.releaseWeak_ptr_deleted, hd, h1]
    cases hp : c.ptr_deleted <;> simp only [hp] at h7 h8 <;>
      refine ⟨trivial, trivial, ?_, ?_, ?_, ?_, ?_, ?_⟩ <;> (try simp at h7 h8 ⊢) <;>
      (try split_ifs) <;> omega
  | relAcqS =>
    simp only [Effect.pre, Effect.sh, Effect.wk] at hpre hm hn
    have hd : decr c.strong_cnt = m - 1 := by rw [h1]; exact decr_eq m (by omega) hm0
    have hi : incr (m - 1) = m := by rw [incr_eq (m - 1) (by omega)]; omega
    simp only [Good, Effect.block, Effect.sh, Effect.wk, ControlBlockBase.incStrong,
      ControlBlockBase.releaseStrong_strong,
      ControlBlockBase.releaseStrong_weak, ControlBlockBase.releaseStrong_destroyed,
      ControlBlockBase.releaseStrong_freed, ControlBlockBase.releaseStrong_ptr_deleted, hd, h2, hi]
    cases hp : c.ptr_deleted <;> simp only [hp] at h7 h8 <;>
      refine ⟨trivial, trivial, ?_, ?_, ?_, ?_, ?_, ?_⟩ <;> (try simp at h7 h8 ⊢) <;>
      (try split_ifs) <;> omega
  | relAcqW =>
    simp only [Effect.pre, Effect.sh, Effect.wk] at hpre hm hn
    have hd : decr c.weak_cnt = n - 1 := by rw [h2]; exact decr_eq n (by omega) hn0
    have hi : incr (n - 1) = n := by rw [incr_eq (n - 1) (by omega)]; omega
    simp only [Good, Effect.block, Effect.sh, Effect.wk, ControlBlockBase.incWeak,
      ControlBlockBase.releaseWeak_strong,
      ControlBlockBase.releaseWeak_weak, ControlBlockBase.releaseWeak_destroyed,
      ControlBlockBase.releaseWeak_freed, ControlBlockBase.releaseWeak_ptr_deleted, hd, h1, hi]
    cases hp : c.ptr_deleted <;> simp only [hp] at h7 h8 <;>
      refine ⟨trivial, trivial, ?_, ?_, ?_, ?_, ?_, ?_⟩ <;> (try simp at h7 h8 ⊢) <;>
      (try split_ifs) <;> omega
theorem fair_effect (e : Effect) (c : ControlBlockBase) (m n k k' : Nat) (hf : Fair c m n k)
    (hpre : e.pre c.strong_cnt m n) (hk : k ≤ k') (hl : e = Effect.lock → k' = k + 1)
    (hm0 : m + k < SIZE_MOD) (hn0 : n < SIZE_MOD)
    (hm : e.sh m + k' < SIZE_MOD) (hn : e.wk n < SIZE_MOD) :
    Fair (e.block c) (e.sh m) (e.wk n) k' := by
  obtain ⟨h1, h2, h3, h4, h5⟩ := hf
  cases e with
  | same =>
    refine ⟨h1, ?_, h3, h4, h5⟩
    show c.strong_cnt ≤ m + k'
    omega
  | lock =>
    have hk' := hl rfl
    simp only [Effect.pre, Effect.sh, Effect.wk] at hpre hm hn
    have hi1 : incr c.strong_cnt = c.strong_cnt + 1 := incr_eq _ (by omega)
    have hi2 : incr (c.strong_cnt + 1) = c.strong_cnt + 2 := incr_eq _ (by omega)
    simp only [Fair, Effect.block, Effect.sh, Effect.wk, ControlBlockBase.incStrong, hi1, hi2]
    refine ⟨?_, ?_, h3, ?_, ?_⟩ <;> omega
  | acqS =>
    simp only [Effect.pre, Effect.sh, Effect.wk] at hpre hm hn
    have hi : incr c.strong_cnt = c.strong_cnt + 1 := incr_eq _ (by omega)
    simp only [Fair, Effect.block, Effect.sh, Effect.wk, ControlBlockBase.incStrong, hi]
    refine ⟨?_, ?_, h3, ?_, ?_⟩ <;> omega
  | relS =>
    simp only [Effect.pre, Effect.sh, Effect.wk] at hpre hm hn
    have hd : decr c.strong_cnt = c.strong_cnt - 1 := decr_eq _ (by omega) (by omega)
    simp only [Fair, Effect.block, Effect.sh, Effect.wk, ControlBlockBase.releaseStrong_strong,
      ControlBlockBase.releaseStrong_weak, ControlBlockBase.releaseStrong_freed, hd, h3]
    refine ⟨?_, ?_, trivial, ?_, ?_⟩ <;> (try split_ifs) <;> omega
  | acqW =>
    simp only [Effect.pre, Effect.sh, Effect.wk] at hpre hm hn
    have hi : incr c.weak_cnt = n + 1 := by rw [h3]; exact incr_eq n hn
    simp only [Fair, Effect.block, Effect.sh, Effect.wk, ControlBlockBase.incWeak, hi]
    refine ⟨?_, ?_, trivial, ?_, ?_⟩ <;> omega
  | relW =>
    simp only [Effect.pre, Effect.sh, Effect.wk] at hpre hm hn
    have hd : decr c.weak_cnt = n - 1 := by rw [h3]; exact decr_eq n hpre hn0
    simp only [Fair, Effect.block, Effect.sh, Effect.wk, ControlBlockBase.releaseWeak_strong,
      ControlBlockBase.releaseWeak_weak, ControlBlockBase.releaseWeak_freed, hd]
    refine ⟨?_, ?_, trivial, ?_, ?_⟩ <;> (try split_ifs) <;> omega
  | relAcqS =>
    simp only [Effect.pre, Effect.sh, Effect.wk] at hpre hm hn
    have hd : decr c.strong_cnt = c.strong_cnt - 1 := decr_eq _ (by omega) (by omega)
    have hi : incr (c.strong_cnt - 1) = c.strong_cnt := by
      rw [incr_eq _ (by omega)]; omega
    simp only [Fair, Effect.block, Effect.sh, Effect.wk, ControlBlockBase.incStrong,
      ControlBlockBase.releaseStrong_strong,
      ControlBlockBase.releaseStrong_weak, ControlBlockBase.releaseStrong_freed, hd, h3, hi]
    refine ⟨?_, ?_, trivial, ?_, ?_⟩ <;> (try split_ifs) <;> omega
  | relAcqW =>
    simp only [Effect.pre, Effect.sh, Effect.wk] at hpre hm hn
    have hd : decr c.weak_cnt = n - 1 := by rw [h3]; exact decr_eq n (by omega) hn0
    have hi : incr (n - 1) = n := by rw [incr_eq (n - 1) (by omega)]; omega
    simp only [Fair, Effect.block, Effect.sh, Effect.wk, ControlBlockBase.incWeak,
      ControlBlockBase.releaseWeak_strong,
      ControlBlockBase.releaseWeak_weak, ControlBlockBase.releaseWeak_freed, hd, hi]
    refine ⟨?_, ?_, trivial, ?_, ?_⟩ <;> (try split_ifs) <;> omega

/-! ### Invariants of the state machine -/

theorem Heap.strong_of_getElem? {heap : Heap} {b : Nat} {c : ControlBlockBase}
    (h : heap[b]? = some c) : heap.strong b = c.strong_cnt := by
  simp [Heap.strong, h]

theorem shared_length_step (s : State) (op : Op) :
    s.shared.length ≤ (step s op).shared.length := by
  cases op <;> simp only [step] <;> (try split) <;> (try split) <;> simp

theorem weak_length_step (s : State) (op : Op) :
    s.weak.length ≤ (step s op).weak.length := by
  cases op <;> simp only [step] <;> (try split) <;> (try split) <;> simp

theorem shared_length_run (s : State) (ops : List Op) :
    s.shared.length ≤ (run s ops).shared.length := by
  induction ops generalizing s with
  | nil => exact Nat.le_refl _
  | cons op ops ih => exact Nat.le_trans (shared_length_step s op) (ih (step s op))

theorem weak_length_run (s : State) (ops : List Op) :
    s.weak.length ≤ (run s ops).weak.length := by
  induction ops generalizing s with
  | nil => exact Nat.le_refl _
  | cons op ops ih => exact Nat.le_trans (weak_length_step s op) (ih (step s op))

theorem inRange_of_step {s : State} {op : Op} (h : (step s op).inRange) : s.inRange := by
  have h1 := shared_length_step s op
  have h2 := weak_length_step s op
  unfold State.inRange at *
  omega

theorem inRange_of_run {s : State} {ops : List Op} (h : (run s ops).inRange) : s.inRange := by
  have h1 := shared_length_run s ops
  have h2 := weak_length_run s ops
  unfold State.inRange at *
  omega

theorem blocks_length_step (s : State) (op : Op) :
    s.blocks.length ≤ (step s op).blocks.length := by
  rcases Nat.eq_zero_or_pos s.blocks.length with h0 | hpos
  · omega
  · have hlt : s.blocks.length - 1 < s.blocks.length := by omega
    obtain ⟨e, _, hblk, _⟩ := step_effect s op (s.blocks.length - 1) (Or.inl (by omega))
    obtain ⟨c, hc⟩ : ∃ c, s.blocks[s.blocks.length - 1]? = some c :=
      ⟨_, List.getElem?_eq_getElem hlt⟩
    rw [hc] at hblk
    have := (List.getElem?_eq_some.mp hblk).1
    omega

theorem step_fresh (s : State) (op : Op) (hv : s.Valid) (b : Nat) (hb : s.blocks.length ≤ b) :
    ((step s op).blocks[b]? = none ∧ (step s op).sharedHolders b = 0 ∧
        (step s op).weakHolders b = 0) ∨
      (∃ k, (step s op).blocks[b]? = some { kind := k } ∧ (step s op).sharedHolders b = 1 ∧
        (step s op).weakHolders b = 0) := by
  obtain ⟨hs0, hw0⟩ := hv b hb
  have hnone : s.blocks[b]? = none := List.getElem?_eq_none hb
  by_cases h : b ≠ s.blocks.length ∨ op.allocates = false
  · obtain ⟨e, hpre, hblk, hsh, hwk, _⟩ := step_effect s op b h
    rw [hs0, hw0] at hpre
    rw [hs0] at hsh
    rw [hw0] at hwk
    rw [hnone] at hblk
    left
    cases e <;> simp only [Effect.pre, Effect.sh, Effect.wk] at hpre hsh hwk <;>
      first
      | exact ⟨hblk, hsh, hwk⟩
      | omega
  · have hbl : b = s.blocks.length := by
      by_contra hne; exact h (Or.inl hne)
    have hal : op.allocates = true := by
      cases hop : op.allocates
      · exact absurd (Or.inr hop) h
      · rfl
    subst hbl
    cases op with
    | sRaw p =>
      right
      refine ⟨BlockKind.pointer p, ?_, ?_, hw0⟩
      · simp [step, SharedPtr.fromRaw]
      · show holders (s.shared ++ [some (Handle.mk (some s.blocks.length) p)]) _ = 1
        rw [holders_push, cntIf_pos rfl]
        show s.sharedHolders _ + 1 = 1
        rw [hs0]
    | sMake =>
      right
      refine ⟨BlockKind.emplace, ?_, ?_, hw0⟩
      · simp [step, MakeShared, SharedPtr.fromEmplace]
      · show holders (s.shared ++ [some (Handle.mk (some s.blocks.length)
            (some (Addr.storage s.blocks.length)))]) _ = 1
        rw [holders_push, cntIf_pos rfl]
        show s.sharedHolders _ + 1 = 1
        rw [hs0]
    | sResetPtr i p =>
      cases hi : s.sh i with
      | none =>
        left
        have hs : step s (Op.sResetPtr i p) = s := by simp only [step, hi]
        rw [hs]
        exact ⟨hnone, hs0, hw0⟩
      | some a =>
        right
        have hi' := State.sh_eq_some.mp hi
        have hs : step s (Op.sResetPtr i p) =
            State.mk (s.blocks.dropStrong a.block_ ++ [{ kind := BlockKind.pointer p }])
              (s.shared.set i (some (Handle.mk (some s.blocks.length) p))) s.weak := by
          simp only [step, hi, SharedPtr.ResetPtr_eq]
        rw [hs]
        refine ⟨BlockKind.pointer p, ?_, ?_, hw0⟩
        · have hl := Heap.length_dropStrong s.blocks a.block_
          show (s.blocks.dropStrong a.block_ ++ [_])[s.blocks.length]? = _
          rw [← hl]
          simp
        · have e := holders_set s.shared i a (some s.blocks.length) p hi' s.blocks.length
          rw [cntIf_pos rfl] at e
          have ha : cntIf a.block_ s.blocks.length = 0 := by
            apply cntIf_neg
            intro hab
            have := one_le_holders s.shared i a hi' _ hab
            have hs0' : holders s.shared s.blocks.length = 0 := hs0
            omega
          have hs0' : holders s.shared s.blocks.length = 0 := hs0
          show holders (s.shared.set i _) _ = 1
          omega
    | _ => simp [Op.allocates] at hal

theorem valid_step (s : State) (op : Op) (hv : s.Valid) : (step s op).Valid := by
  intro b hb
  have hb0 : s.blocks.length ≤ b := Nat.le_trans (blocks_length_step s op) hb
  have hnone : (step s op).blocks[b]? = none := List.getElem?_eq_none hb
  rcases step_fresh s op hv b hb0 with ⟨_, h2, h3⟩ | ⟨k, h1, _, _⟩
  · exact ⟨h2, h3⟩
  · rw [hnone] at h1; cases h1
theorem good_fresh (k : BlockKind) : Good { kind := k } 1 0 := by
  refine ⟨rfl, rfl, ?_, ?_, ?_, ?_, ?_, ?_⟩ <;> simp

theorem fair_fresh (k : BlockKind) (n : Nat) : Fair { kind := k } 1 0 n := by
  refine ⟨?_, ?_, rfl, ?_, ?_⟩ <;> simp

theorem inv_init : Inv State.init := by
  refine ⟨?_, ?_⟩
  · intro b _; exact ⟨rfl, rfl⟩
  · intro b c h; simp [State.init] at h

theorem invL_init : InvL State.init := by
  refine ⟨?_, ?_⟩
  · intro b _; exact ⟨rfl, rfl⟩
  · intro b c h; simp [State.init] at h

theorem inv_step (s : State) (op : Op) (hi : Inv s) (hl : op.isLock = false)
    (hr : (step s op).inRange) : Inv (step s op) := by
  obtain ⟨hv, hg⟩ := hi
  have hr0 := inRange_of_step hr
  refine ⟨valid_step s op hv, ?_⟩
  intro b c' hc'
  have hm' : (step s op).sharedHolders b < SIZE_MOD := by
    have := holders_le_length (step s op).shared b
    have := hr.1
    show holders _ b < _
    omega
  have hn' : (step s op).weakHolders b < SIZE_MOD := by
    have := holders_le_length (step s op).weak b
    have := hr.2
    show holders _ b < _
    omega
  have hm0 : s.sharedHolders b < SIZE_MOD := by
    have := holders_le_length s.shared b
    have := hr0.1
    show holders _ b < _
    omega
  have hn0 : s.weakHolders b < SIZE_MOD := by
    have := holders_le_length s.weak b
    have := hr0.2
    show holders _ b < _
    omega
  rcases Nat.lt_or_ge b s.blocks.length with hlt | hge
  · obtain ⟨e, hpre, hblk, hsh, hwk, hlock⟩ := step_effect s op b (Or.inl (by omega))
    have hc : s.blocks[b]? = some s.blocks[b] := List.getElem?_eq_getElem hlt
    rw [hc, hc'] at hblk
    have hce : c' = e.block s.blocks[b] := by simpa using hblk
    rw [Heap.strong_of_getElem? hc] at hpre
    have hne : e ≠ Effect.lock := by
      intro he
      have := (hlock he).1
      rw [hl] at this
      cases this
    rw [hsh] at hm' ⊢
    rw [hwk] at hn' ⊢
    rw [hce]
    exact good_effect e _ _ _ (hg b _ hc) hpre hne hm0 hn0 hm' hn'
  · rcases step_fresh s op hv b hge with ⟨h1, _, _⟩ | ⟨k, h1, h2, h3⟩
    · rw [h1] at hc'; cases hc'
    · rw [h1] at hc'
      cases hc'
      rw [h2, h3]
      exact good_fresh k

theorem invL_step (s : State) (op : Op) (hi : InvL s) (hr : (step s op).inRange) :
    InvL (step s op) := by
  obtain ⟨hv, hg⟩ := hi
  have hr0 := inRange_of_step hr
  refine ⟨valid_step s op hv, ?_⟩
  intro b c' hc'
  have hm' : (step s op).sharedHolders b + (step s op).shared.length < SIZE_MOD := by
    have := holders_le_length (step s op).shared b
    have := hr.1
    show holders _ b + _ < _
    omega
  have hn' : (step s op).weakHolders b < SIZE_MOD := by
    have := holders_le_length (step s op).weak b
    have := hr.2
    show holders _ b < _
    omega
  have hm0 : s.sharedHolders b + s.shared.length < SIZE_MOD := by
    have := holders_le_length s.shared b
    have := hr0.1
    show holders _ b + _ < _
    omega
  have hn0 : s.weakHolders b < SIZE_MOD := by
    have := holders_le_length s.weak b
    have := hr0.2
    show holders _ b < _
    omega
  rcases Nat.lt_or_ge b s.blocks.length with hlt | hge
  · obtain ⟨e, hpre, hblk, hsh, hwk, hlock⟩ := step_effect s op b (Or.inl (by omega))
    have hc : s.blocks[b]? = some s.blocks[b] := List.getElem?_eq_getElem hlt
    rw [hc, hc'] at hblk
    have hce : c' = e.block s.blocks[b] := by simpa using hblk
    rw [Heap.strong_of_getElem? hc] at hpre
    rw [hsh] at hm' ⊢
    rw [hwk] at hn' ⊢
    rw [hce]
    exact fair_effect e _ _ _ _ _ (hg b _ hc) hpre (shared_length_step s op)
      (fun he => (hlock he).2) hm0 hn0 hm' hn'
  · rcases step_fresh s op hv b hge with ⟨h1, _, _⟩ | ⟨k, h1, h2, h3⟩
    · rw [h1] at hc'; cases hc'
    · rw [h1] at hc'
      cases hc'
      rw [h2, h3]
      exact fair_fresh k _

theorem inv_run (s : State) (ops : List Op) (hi : Inv s)
    (hl : ∀ op ∈ ops, op.isLock = false) (hr : (run s ops).inRange) : Inv (run s ops) := by
  induction ops generalizing s with
  | nil => exact hi
  | cons op ops ih =>
    have hr1 : (step s op).inRange := @inRange_of_run (step s op) ops hr
    exact ih (step s op) (inv_step s op hi (hl op (List.mem_cons_self _ _)) hr1)
      (fun o ho => hl o (List.mem_cons_of_mem _ ho)) hr

theorem invL_run (s : State) (ops : List Op) (hi : InvL s) (hr : (run s ops).inRange) :
    InvL (run s ops) := by
  induction ops generalizing s with
  | nil => exact hi
  | cons op ops ih =>
    have hr1 : (step s op).inRange := @inRange_of_run (step s op) ops hr
    exact ih (step s op) (invL_step s op hi hr1) hr

/-! ### What one statement does to the tallies of one block -/

theorem good_effect_destroy (e : Effect) (c : ControlBlockBase) (m n : Nat) (hg : Good c m n)
    (hpre : e.pre c.strong_cnt m n) (hne : e ≠ Effect.lock)
    (hm0 : m < SIZE_MOD) (hn0 : n < SIZE_MOD)
    (hm : e.sh m < SIZE_MOD) (hn : e.wk n < SIZE_MOD) :
    ((e.block c).destroyed = c.destroyed + 1 ↔
        (c.strong_cnt = 1 ∧ (e.block c).strong_cnt = 0)) ∧
      ((e.block c).destroyed = c.destroyed ∨ (e.block c).destroyed = c.destroyed + 1) ∧
      (c.strong_cnt = 1 ∧ (e.block c).strong_cnt = 0 →
        (0 < c.weak_cnt → (e.block c).ptr_deleted = true ∧ (e.block c).freed = 0) ∧
        (c.weak_cnt = 0 → (e.block c).ptr_deleted = false ∧ (e.block c).freed = 1)) ∧
      (c.strong_cnt = 0 → (e.block c).destroyed = c.destroyed) := by
  obtain ⟨h1, h2, h3, h4, h5, h6, h7, h8⟩ := hg
  cases e with
  | same =>
    simp only [Effect.block, id]
    refine ⟨?_, ?_, ?_, ?_⟩
    · omega
    · first | omega | simp
    · rintro ⟨ha, hb⟩; omega
    · first | omega | simp
  | lock => exact absurd rfl hne
  | acqS =>
    simp only [Effect.pre, Effect.sh, Effect.wk] at hpre hm hn
    have hi : incr c.strong_cnt = m + 1 := by rw [h1]; exact incr_eq m hm
    simp only [Effect.block, ControlBlockBase.incStrong, hi]
    refine ⟨?_, ?_, ?_, ?_⟩
    · omega
    · first | omega | simp
    · rintro ⟨ha, hb⟩; omega
    · omega
  | relS =>
    simp only [Effect.pre, Effect.sh, Effect.wk] at hpre hm hn
    have hd : decr c.strong_cnt = m - 1 := by rw [h1]; exact decr_eq m hpre hm0
    simp only [Effect.block, ControlBlockBase.releaseStrong_strong,
      ControlBlockBase.releaseStrong_destroyed,
      ControlBlockBase.releaseStrong_freed, ControlBlockBase.releaseStrong_ptr_deleted, hd, h2]
    cases hp : c.ptr_deleted <;> simp only [hp] at h7 h8 <;>
      refine ⟨?_, ?_, ?_, ?_⟩ <;> (try simp at h7 h8 ⊢) <;> (try split_ifs) <;> omega
  | acqW =>
    simp only [Effect.block, ControlBlockBase.incWeak]
    refine ⟨?_, ?_, ?_, ?_⟩
    · omega
    · first | omega | simp
    · rintro ⟨ha, hb⟩; omega
    · first | omega | simp
  | relW =>
    simp only [Effect.pre, Effect.sh, Effect.wk] at hpre hm hn
    have hd : decr c.weak_cnt = n - 1 := by rw [h2]; exact decr_eq n hpre hn0
    simp only [Effect.block, ControlBlockBase.releaseWeak_strong,
      ControlBlockBase.releaseWeak_destroyed,
      ControlBlockBase.releaseWeak_freed, ControlBlockBase.releaseWeak_ptr_deleted, hd, h1]
    cases hp : c.ptr_deleted <;> simp only [hp] at h7 h8 <;>
      refine ⟨?_, ?_, ?_, ?_⟩ <;> (try simp at h7 h8 ⊢) <;> (try split_ifs) <;> omega
  | relAcqS =>
    simp only [Effect.pre, Effect.sh, Effect.wk] at hpre hm hn
    have hd : decr c.strong_cnt = m - 1 := by rw [h1]; exact decr_eq m (by omega) hm0
    have hi : incr (m - 1) = m := by rw [incr_eq (m - 1) (by omega)]; omega
    simp only [Effect.block, ControlBlockBase.incStrong,
      ControlBlockBase.releaseStrong_strong, ControlBlockBase.releaseStrong_destroyed,
      ControlBlockBase.releaseStrong_freed, ControlBlockBase.releaseStrong_ptr_deleted, hd, h2, hi]
    cases hp : c.ptr_deleted <;> simp only [hp] at h7 h8 <;>
      refine ⟨?_, ?_, ?_, ?_⟩ <;> (try simp at h7 h8 ⊢) <;> (try split_ifs) <;> omega
  | relAcqW =>
    simp only [Effect.pre, Effect.sh, Effect.wk] at hpre hm hn
    have hd : decr c.weak_cnt = n - 1 := by rw [h2]; exact decr_eq n (by omega) hn0
    simp only [Effect.block, ControlBlockBase.incWeak,
      ControlBlockBase.releaseWeak_strong, ControlBlockBase.releaseWeak_destroyed,
      ControlBlockBase.releaseWeak_freed, ControlBlockBase.releaseWeak_ptr_deleted, hd, h1]
    cases hp : c.ptr_deleted <;> simp only [hp] at h7 h8 <;>
      refine ⟨?_, ?_, ?_, ?_⟩ <;> (try simp at h7 h8 ⊢) <;> (try split_ifs) <;> omega
theorem fair_effect_freed (e : Effect) (c : ControlBlockBase) (m n k : Nat)
    (k' : Nat) (hf : Fair c m n k) (hpre : e.pre c.strong_cnt m n)
    (hk : k ≤ k') (hl : e = Effect.lock → k' = k + 1)
    (hm0 : m + k < SIZE_MOD) (hn0 : n < SIZE_MOD)
    (hm : e.sh m + k' < SIZE_MOD) (hn : e.wk n < SIZE_MOD) :
    ((e.block c).freed = c.freed + 1 ↔
        ((c.strong_cnt = 1 ∧ c.weak_cnt = 0 ∨ c.strong_cnt = 0 ∧ c.weak_cnt = 1) ∧
          (e.block c).strong_cnt = 0 ∧ (e.block c).weak_cnt = 0)) ∧
      ((e.block c).freed = c.freed ∨ (e.block c).freed = c.freed + 1) := by
  obtain ⟨h1, h2, h3, h4, h5⟩ := hf
  cases e with
  | same =>
    simp only [Effect.block, id]
    refine ⟨?_, ?_⟩
    · omega
    · simp
  | lock =>
    have hk' := hl rfl
    simp only [Effect.sh, Effect.wk] at hm hn
    have hi1 : incr c.strong_cnt = c.strong_cnt + 1 := incr_eq _ (by omega)
    have hi2 : incr (c.strong_cnt + 1) = c.strong_cnt + 2 := incr_eq _ (by omega)
    simp only [Effect.block, ControlBlockBase.incStrong, hi1, hi2]
    refine ⟨?_, ?_⟩
    · omega
    · simp
  | acqS =>
    simp only [Effect.sh, Effect.wk] at hm hn
    have hi : incr c.strong_cnt = c.strong_cnt + 1 := incr_eq _ (by omega)
    simp only [Effect.block, ControlBlockBase.incStrong, hi]
    refine ⟨?_, ?_⟩
    · omega
    · simp
  | relS =>
    simp only [Effect.pre] at hpre
    have hd : decr c.strong_cnt = c.strong_cnt - 1 := decr_eq _ (by omega) (by omega)
    simp only [Effect.block, ControlBlockBase.releaseStrong_strong,
      ControlBlockBase.releaseStrong_weak, ControlBlockBase.releaseStrong_freed, hd]
    refine ⟨?_, ?_⟩ <;> split_ifs <;> omega
  | acqW =>
    simp only [Effect.sh, Effect.wk] at hm hn
    have hi : incr c.weak_cnt = c.weak_cnt + 1 := incr_eq _ (by omega)
    simp only [Effect.block, ControlBlockBase.incWeak, hi]
    refine ⟨?_, ?_⟩
    · omega
    · simp
  | relW =>
    simp only [Effect.pre] at hpre
    have hd : decr c.weak_cnt = c.weak_cnt - 1 := decr_eq _ (by omega) (by omega)
    simp only [Effect.block, ControlBlockBase.releaseWeak_strong,
      ControlBlockBase.releaseWeak_weak, ControlBlockBase.releaseWeak_freed, hd]
    refine ⟨?_, ?_⟩ <;> split_ifs <;> omega
  | relAcqS =>
    simp only [Effect.pre] at hpre
    have hd : decr c.strong_cnt = c.strong_cnt - 1 := decr_eq _ (by omega) (by omega)
    have hi : incr (c.strong_cnt - 1) = c.strong_cnt := by
      rw [incr_eq _ (by omega)]; omega
    simp only [Effect.block, ControlBlockBase.incStrong, ControlBlockBase.releaseStrong_strong,
      ControlBlockBase.releaseStrong_weak, ControlBlockBase.releaseStrong_freed, hd, hi]
    refine ⟨?_, ?_⟩ <;> split_ifs <;> omega
  | relAcqW =>
    simp only [Effect.pre] at hpre
    have hd : decr c.weak_cnt = c.weak_cnt - 1 := decr_eq _ (by omega) (by omega)
    have hi : incr (c.weak_cnt - 1) = c.weak_cnt := by
      rw [incr_eq _ (by omega)]; omega
    simp only [Effect.block, ControlBlockBase.incWeak, ControlBlockBase.releaseWeak_strong,
      ControlBlockBase.releaseWeak_weak, ControlBlockBase.releaseWeak_freed, hd, hi]
    refine ⟨?_, ?_⟩ <;> split_ifs <;> omega

theorem step_block_effect (s : State) (op : Op) (b : Nat) (c c' : ControlBlockBase)
    (hc : s.blocks[b]? = some c) (hc' : (step s op).blocks[b]? = some c') :
    ∃ e : Effect, e.pre c.strong_cnt (s.sharedHolders b) (s.weakHolders b) ∧
      c' = e.block c ∧
      (step s op).sharedHolders b = e.sh (s.sharedHolders b) ∧
      (step s op).weakHolders b = e.wk (s.weakHolders b) ∧
      (e = Effect.lock → op.isLock = true) := by
  have hlt : b < s.blocks.length := (List.getElem?_eq_some.mp hc).1
  obtain ⟨e, hpre, hblk, hsh, hwk, hlock⟩ := step_effect s op b (Or.inl (by omega))
  rw [hc, hc'] at hblk
  rw [Heap.strong_of_getElem? hc] at hpre
  exact ⟨e, hpre, by simpa using hblk, hsh, hwk, fun he => (hlock he).1⟩

theorem holders_lt_of_inRange {s : State} (h : s.inRange) (b : Nat) :
    s.sharedHolders b + s.shared.length < SIZE_MOD ∧ s.sharedHolders b < SIZE_MOD ∧
      s.weakHolders b < SIZE_MOD := by
  have h1 := holders_le_length s.shared b
  have h2 := holders_le_length s.weak b
  have h3 := h.1
  have h4 := h.2
  refine ⟨?_, ?_, ?_⟩
  · show holders _ b + _ < _; omega
  · show holders _ b < _; omega
  · show holders _ b < _; omega

/-! ## The claims -/

theorem isLock_of_isSharedBasic {op : Op} (h : op.isSharedBasic = true) : op.isLock = false := by
  cases op <;> simp [Op.isSharedBasic, Op.isLock] at h ⊢

/-- Plain element type (no object holds a handle).
Start with one handle made by `SharedPtr(T*)` or `MakeShared` and run
any finite sequence of copy constructions, move constructions, copy
assignments, move assignments, `Reset()`, `Reset(T*)` and destructor calls on
shared handles (with so few handles that no `size_t` wraps).  Then `UseCount()`
of every live non-empty handle is the number of live shared handles holding
the same control block. -/
theorem use_count_eq_live_holders (first : Op) (ops : List Op)
    (hfirst : first = Op.sMake ∨ ∃ p, first = Op.sRaw p)
    (hops : ∀ op ∈ ops, op.isSharedBasic = true)
    (hr : (run State.init (first :: ops)).inRange)
    (i : Nat) (h : SharedPtr) (b : Nat)
    (hlive : (run State.init (first :: ops)).sh i = some h) (hb : h.block_ = some b) :
    SharedPtr.UseCount (run State.init (first :: ops)).blocks h =
      (run State.init (first :: ops)).sharedHolders b := by
  have hl : ∀ op ∈ first :: ops, op.isLock = false := by
    intro op hop
    rcases List.mem_cons.mp hop with rfl | hmem
    · rcases hfirst with rfl | ⟨p, rfl⟩ <;> rfl
    · exact isLock_of_isSharedBasic (hops op hmem)
  obtain ⟨hv, hg⟩ := inv_run State.init (first :: ops) inv_init hl hr
  have hi' := State.sh_eq_some.mp hlive
  have h1 : 1 ≤ (run State.init (first :: ops)).sharedHolders b :=
    one_le_holders _ i h hi' b hb
  have hlt : b < (run State.init (first :: ops)).blocks.length := by
    by_contra hge
    have := (hv b (by omega)).1
    omega
  have hc := List.getElem?_eq_getElem hlt
  have := (hg b _ hc).1
  simp only [SharedPtr.UseCount, hb, Heap.strong_of_getElem? hc, this]

theorem use_count_eq_live_holders_witness :
    SharedPtr.UseCount
        (run State.init [Op.sRaw (some (Addr.raw 7)), Op.sCopy 0, Op.sCopy 1,
          Op.sMove 2, Op.sCopyAssign 2 0, Op.sDtor 1, Op.sResetPtr 3 none, Op.sReset 0]).blocks
        { block_ := some 0, ptr_ := some (Addr.raw 7) } =
      (run State.init [Op.sRaw (some (Addr.raw 7)), Op.sCopy 0, Op.sCopy 1,
          Op.sMove 2, Op.sCopyAssign 2 0, Op.sDtor 1, Op.sResetPtr 3 none,
          Op.sReset 0]).sharedHolders 0 :=
  use_count_eq_live_holders (Op.sRaw (some (Addr.raw 7)))
    [Op.sCopy 0, Op.sCopy 1, Op.sMove 2, Op.sCopyAssign 2 0, Op.sDtor 1, Op.sResetPtr 3 none,
      Op.sReset 0]
    (Or.inr ⟨_, rfl⟩) (by decide) (by unfold State.inRange; decide) 2
    { block_ := some 0, ptr_ := some (Addr.raw 7) } 0 (by decide) rfl
/-- Plain element type (no object holds a handle).
In every program of shared-handle and weak-handle constructions,
copies, moves, assignments, `Reset`s and destructor calls (every statement
except `Lock`), for every control block: the managed object has been destroyed
once if `strong_cnt` is 0 and not at all otherwise; a statement destroys it
exactly when it takes `strong_cnt` from 1 to 0, through `DeletePtr`
(`ptr_deleted` set, block kept) when `weak_cnt > 0` and through the block
destructor (block freed) when `weak_cnt == 0`; and a statement that finds
`strong_cnt == 0`, such as the one that later frees the block, does not destroy
it again. -/
theorem object_destroyed_exactly_once (ops : List Op) (op : Op)
    (hops : ∀ o ∈ ops, o.isLock = false) (hop : op.isLock = false)
    (hr : (step (run State.init ops) op).inRange)
    (b : Nat) (c c' : ControlBlockBase)
    (hc : (run State.init ops).blocks[b]? = some c)
    (hc' : (step (run State.init ops) op).blocks[b]? = some c') :
    (c.destroyed = if c.strong_cnt = 0 then 1 else 0) ∧
      (c'.destroyed = if c'.strong_cnt = 0 then 1 else 0) ∧
      (c'.destroyed = c.destroyed + 1 ↔ c.strong_cnt = 1 ∧ c'.strong_cnt = 0) ∧
      (c'.destroyed = c.destroyed ∨ c'.destroyed = c.destroyed + 1) ∧
      (c.strong_cnt = 1 ∧ c'.strong_cnt = 0 →
        (0 < c.weak_cnt → c'.ptr_deleted = true ∧ c'.freed = 0) ∧
        (c.weak_cnt = 0 → c'.ptr_deleted = false ∧ c'.freed = 1)) ∧
      (c.strong_cnt = 0 → c'.destroyed = c.destroyed) := by
  have hr0 : (run State.init ops).inRange := inRange_of_step hr
  have hinv := inv_run State.init ops inv_init hops hr0
  have hinv' := inv_step _ op hinv hop hr
  have hg := hinv.2 b c hc
  have hg' := hinv'.2 b c' hc'
  obtain ⟨e, hpre, hce, hsh, hwk, hlock⟩ := step_block_effect _ op b c c' hc hc'
  have hne : e ≠ Effect.lock := by
    intro he
    have := hlock he
    rw [hop] at this
    cases this
  have hb0 := holders_lt_of_inRange hr0 b
  have hb1 := holders_lt_of_inRange hr b
  rw [hsh, hwk] at hb1
  have hd := good_effect_destroy e c _ _ hg hpre hne hb0.2.1 hb0.2.2 hb1.2.1 hb1.2.2
  rw [← hce] at hd
  obtain ⟨g1, g2, g3, g4, g5, g6, g7, g8⟩ := hg
  obtain ⟨g1', g2', g3', g4', g5', g6', g7', g8'⟩ := hg'
  refine ⟨?_, ?_, hd.1, hd.2.1, hd.2.2.1, hd.2.2.2⟩
  · split_ifs <;> omega
  · split_ifs <;> omega

theorem object_destroyed_exactly_once_witness :
    (run State.init progShared).blocks[0]? =
        some { weak_cnt := 1, kind := BlockKind.pointer (some (Addr.raw 7)) } ∧
      (step (run State.init progShared) (Op.sReset 0)).blocks[0]? =
        some { strong_cnt := 0, weak_cnt := 1, ptr_deleted := true,
               kind := BlockKind.pointer (some (Addr.raw 7)), destroyed := 1 } ∧
      ((1 : Nat) = 0 + 1 ↔ (1 : Nat) = 1 ∧ (0 : Nat) = 0) :=
  ⟨by decide, by decide,
    (object_destroyed_exactly_once progShared (Op.sReset 0) (by decide) (by decide)
      (by unfold State.inRange; decide) 0
      { weak_cnt := 1, kind := BlockKind.pointer (some (Addr.raw 7)) }
      { strong_cnt := 0, weak_cnt := 1, ptr_deleted := true,
        kind := BlockKind.pointer (some (Addr.raw 7)), destroyed := 1 }
      (by decide) (by decide)).2.2.1⟩
/-- Plain element type (no object holds a handle).
In every program of `SharedPtr` and `WeakPtr` statements (`Lock`
included), for every control block and every statement: the block has been
freed at most once before and after the statement; the statement frees it if
and only if it decrements one of the two counters and leaves both at 0 (a
release sequence frees exactly when, right after its decrement, both counters
are 0); and no live shared or weak handle holds a block that has been freed. -/
theorem block_freed_at_most_once (ops : List Op) (op : Op)
    (hr : (step (run State.init ops) op).inRange)
    (b : Nat) (c c' : ControlBlockBase)
    (hc : (run State.init ops).blocks[b]? = some c)
    (hc' : (step (run State.init ops) op).blocks[b]? = some c') :
    c.freed ≤ 1 ∧ c'.freed ≤ 1 ∧
      (c'.freed = c.freed + 1 ↔
        ((c.strong_cnt = 1 ∧ c.weak_cnt = 0 ∨ c.strong_cnt = 0 ∧ c.weak_cnt = 1) ∧
          c'.strong_cnt = 0 ∧ c'.weak_cnt = 0)) ∧
      (c'.freed = c.freed ∨ c'.freed = c.freed + 1) ∧
      (0 < c'.freed →
        (step (run State.init ops) op).sharedHolders b = 0 ∧
          (step (run State.init ops) op).weakHolders b = 0) ∧
      (∀ x : ControlBlockBase, x.releaseStrong.1.freed =
        x.freed + (if decr x.strong_cnt = 0 ∧ x.weak_cnt = 0 then 1 else 0)) ∧
      (∀ x : ControlBlockBase, x.releaseWeak.freed =
        x.freed + (if x.strong_cnt = 0 ∧ decr x.weak_cnt = 0 then 1 else 0)) := by
  have hr0 : (run State.init ops).inRange := inRange_of_step hr
  have hinv := invL_run State.init ops invL_init hr0
  have hinv' := invL_step _ op hinv hr
  have hg := hinv.2 b c hc
  have hg' := hinv'.2 b c' hc'
  have hlt : b < (run State.init ops).blocks.length := (List.getElem?_eq_some.mp hc).1
  obtain ⟨e, hpre, hblk, hsh, hwk, hlock⟩ :=
    step_effect (run State.init ops) op b (Or.inl (by omega))
  rw [hc, hc'] at hblk
  have hce : c' = e.block c := by simpa using hblk
  rw [Heap.strong_of_getElem? hc] at hpre
  have hb0 := holders_lt_of_inRange hr0 b
  have hb1 := holders_lt_of_inRange hr b
  rw [hsh, hwk] at hb1
  have hd := fair_effect_freed e c _ _ _ _ hg hpre (shared_length_step _ op)
    (fun he => (hlock he).2) hb0.1 hb0.2.2 hb1.1 hb1.2.2
  rw [← hce] at hd
  obtain ⟨g1, g2, g3, g4, g5⟩ := hg
  obtain ⟨g1', g2', g3', g4', g5'⟩ := hg'
  refine ⟨?_, ?_, hd.1, hd.2, ?_, ControlBlockBase.releaseStrong_freed,
    ControlBlockBase.releaseWeak_freed⟩
  · omega
  · omega
  · intro hf
    constructor <;> omega

theorem block_freed_at_most_once_witness :
    (run State.init progExpired).blocks[0]? =
        some { strong_cnt := 0, weak_cnt := 1, ptr_deleted := true,
               kind := BlockKind.pointer (some (Addr.raw 7)), destroyed := 1 } ∧
      (step (run State.init progExpired) (Op.wDtor 0)).blocks[0]? =
        some { strong_cnt := 0, weak_cnt := 0, ptr_deleted := true,
               kind := BlockKind.pointer (some (Addr.raw 7)), destroyed := 1, freed := 1 } ∧
      (step (run State.init progExpired) (Op.wDtor 0)).sharedHolders 0 = 0 ∧
      (step (run State.init progExpired) (Op.wDtor 0)).weakHolders 0 = 0 :=
  ⟨by decide, by decide,
    (block_freed_at_most_once progExpired (Op.wDtor 0)
      (by unfold State.inRange; decide) 0
      { strong_cnt := 0, weak_cnt := 1, ptr_deleted := true,
        kind := BlockKind.pointer (some (Addr.raw 7)), destroyed := 1 }
      { strong_cnt := 0, weak_cnt := 0, ptr_deleted := true,
        kind := BlockKind.pointer (some (Addr.raw 7)), destroyed := 1, freed := 1 }
      (by decide) (by decide)).2.2.2.2.1 (by decide)⟩
/-- C4 (evaluation of the code where the claim fails). After
`SharedPtr<T> h(p); WeakPtr<T> w(h); h.Reset();` the weak handle `w` is expired
and its block has `strong_cnt == 0`.  `w.Lock()` then returns a handle that
holds the block (boolean conversion true, `UseCount() == 2`, `Get() == nullptr`)
and leaves `strong_cnt` at 2, so that `w.Expired()` is false afterwards. -/
theorem C4_lock_of_expired_holds_block :
    (run State.init progExpired).wk 0 = some { block_ := some 0, ptr_ := some (Addr.raw 7) } ∧
      WeakPtr.Expired (run State.init progExpired).blocks
        { block_ := some 0, ptr_ := some (Addr.raw 7) } = true ∧
      (WeakPtr.Lock (run State.init progExpired).blocks
        { block_ := some 0, ptr_ := some (Addr.raw 7) }).2 = { block_ := some 0, ptr_ := none } ∧
      SharedPtr.toBool (WeakPtr.Lock (run State.init progExpired).blocks
        { block_ := some 0, ptr_ := some (Addr.raw 7) }).2 = true ∧
      SharedPtr.UseCount
        (WeakPtr.Lock (run State.init progExpired).blocks
          { block_ := some 0, ptr_ := some (Addr.raw 7) }).1
        (WeakPtr.Lock (run State.init progExpired).blocks
          { block_ := some 0, ptr_ := some (Addr.raw 7) }).2 = 2 ∧
      WeakPtr.Expired
        (WeakPtr.Lock (run State.init progExpired).blocks
          { block_ := some 0, ptr_ := some (Addr.raw 7) }).1
        { block_ := some 0, ptr_ := some (Addr.raw 7) } = false := by
  decide

theorem strong_acquireStrong (heap : Heap) (ob : Option Nat) (b : Nat) (c : ControlBlockBase)
    (hc : heap[b]? = some c) :
    (heap.acquireStrong ob).strong b = if ob = some b then incr c.strong_cnt else c.strong_cnt := by
  unfold Heap.strong
  rw [Heap.getElem?_acquireStrong, hc]
  split_ifs <;> rfl

theorem weak_acquireStrong (heap : Heap) (ob : Option Nat) (b : Nat) :
    (heap.acquireStrong ob).weak b = heap.weak b := by
  unfold Heap.weak
  rw [Heap.getElem?_acquireStrong]
  split_ifs
  · cases heap[b]? <;> rfl
  · rfl

theorem getElem?_acquireStrong_ne (heap : Heap) (b x : Nat) (hx : x ≠ b) :
    (heap.acquireStrong (some b))[x]? = heap[x]? := by
  rw [Heap.getElem?_acquireStrong, if_neg]
  intro h
  exact hx (Option.some.inj h).symm

/-- C5. At any point of any program (with so few handles that no `size_t`
wraps), for every live weak handle `w`: the promoting constructor
`SharedPtr(const WeakPtr<T>&)` throws `BadWeakPtr` if and only if
`w.UseCount() == 0`, which is the case exactly when `w` has no block or the
block's `strong_cnt` is 0, and then leaves the heap as it was; otherwise it
returns a handle that holds the block of `w`, with `Get()` equal to the address
stored in `w`, and the block's `strong_cnt` is one greater than before, its
`weak_cnt` and all other blocks unchanged. -/
theorem C5_promote_throws_iff_expired (ops : List Op) (i : Nat) (w : WeakPtr)
    (hw : (run State.init ops).wk i = some w)
    (hr : (step (run State.init ops) (Op.sPromote i)).inRange) :
    ((SharedPtr.promote (run State.init ops).blocks w).2 = Except.error BadWeakPtr.mk ↔
        WeakPtr.UseCount (run State.init ops).blocks w = 0) ∧
      (WeakPtr.UseCount (run State.init ops).blocks w = 0 ↔
        (w.block_ = none ∨ ∃ b, w.block_ = some b ∧ (run State.init ops).blocks.strong b = 0)) ∧
      (WeakPtr.UseCount (run State.init ops).blocks w = 0 →
        (SharedPtr.promote (run State.init ops).blocks w).1 = (run State.init ops).blocks) ∧
      (WeakPtr.UseCount (run State.init ops).blocks w ≠ 0 →
        ∃ b h, w.block_ = some b ∧
          (SharedPtr.promote (run State.init ops).blocks w).2 = Except.ok h ∧
          h.block_ = some b ∧ SharedPtr.Get h = w.ptr_ ∧
          (SharedPtr.promote (run State.init ops).blocks w).1.strong b =
            (run State.init ops).blocks.strong b + 1 ∧
          (SharedPtr.promote (run State.init ops).blocks w).1.weak b =
            (run State.init ops).blocks.weak b ∧
          ∀ x, x ≠ b → (SharedPtr.promote (run State.init ops).blocks w).1[x]? =
            (run State.init ops).blocks[x]?) := by
  have hr0 : (run State.init ops).inRange := inRange_of_step hr
  have hinv := invL_run State.init ops invL_init hr0
  generalize run State.init ops = s at *
  refine ⟨?_, ?_, ?_, ?_⟩
  · rw [SharedPtr.promote_eq]
    split_ifs with hu
    · simp [hu]
    · simp only [ne_eq, not_not] at hu
      simp [hu]
  · cases hb : w.block_ with
    | none => simp [WeakPtr.UseCount, hb]
    | some b => simp [WeakPtr.UseCount, hb]
  · intro hu
    rw [SharedPtr.promote_eq]
    simp [hu]
  · intro hu
    cases hb : w.block_ with
    | none => simp [WeakPtr.UseCount, hb] at hu
    | some b =>
      have hs0 : s.blocks.strong b ≠ 0 := by simpa [WeakPtr.UseCount, hb] using hu
      obtain ⟨c, hc⟩ : ∃ c, s.blocks[b]? = some c := by
        cases hcb : s.blocks[b]? with
        | none => simp [Heap.strong, hcb] at hs0
        | some c => exact ⟨c, rfl⟩
      have hlen : (step s (Op.sPromote i)).shared.length = s.shared.length + 1 := by
        simp [step, hw, SharedPtr.promote_eq, hu]
      obtain ⟨f1, f2, f3, f4, f5⟩ := hinv.2 b c hc
      have hm := holders_le_length s.shared b
      have hm' : s.sharedHolders b ≤ s.shared.length := hm
      have h2 := hr.1
      rw [hlen] at h2
      have hinc : incr c.strong_cnt = c.strong_cnt + 1 := incr_eq _ (by omega)
      refine ⟨b, { block_ := some b, ptr_ := w.ptr_ }, rfl, ?_, rfl, rfl, ?_, ?_, ?_⟩
      · rw [SharedPtr.promote_eq]
        simp [hu, hb]
      · rw [SharedPtr.promote_eq, if_pos hu, hb]
        show (s.blocks.acquireStrong (some b)).strong b = _
        rw [strong_acquireStrong _ _ _ c hc, if_pos rfl, Heap.strong_of_getElem? hc, hinc]
      · rw [SharedPtr.promote_eq, if_pos hu, hb]
        exact weak_acquireStrong s.blocks (some b) b
      · intro x hx
        rw [SharedPtr.promote_eq, if_pos hu, hb]
        exact getElem?_acquireStrong_ne s.blocks b x hx

theorem C5_promote_throws_iff_expired_witness :
    (run State.init progShared).wk 0 = some { block_ := some 0, ptr_ := some (Addr.raw 7) } ∧
      ((SharedPtr.promote (run State.init progShared).blocks
          { block_ := some 0, ptr_ := some (Addr.raw 7) }).2 = Except.error BadWeakPtr.mk ↔
        WeakPtr.UseCount (run State.init progShared).blocks
          { block_ := some 0, ptr_ := some (Addr.raw 7) } = 0) :=
  ⟨by decide,
    (C5_promote_throws_iff_expired progShared 0 { block_ := some 0, ptr_ := some (Addr.raw 7) }
      (by decide) (by unfold State.inRange; decide)).1⟩
/-- C6 (evaluation of the code where the claim fails). The program
`SharedPtr<T> h(p); WeakPtr<T> w(h); h.Reset(); auto s = w.Lock();` uses public
operations only.  Before the `Lock` the block's object is destroyed
(`ptr_deleted`, `strong_cnt == 0`); after it the block still has `ptr_deleted`
set but `strong_cnt == 2`, and the handle returned by `Lock` (slot 1) holds
that block. -/
theorem C6_lock_revives_destroyed_block :
    (run State.init progExpired).blocks[0]? =
        some { strong_cnt := 0, weak_cnt := 1, ptr_deleted := true,
               kind := BlockKind.pointer (some (Addr.raw 7)), destroyed := 1 } ∧
      (run State.init (progExpired ++ [Op.wLock 0])).blocks[0]? =
        some { strong_cnt := 2, weak_cnt := 1, ptr_deleted := true,
               kind := BlockKind.pointer (some (Addr.raw 7)), destroyed := 1 } ∧
      (run State.init (progExpired ++ [Op.wLock 0])).sh 1 =
        some { block_ := some 0, ptr_ := none } := by
  decide

/-- Without `Lock` the property of C6 holds: in every program that never calls
`Lock`, a block whose `ptr_deleted` flag is set has `strong_cnt == 0`. -/
theorem ptr_deleted_strong_zero_of_no_lock (ops : List Op)
    (hops : ∀ o ∈ ops, o.isLock = false) (hr : (run State.init ops).inRange)
    (b : Nat) (c : ControlBlockBase) (hc : (run State.init ops).blocks[b]? = some c)
    (hp : c.ptr_deleted = true) : c.strong_cnt = 0 := by
  obtain ⟨g1, _, _, _, _, _, g7, _⟩ := (inv_run State.init ops inv_init hops hr).2 b c hc
  rw [g1]
  exact g7 hp

/-- C7 (evaluation of the code where the claim fails). After
`SharedPtr<T> h(p); WeakPtr<T> w(h);` the block has `strong_cnt == 1`.
`w.Lock()` returns a handle holding the block with `Get()` the stored address
and leaves `weak_cnt` at 1, but `strong_cnt` is 3 afterwards, although only two
shared handles hold the block. -/
theorem C7_lock_increments_twice :
    (run State.init progShared).wk 0 = some { block_ := some 0, ptr_ := some (Addr.raw 7) } ∧
      (run State.init progShared).blocks.strong 0 = 1 ∧
      (WeakPtr.Lock (run State.init progShared).blocks
        { block_ := some 0, ptr_ := some (Addr.raw 7) }).2 =
          { block_ := some 0, ptr_ := some (Addr.raw 7) } ∧
      (WeakPtr.Lock (run State.init progShared).blocks
        { block_ := some 0, ptr_ := some (Addr.raw 7) }).1.strong 0 = 3 ∧
      (WeakPtr.Lock (run State.init progShared).blocks
        { block_ := some 0, ptr_ := some (Addr.raw 7) }).1.weak 0 = 1 ∧
      (run State.init (progShared ++ [Op.wLock 0])).sharedHolders 0 = 2 := by
  decide

/-- C8. For every weak handle and every heap, `Expired()` is true exactly when
`UseCount()` is 0.  A default-constructed weak handle and a weak handle after
`Reset()` have no block, are expired and report `UseCount() == 0`; the weak
handle of `SharedPtr<T> h(p); WeakPtr<T> w(h); h.Reset();`, whose block survives
with `strong_cnt == 0`, is expired with `UseCount() == 0`. -/
theorem C8_expired_iff_use_count_zero (heap : Heap) (w : WeakPtr) :
    (WeakPtr.Expired heap w = true ↔ WeakPtr.UseCount heap w = 0) ∧
      WeakPtr.Expired heap WeakPtr.default = true ∧
      WeakPtr.UseCount heap WeakPtr.default = 0 ∧
      WeakPtr.Expired (WeakPtr.Reset heap w).1 (WeakPtr.Reset heap w).2 = true ∧
      WeakPtr.UseCount (WeakPtr.Reset heap w).1 (WeakPtr.Reset heap w).2 = 0 ∧
      (run State.init progExpired).blocks[0]? =
        some { strong_cnt := 0, weak_cnt := 1, ptr_deleted := true,
               kind := BlockKind.pointer (some (Addr.raw 7)), destroyed := 1 } ∧
      WeakPtr.Expired (run State.init progExpired).blocks
        { block_ := some 0, ptr_ := some (Addr.raw 7) } = true ∧
      WeakPtr.UseCount (run State.init progExpired).blocks
        { block_ := some 0, ptr_ := some (Addr.raw 7) } = 0 := by
  refine ⟨?_, rfl, rfl, rfl, rfl, by decide, by decide, by decide⟩
  cases hb : w.block_ with
  | none => simp [WeakPtr.Expired, WeakPtr.UseCount, hb]
  | some b =>
    simp only [WeakPtr.Expired, WeakPtr.UseCount, hb]
    split_ifs with h
    · simp; omega
    · simp; omega

/-- C9 (evaluation of the code where the claim fails). When exactly one of the
two handles is empty, and when both are, `operator==` reaches the end of its
body without a `return`: no value is returned. -/
theorem C9_eq_returns_nothing_when_one_is_empty :
    SharedPtr.eq {} { block_ := some 0, ptr_ := some (Addr.raw 7) } = none ∧
      SharedPtr.eq { block_ := some 0, ptr_ := some (Addr.raw 7) } {} = none ∧
      SharedPtr.eq {} {} = none := by
  decide
theorem getElem?_dropStrong_some (heap : Heap) (ob : Option Nat) (b : Nat)
    (c : ControlBlockBase) (hc : heap[b]? = some c) :
    (heap.dropStrong ob)[b]? = some (if ob = some b then c.releaseStrong.1 else c) := by
  rw [Heap.getElem?_dropStrong, hc]
  split_ifs <;> rfl

/-- Plain element type (no object holds a handle).
At any point of any program (with so few handles that no `size_t`
wraps), for live shared handles `a` (slot `i`) and `b` (slot `j`):
copy construction `SharedPtr a2(b)` yields a handle with the block and address
of `b` and raises the `strong_cnt` of that block by one, and for an empty `b`
yields an empty handle and leaves the heap untouched; copy assignment `a = b`
between distinct handles gives `a` the block and address of `b`, raises the
`strong_cnt` of that block by one when `a` did not hold it and leaves it
unchanged when `a` already held it, and for an empty `b` leaves `a` empty;
self-assignment `a = a` changes nothing at all. -/
theorem copy_shares_block (ops : List Op) (i j : Nat) (a o : SharedPtr)
    (hi : (run State.init ops).sh i = some a) (hj : (run State.init ops).sh j = some o)
    (hr : (step (run State.init ops) (Op.sCopy j)).inRange) :
    ((SharedPtr.copy (run State.init ops).blocks o).2.block_ = o.block_ ∧
        SharedPtr.Get (SharedPtr.copy (run State.init ops).blocks o).2 = SharedPtr.Get o ∧
        (∀ b, o.block_ = some b →
          (SharedPtr.copy (run State.init ops).blocks o).1.strong b =
            (run State.init ops).blocks.strong b + 1) ∧
        (o.block_ = none →
          (SharedPtr.copy (run State.init ops).blocks o).1 = (run State.init ops).blocks ∧
          SharedPtr.toBool (SharedPtr.copy (run State.init ops).blocks o).2 = false)) ∧
      (i ≠ j →
        (SharedPtr.copyAssign (run State.init ops).blocks a o false).2.block_ = o.block_ ∧
        SharedPtr.Get (SharedPtr.copyAssign (run State.init ops).blocks a o false).2 =
          SharedPtr.Get o ∧
        (∀ b, o.block_ = some b →
          (a.block_ ≠ some b →
            (SharedPtr.copyAssign (run State.init ops).blocks a o false).1.strong b =
              (run State.init ops).blocks.strong b + 1) ∧
          (a.block_ = some b →
            (SharedPtr.copyAssign (run State.init ops).blocks a o false).1.strong b =
              (run State.init ops).blocks.strong b)) ∧
        (o.block_ = none →
          SharedPtr.toBool (SharedPtr.copyAssign (run State.init ops).blocks a o false).2
            = false)) ∧
      (SharedPtr.copyAssign (run State.init ops).blocks a a true =
          ((run State.init ops).blocks, a) ∧
        step (run State.init ops) (Op.sCopyAssign i i) = run State.init ops) := by
  have hr0 : (run State.init ops).inRange := inRange_of_step hr
  have hinv := invL_run State.init ops invL_init hr0
  generalize run State.init ops = s at *
  have hi' := State.sh_eq_some.mp hi
  have hj' := State.sh_eq_some.mp hj
  have hlen : (step s (Op.sCopy j)).shared.length = s.shared.length + 1 := by
    simp [step, hj]
  have h2 := hr.1
  rw [hlen] at h2
  -- facts about the block of `o`
  have key : ∀ b, o.block_ = some b → ∃ c, s.blocks[b]? = some c ∧
      incr c.strong_cnt = c.strong_cnt + 1 ∧ 1 ≤ s.sharedHolders b ∧
      s.sharedHolders b ≤ c.strong_cnt ∧ c.strong_cnt < SIZE_MOD := by
    intro b hob
    have h1 : 1 ≤ s.sharedHolders b := one_le_holders s.shared j o hj' b hob
    have hlt : b < s.blocks.length := by
      by_contra hge
      have := (hinv.1 b (by omega)).1
      omega
    have hc := List.getElem?_eq_getElem hlt
    obtain ⟨f1, f2, f3, f4, f5⟩ := hinv.2 b _ hc
    have hm : s.sharedHolders b ≤ s.shared.length := holders_le_length s.shared b
    exact ⟨_, hc, incr_eq _ (by omega), h1, f1, by omega⟩
  refine ⟨⟨?_, ?_, ?_, ?_⟩, ?_, ?_, ?_⟩
  · rw [SharedPtr.copy_eq]
  · rw [SharedPtr.copy_eq]
  · intro b hob
    obtain ⟨c, hc, hinc, _, _, _⟩ := key b hob
    rw [SharedPtr.copy_eq]
    show (s.blocks.acquireStrong o.block_).strong b = _
    rw [strong_acquireStrong _ _ _ c hc, if_pos hob, Heap.strong_of_getElem? hc, hinc]
  · intro hob
    rw [SharedPtr.copy_eq, hob]
    exact ⟨rfl, rfl⟩
  · intro hij
    rw [SharedPtr.copyAssign_eq]
    refine ⟨rfl, rfl, ?_, ?_⟩
    · intro b hob
      obtain ⟨c, hc, hinc, h1, hle, hlt⟩ := key b hob
      have hc2 := getElem?_dropStrong_some s.blocks a.block_ b c hc
      constructor
      · intro hab
        show ((s.blocks.dropStrong a.block_).acquireStrong o.block_).strong b = _
        rw [strong_acquireStrong _ _ _ _ hc2, if_pos hob, if_neg hab,
          Heap.strong_of_getElem? hc, hinc]
      · intro hab
        have h2le : 2 ≤ s.sharedHolders b :=
          two_le_holders s.shared i j a o hij hi' hj' b hab hob
        show ((s.blocks.dropStrong a.block_).acquireStrong o.block_).strong b = _
        rw [strong_acquireStrong _ _ _ _ hc2, if_pos hob, if_pos hab,
          ControlBlockBase.releaseStrong_strong, Heap.strong_of_getElem? hc,
          decr_eq _ (by omega) hlt, incr_eq _ (by omega)]
        omega
    · intro hob
      show SharedPtr.toBool { block_ := o.block_, ptr_ := o.ptr_ } = false
      rw [hob]; rfl
  · rfl
  · have hs : s.shared.set i (some a) = s.shared := set_self_eq s.shared i a hi'
    simp [step, hi, SharedPtr.copyAssign, hs]

theorem copy_shares_block_witness :
    (run State.init [Op.sRaw (some (Addr.raw 7)), Op.sRaw (some (Addr.raw 9))]).sh 0 =
        some { block_ := some 0, ptr_ := some (Addr.raw 7) } ∧
      (run State.init [Op.sRaw (some (Addr.raw 7)), Op.sRaw (some (Addr.raw 9))]).sh 1 =
        some { block_ := some 1, ptr_ := some (Addr.raw 9) } ∧
      (SharedPtr.copy (run State.init [Op.sRaw (some (Addr.raw 7)),
          Op.sRaw (some (Addr.raw 9))]).blocks
        { block_ := some 1, ptr_ := some (Addr.raw 9) }).1.strong 1 =
      (run State.init [Op.sRaw (some (Addr.raw 7)),
          Op.sRaw (some (Addr.raw 9))]).blocks.strong 1 + 1 :=
  ⟨by decide, by decide,
    (copy_shares_block [Op.sRaw (some (Addr.raw 7)), Op.sRaw (some (Addr.raw 9))] 0 1
      { block_ := some 0, ptr_ := some (Addr.raw 7) }
      { block_ := some 1, ptr_ := some (Addr.raw 9) }
      (by decide) (by decide) (by unfold State.inRange; decide)).1.2.2.1 1 rfl⟩

/-! ### The two defects at every input -/

/-- The defect behind C4, C6 and C7 at every input: whenever the weak handle
has a block, `Lock()` applies `++strong_cnt` twice to it and returns a handle
holding it; the address is the stored one if the block was alive and `nullptr`
if it was not. -/
theorem lock_increments_twice (heap : Heap) (w : WeakPtr) (b : Nat) (c : ControlBlockBase)
    (hb : w.block_ = some b) (hc : heap[b]? = some c) :
    (WeakPtr.Lock heap w).1[b]? = some c.incStrong.incStrong ∧
      (WeakPtr.Lock heap w).2.block_ = some b ∧
      (WeakPtr.Lock heap w).2.ptr_ = (if c.strong_cnt ≠ 0 then w.ptr_ else none) := by
  rw [WeakPtr.Lock_eq, hb]
  refine ⟨?_, rfl, ?_⟩
  · show ((heap.acquireStrong (some b)).acquireStrong (some b))[b]? = _
    rw [Heap.getElem?_acquireStrong, if_pos rfl, Heap.getElem?_acquireStrong, if_pos rfl, hc]
    rfl
  · simp [WeakPtr.UseCount, hb, Heap.strong, hc]

/-- The behaviour of `operator==` at every input: it returns the comparison of
the two addresses when both handles hold a block, and returns nothing
otherwise. -/
theorem eq_result (a b : SharedPtr) :
    SharedPtr.eq a b =
      if a.block_.isSome ∧ b.block_.isSome then some (decide (a.ptr_ = b.ptr_)) else none := by
  obtain ⟨ab, ap⟩ := a
  obtain ⟨bb, bp⟩ := b
  cases ab <;> cases bb <;> simp [SharedPtr.eq, SharedPtr.GetBlock, SharedPtr.Get]

/-! ### The invariant about `ptr_deleted` in programs with `Lock` -/

theorem fairP_effect (e : Effect) (c : ControlBlockBase) (m n k : Nat) (hf : Fair c m n k)
    (hp : FairP c m n) (hpre : e.pre c.strong_cnt m n)
    (k' : Nat) (hk : k ≤ k') (hl : e = Effect.lock → k' = k + 1)
    (hm0 : m + k < SIZE_MOD) (hm : e.sh m + k' < SIZE_MOD) :
    FairP (e.block c) (e.sh m) (e.wk n) := by
  obtain ⟨h1, h2, h3, _, _⟩ := hf
  obtain ⟨p1, p2⟩ := hp
  cases e with
  | same => exact ⟨p1, p2⟩
  | lock =>
    have hk' := hl rfl
    simp only [Effect.sh] at hm
    have hi1 : incr c.strong_cnt = c.strong_cnt + 1 := incr_eq _ (by omega)
    have hi2 : incr (c.strong_cnt + 1) = c.strong_cnt + 2 := incr_eq _ (by omega)
    simp only [FairP, Effect.block, Effect.sh, Effect.wk, ControlBlockBase.incStrong, hi1, hi2]
    refine ⟨fun _ => Or.inr (by omega), fun h => by omega⟩
  | acqS =>
    simp only [Effect.pre, Effect.sh] at hpre hm
    have hi : incr c.strong_cnt = c.strong_cnt + 1 := incr_eq _ (by omega)
    simp only [FairP, Effect.block, Effect.sh, Effect.wk, ControlBlockBase.incStrong, hi]
    refine ⟨fun h => Or.inr ?_, fun h => by omega⟩
    have := p1 h
    omega
  | relS =>
    simp only [Effect.pre] at hpre
    have hd : decr c.strong_cnt = c.strong_cnt - 1 := decr_eq _ (by omega) (by omega)
    simp only [FairP, Effect.block, Effect.sh, Effect.wk, ControlBlockBase.releaseStrong_strong,
      ControlBlockBase.releaseStrong_ptr_deleted, hd, h3]
    cases hpd : c.ptr_deleted
    · simp only [Bool.false_or, decide_eq_true_eq]
      exact ⟨fun h => Or.inl h.1, fun h hn => ⟨h, by omega⟩⟩
    · have := p1 hpd
      simp only [Bool.true_or, forall_true_left, implies_true, and_true]
      omega
  | acqW =>
    simp only [Effect.pre] at hpre
    simp only [FairP, Effect.block, Effect.sh, Effect.wk, ControlBlockBase.incWeak]
    exact ⟨p1, fun h _ => p2 h (by omega)⟩
  | relW =>
    simp only [Effect.pre] at hpre
    simp only [FairP, Effect.block, Effect.sh, Effect.wk, ControlBlockBase.releaseWeak_strong,
      ControlBlockBase.releaseWeak_ptr_deleted]
    cases hpd : c.ptr_deleted
    · simp only [Bool.false_or, decide_eq_true_eq]
      refine ⟨fun h => Or.inl h.1, fun h _ => ?_⟩
      have := p2 h (by omega)
      rw [hpd] at this
      cases this
    · simp
      exact p1 hpd
  | relAcqS =>
    simp only [Effect.pre] at hpre
    have hd : decr c.strong_cnt = c.strong_cnt - 1 := decr_eq _ (by omega) (by omega)
    have hi : incr (c.strong_cnt - 1) = c.strong_cnt := by
      rw [incr_eq _ (by omega)]; omega
    simp only [FairP, Effect.block, Effect.sh, Effect.wk, ControlBlockBase.incStrong,
      ControlBlockBase.releaseStrong_ptr_deleted, ControlBlockBase.releaseStrong_strong, hd, hi]
    have hne : ¬ (c.strong_cnt - 1 = 0 ∧ c.weak_cnt ≠ 0) := by omega
    simp only [hne, decide_False, Bool.or_false]
    exact ⟨p1, p2⟩
  | relAcqW =>
    simp only [Effect.pre] at hpre
    simp only [FairP, Effect.block, Effect.sh, Effect.wk, ControlBlockBase.incWeak,
      ControlBlockBase.releaseWeak_strong, ControlBlockBase.releaseWeak_ptr_deleted]
    cases hpd : c.ptr_deleted
    · simp only [Bool.false_or, decide_eq_true_eq]
      refine ⟨fun h => Or.inl h.1, fun h _ => ?_⟩
      have := p2 h (by omega)
      rw [hpd] at this
      cases this
    · simp
      exact p1 hpd

theorem fairP_fresh (k : BlockKind) : FairP { kind := k } 1 0 := by
  refine ⟨fun h => ?_, fun h => ?_⟩
  · cases h
  · cases h

theorem invP_init : InvP State.init := by
  refine ⟨invL_init, ?_⟩
  intro b c hc
  simp [State.init] at hc

theorem invP_step (s : State) (op : Op) (hi : InvP s) (hr : (step s op).inRange) :
    InvP (step s op) := by
  obtain ⟨hL, hp⟩ := hi
  refine ⟨invL_step s op hL hr, ?_⟩
  obtain ⟨hv, hg⟩ := hL
  have hr0 := inRange_of_step hr
  intro b c' hc'
  have hm' := (holders_lt_of_inRange hr b).1
  have hm0 := (holders_lt_of_inRange hr0 b).1
  rcases Nat.lt_or_ge b s.blocks.length with hlt | hge
  · obtain ⟨e, hpre, hblk, hsh, hwk, hlock⟩ := step_effect s op b (Or.inl (by omega))
    have hc : s.blocks[b]? = some s.blocks[b] := List.getElem?_eq_getElem hlt
    rw [hc, hc'] at hblk
    have hce : c' = e.block s.blocks[b] := by simpa using hblk
    rw [Heap.strong_of_getElem? hc] at hpre
    rw [hsh] at hm' ⊢
    rw [hwk, hce]
    exact fairP_effect e _ _ _ _ (hg b _ hc) (hp b _ hc) hpre _ (shared_length_step s op)
      (fun he => (hlock he).2) hm0 hm'
  · rcases step_fresh s op hv b hge with ⟨h1, _, _⟩ | ⟨k, h1, h2, h3⟩
    · rw [h1] at hc'; cases hc'
    · rw [h1] at hc'
      cases hc'
      rw [h2, h3]
      exact fairP_fresh k

theorem invP_run (s : State) (ops : List Op) (hi : InvP s) (hr : (run s ops).inRange) :
    InvP (run s ops) := by
  induction ops generalizing s with
  | nil => exact hi
  | cons op ops ih =>
    have hr1 : (step s op).inRange := @inRange_of_run (step s op) ops hr
    exact ih (step s op) (invP_step s op hi hr1) hr

/-! ## Claims C11 to C20 -/

/-- Counterexample to C11 as stated: after `SharedPtr<T> a(p); SharedPtr<T> b(a);`
both handles hold block 0, whose `strong_cnt` is 2; the move assignment
`a = std::move(b)` between these distinct handles leaves `a` holding the block
and `b` empty, and the `strong_cnt` of the block is 1, not 2. -/
theorem C11_move_assign_same_block_drops_count :
    (run State.init progTwoShared).sh 0 = some { block_ := some 0, ptr_ := some (Addr.raw 7) } ∧
      (run State.init progTwoShared).sh 1 =
        some { block_ := some 0, ptr_ := some (Addr.raw 7) } ∧
      (run State.init progTwoShared).blocks.strong 0 = 2 ∧
      (SharedPtr.moveAssign (run State.init progTwoShared).blocks
        { block_ := some 0, ptr_ := some (Addr.raw 7) }
        { block_ := some 0, ptr_ := some (Addr.raw 7) } false).1.strong 0 = 1 ∧
      (step (run State.init progTwoShared) (Op.sMoveAssign 0 1)).blocks.strong 0 = 1 ∧
      (step (run State.init progTwoShared) (Op.sMoveAssign 0 1)).sh 0 =
        some { block_ := some 0, ptr_ := some (Addr.raw 7) } ∧
      (step (run State.init progTwoShared) (Op.sMoveAssign 0 1)).sh 1 =
        some { block_ := none, ptr_ := none } := by
  decide

/-- C11, amended. For a plain element type (no object holds a handle, so the
release block of an assignment ends no other handle), at any point of any
program (with so few handles that no `size_t` wraps), for live shared handles
`a` (slot `i`) and `b` (slot `j`):
move construction `SharedPtr a2(std::move(b))` yields a handle with the block
and address of `b`, changes no control block and leaves `b` empty (no block,
`Get() == nullptr`, `UseCount() == 0`, `bool` false); move assignment
`a = std::move(b)` between distinct handles gives `a` the block and address of
`b` and leaves `b` empty in the same sense, and the `strong_cnt` of that block
is unchanged when `a` did not hold it before and is one less than before when
`a` already held it (the share of `a` is released). -/
theorem C11_move_transfers_share (ops : List Op) (i j : Nat) (a o : SharedPtr)
    (hi : (run State.init ops).sh i = some a) (hj : (run State.init ops).sh j = some o)
    (hr : (run State.init ops).inRange) :
    ((SharedPtr.move o).1.block_ = o.block_ ∧
        SharedPtr.Get (SharedPtr.move o).1 = SharedPtr.Get o ∧
        (step (run State.init ops) (Op.sMove j)).blocks = (run State.init ops).blocks ∧
        (SharedPtr.move o).2.block_ = none ∧
        SharedPtr.Get (SharedPtr.move o).2 = none ∧
        SharedPtr.UseCount (run State.init ops).blocks (SharedPtr.move o).2 = 0 ∧
        SharedPtr.toBool (SharedPtr.move o).2 = false) ∧
      (i ≠ j →
        (SharedPtr.moveAssign (run State.init ops).blocks a o false).2.1.block_ = o.block_ ∧
        SharedPtr.Get (SharedPtr.moveAssign (run State.init ops).blocks a o false).2.1 =
          SharedPtr.Get o ∧
        (∀ b, o.block_ = some b →
          (a.block_ ≠ some b →
            (SharedPtr.moveAssign (run State.init ops).blocks a o false).1.strong b =
              (run State.init ops).blocks.strong b) ∧
          (a.block_ = some b →
            (SharedPtr.moveAssign (run State.init ops).blocks a o false).1.strong b + 1 =
              (run State.init ops).blocks.strong b)) ∧
        (SharedPtr.moveAssign (run State.init ops).blocks a o false).2.2.block_ = none ∧
        SharedPtr.Get (SharedPtr.moveAssign (run State.init ops).blocks a o false).2.2 = none ∧
        SharedPtr.UseCount (SharedPtr.moveAssign (run State.init ops).blocks a o false).1
          (SharedPtr.moveAssign (run State.init ops).blocks a o false).2.2 = 0 ∧
        SharedPtr.toBool (SharedPtr.moveAssign (run State.init ops).blocks a o false).2.2
          = false) := by
  have hinv := invL_run State.init ops invL_init hr
  generalize run State.init ops = s at *
  have hi' := State.sh_eq_some.mp hi
  have hj' := State.sh_eq_some.mp hj
  refine ⟨⟨rfl, rfl, ?_, rfl, rfl, rfl, rfl⟩, ?_⟩
  · simp [step, hj]
  · intro hij
    rw [SharedPtr.moveAssign_eq]
    refine ⟨rfl, rfl, ?_, rfl, rfl, rfl, rfl⟩
    intro b hob
    have h1 : 1 ≤ s.sharedHolders b := one_le_holders s.shared j o hj' b hob
    have hlt : b < s.blocks.length := by
      by_contra hge
      have := (hinv.1 b (by omega)).1
      omega
    have hc := List.getElem?_eq_getElem hlt
    obtain ⟨f1, f2, _, _, _⟩ := hinv.2 b _ hc
    have hb := (holders_lt_of_inRange hr b).1
    have hc2 := getElem?_dropStrong_some s.blocks a.block_ b _ hc
    constructor
    · intro hab
      show (s.blocks.dropStrong a.block_).strong b = _
      rw [Heap.strong_of_getElem? hc2, if_neg hab, Heap.strong_of_getElem? hc]
    · intro hab
      show (s.blocks.dropStrong a.block_).strong b + 1 = _
      rw [Heap.strong_of_getElem? hc2, if_pos hab, ControlBlockBase.releaseStrong_strong,
        Heap.strong_of_getElem? hc, decr_eq _ (by omega) (by omega)]
      omega

theorem C11_move_transfers_share_witness :
    (run State.init progTwoShared).sh 0 = some { block_ := some 0, ptr_ := some (Addr.raw 7) } ∧
      (run State.init progTwoShared).sh 1 =
        some { block_ := some 0, ptr_ := some (Addr.raw 7) } ∧
      (SharedPtr.moveAssign (run State.init progTwoShared).blocks
        { block_ := some 0, ptr_ := some (Addr.raw 7) }
        { block_ := some 0, ptr_ := some (Addr.raw 7) } false).1.strong 0 + 1 =
      (run State.init progTwoShared).blocks.strong 0 :=
  ⟨by decide, by decide,
    ((C11_move_transfers_share progTwoShared 0 1
      { block_ := some 0, ptr_ := some (Addr.raw 7) }
      { block_ := some 0, ptr_ := some (Addr.raw 7) }
      (by decide) (by decide) (by unfold State.inRange; decide)).2 (by decide)).2.2.1 0 rfl
      |>.2 rfl⟩

/-- C12. Moving an empty `SharedPtr<Y>` into a `SharedPtr<T>` through the
cross-type move constructor executes `block_->strong_cnt++` with a null
`block_`, for every heap and every stored address: a counter of an absent
block is accessed and no handle is produced. -/
theorem C12_cross_move_of_empty_source_dereferences_null (heap : Heap) (p : Ptr) :
    SharedPtr.moveCross heap { block_ := none, ptr_ := p } = none := by
  rfl

theorem incStrong_releaseStrong (c : ControlBlockBase) (h1 : 1 ≤ c.strong_cnt)
    (h2 : c.strong_cnt + 1 < SIZE_MOD) : c.incStrong.releaseStrong.1 = c := by
  have hi : incr c.strong_cnt = c.strong_cnt + 1 := incr_eq _ h2
  have hd : decr (c.strong_cnt + 1) = c.strong_cnt := by
    rw [decr_eq _ (by omega) h2]; rfl
  have hne : ¬ c.strong_cnt = 0 := by omega
  obtain ⟨s, w, pd, k, d, f⟩ := c
  simp only [ControlBlockBase.releaseStrong, ControlBlockBase.incStrong,
    ControlBlockBase.decStrong] at *
  simp only [hi, hd] at *
  simp [hne]

/-- The cross-type move constructor on a source that holds a block (at any
point of any program, with so few handles that no `size_t` wraps): it returns,
the new handle has the block and address of the source, the source ends empty
and the heap is what it was: the increment and the release of `other.Reset()`
cancel. -/
theorem moveCross_of_holder (ops : List Op) (j b : Nat) (o : SharedPtr)
    (hj : (run State.init ops).sh j = some o) (hb : o.block_ = some b)
    (hr : (step (run State.init ops) (Op.sCopy j)).inRange) :
    SharedPtr.moveCross (run State.init ops).blocks o =
      some ((run State.init ops).blocks, { block_ := some b, ptr_ := o.ptr_ },
        { block_ := none, ptr_ := none }) := by
  have hr0 : (run State.init ops).inRange := inRange_of_step hr
  have hinv := invL_run State.init ops invL_init hr0
  generalize run State.init ops = s at *
  have hj' := State.sh_eq_some.mp hj
  have hlen : (step s (Op.sCopy j)).shared.length = s.shared.length + 1 := by
    simp [step, hj]
  have h2 := hr.1
  rw [hlen] at h2
  have h1 : 1 ≤ s.sharedHolders b := one_le_holders s.shared j o hj' b hb
  have hlt : b < s.blocks.length := by
    by_contra hge
    have := (hinv.1 b (by omega)).1
    omega
  have hc := List.getElem?_eq_getElem hlt
  obtain ⟨f1, f2, _, _, _⟩ := hinv.2 b _ hc
  have hm : s.sharedHolders b ≤ s.shared.length := holders_le_length s.shared b
  have hheap : (s.blocks.modify b ControlBlockBase.incStrong).dropStrong (some b) = s.blocks := by
    apply List.ext_getElem?
    intro x
    rw [Heap.getElem?_dropStrong, Heap.getElem?_modify]
    by_cases hx : b = x
    · subst hx
      simp only [if_true, hc, Option.map_some', Option.some.injEq]
      exact incStrong_releaseStrong _ (by omega) (by omega)
    · have hx' : ¬ (some b = some x) := fun h => hx (Option.some.inj h)
      rw [if_neg hx', if_neg hx]
  obtain ⟨ob, op⟩ := o
  simp only at hb
  subst hb
  simp only [SharedPtr.moveCross, SharedPtr.GetBlock, SharedPtr.Get, SharedPtr.Reset_eq, hheap]

/-- C13. At any point of any program (with so few handles that no `size_t`
wraps), for a live shared handle `A` (slot `j`) and any address `p`: if `A`
holds block `b`, the aliasing construction `B = SharedPtr(A, p)` yields a
handle holding `b` with `B.Get() == p` and raises the `strong_cnt` of `b` from
`n` to `n + 1`; a following `A.Reset()` destroys no object and frees no block
(the block of `b` keeps its tallies and is not freed) and leaves
`B.UseCount() == n`.  If `A` is empty, the new handle holds no block and the
heap is untouched. -/
theorem C13_aliasing_shares_block (ops : List Op) (j : Nat) (a : SharedPtr) (p : Ptr)
    (hj : (run State.init ops).sh j = some a)
    (hr : (step (run State.init ops) (Op.sAlias j p)).inRange) :
    (∀ b c, a.block_ = some b → (run State.init ops).blocks[b]? = some c →
        (SharedPtr.aliasing (run State.init ops).blocks a p).2.block_ = some b ∧
        SharedPtr.Get (SharedPtr.aliasing (run State.init ops).blocks a p).2 = p ∧
        (SharedPtr.aliasing (run State.init ops).blocks a p).1.strong b = c.strong_cnt + 1 ∧
        (∃ c2, (SharedPtr.Reset (SharedPtr.aliasing (run State.init ops).blocks a p).1 a).1[b]?
            = some c2 ∧
          c2.destroyed = c.destroyed ∧ c2.freed = 0 ∧ c2.ptr_deleted = c.ptr_deleted) ∧
        SharedPtr.UseCount
          (SharedPtr.Reset (SharedPtr.aliasing (run State.init ops).blocks a p).1 a).1
          (SharedPtr.aliasing (run State.init ops).blocks a p).2 = c.strong_cnt) ∧
      (∀ b, a.block_ = some b → ∃ c, (run State.init ops).blocks[b]? = some c) ∧
      (a.block_ = none →
        (SharedPtr.aliasing (run State.init ops).blocks a p).2.block_ = none ∧
        (SharedPtr.aliasing (run State.init ops).blocks a p).1 = (run State.init ops).blocks) := by
  have hr0 : (run State.init ops).inRange := inRange_of_step hr
  have hinv := invL_run State.init ops invL_init hr0
  generalize run State.init ops = s at *
  have hj' := State.sh_eq_some.mp hj
  have hlen : (step s (Op.sAlias j p)).shared.length = s.shared.length + 1 := by
    simp [step, hj]
  have h2 := hr.1
  rw [hlen] at h2
  have hlt : ∀ b, a.block_ = some b → b < s.blocks.length ∧ 1 ≤ s.sharedHolders b := by
    intro b hb
    have h1 : 1 ≤ s.sharedHolders b := one_le_holders s.shared j a hj' b hb
    refine ⟨?_, h1⟩
    by_contra hge
    have := (hinv.1 b (by omega)).1
    omega
  refine ⟨?_, fun b hb => ⟨_, List.getElem?_eq_getElem (hlt b hb).1⟩, ?_⟩
  · intro b c hb hc
    obtain ⟨f1, f2, _, _, f5⟩ := hinv.2 b c hc
    have h1 := (hlt b hb).2
    have hm : s.sharedHolders b ≤ s.shared.length := holders_le_length s.shared b
    have hi : incr c.strong_cnt = c.strong_cnt + 1 := incr_eq _ (by omega)
    have hd : decr (c.strong_cnt + 1) = c.strong_cnt := by
      rw [decr_eq _ (by omega) (by omega)]; rfl
    have hc1 : (s.blocks.acquireStrong a.block_)[b]? = some c.incStrong := by
      rw [Heap.getElem?_acquireStrong, if_pos hb, hc]; rfl
    have hc2 : ((s.blocks.acquireStrong a.block_).dropStrong a.block_)[b]? =
        some c.incStrong.releaseStrong.1 := by
      rw [getElem?_dropStrong_some _ _ _ _ hc1, if_pos hb]
    have hs : c.incStrong.strong_cnt = c.strong_cnt + 1 := hi
    have hne : ¬ (c.strong_cnt = 0) := by omega
    rw [SharedPtr.aliasing_eq, SharedPtr.Reset_eq]
    refine ⟨hb, rfl, ?_, ⟨_, hc2, ?_, ?_, ?_⟩, ?_⟩
    · show (s.blocks.acquireStrong a.block_).strong b = _
      rw [Heap.strong_of_getElem? hc1, hs]
    · rw [ControlBlockBase.releaseStrong_destroyed, hs, hd]
      simp [hne, ControlBlockBase.incStrong]
    · rw [ControlBlockBase.releaseStrong_freed, hs, hd]
      simp only [hne, false_and, if_false, Nat.add_zero]
      exact f5 (Or.inl (by omega))
    · rw [ControlBlockBase.releaseStrong_ptr_deleted, hs, hd]
      simp [hne, ControlBlockBase.incStrong]
    · rw [hb] at hc2 ⊢
      show ((s.blocks.acquireStrong (some b)).dropStrong (some b)).strong b = _
      rw [Heap.strong_of_getElem? hc2, ControlBlockBase.releaseStrong_strong, hs, hd]
  · intro hb
    rw [SharedPtr.aliasing_eq, hb]
    exact ⟨rfl, rfl⟩

theorem C13_aliasing_shares_block_witness :
    (run State.init progShared).sh 0 = some { block_ := some 0, ptr_ := some (Addr.raw 7) } ∧
      SharedPtr.UseCount
        (SharedPtr.Reset (SharedPtr.aliasing (run State.init progShared).blocks
          { block_ := some 0, ptr_ := some (Addr.raw 7) } (some (Addr.raw 8))).1
          { block_ := some 0, ptr_ := some (Addr.raw 7) }).1
        (SharedPtr.aliasing (run State.init progShared).blocks
          { block_ := some 0, ptr_ := some (Addr.raw 7) } (some (Addr.raw 8))).2 = 1 :=
  ⟨by decide,
    ((C13_aliasing_shares_block progShared 0 { block_ := some 0, ptr_ := some (Addr.raw 7) }
      (some (Addr.raw 8)) (by decide) (by unfold State.inRange; decide)).1 0
      { strong_cnt := 1, weak_cnt := 1, kind := BlockKind.pointer (some (Addr.raw 7)) }
      rfl (by decide)).2.2.2.2⟩

theorem strong_acquireWeak (heap : Heap) (ob : Option Nat) (b : Nat) :
    (heap.acquireWeak ob).strong b = heap.strong b := by
  unfold Heap.strong
  rw [Heap.getElem?_acquireWeak]
  split_ifs
  · cases heap[b]? <;> rfl
  · rfl

theorem weak_acquireWeak (heap : Heap) (ob : Option Nat) (b : Nat) (c : ControlBlockBase)
    (hc : heap[b]? = some c) :
    (heap.acquireWeak ob).weak b = if ob = some b then incr c.weak_cnt else c.weak_cnt := by
  unfold Heap.weak
  rw [Heap.getElem?_acquireWeak, hc]
  split_ifs <;> rfl

/-- C14. At any point of any program (with so few handles that no `size_t`
wraps), for a live shared handle `h1` (slot `j`) and a live weak handle `w0`
(slot `i`): constructing a `WeakPtr` from `h1`, copying `w0` and moving `w0`
leave the `strong_cnt` of every block as it was; construction from `h1` and
copy give the new handle the block of their source and, when the source holds
a block, raise its `weak_cnt` by exactly one; move changes no control block,
gives the new handle the block and address of `w0` and leaves `w0` empty; and
after `w = WeakPtr(h1)` the value `h1.UseCount()` is what it was before and
`w.UseCount()` equals it. -/
theorem C14_weak_construction_keeps_strong (ops : List Op) (i j : Nat) (h1 : SharedPtr)
    (w0 : WeakPtr)
    (hj : (run State.init ops).sh j = some h1) (hi : (run State.init ops).wk i = some w0)
    (hr : (step (run State.init ops) (Op.wFromShared j)).inRange) :
    ((∀ b, (WeakPtr.fromShared (run State.init ops).blocks h1).1.strong b =
          (run State.init ops).blocks.strong b) ∧
        (WeakPtr.fromShared (run State.init ops).blocks h1).2.block_ = h1.block_ ∧
        (∀ b, h1.block_ = some b →
          (WeakPtr.fromShared (run State.init ops).blocks h1).1.weak b =
            (run State.init ops).blocks.weak b + 1) ∧
        SharedPtr.UseCount (WeakPtr.fromShared (run State.init ops).blocks h1).1 h1 =
          SharedPtr.UseCount (run State.init ops).blocks h1 ∧
        WeakPtr.UseCount (WeakPtr.fromShared (run State.init ops).blocks h1).1
            (WeakPtr.fromShared (run State.init ops).blocks h1).2 =
          SharedPtr.UseCount (run State.init ops).blocks h1) ∧
      ((∀ b, (WeakPtr.copy (run State.init ops).blocks w0).1.strong b =
          (run State.init ops).blocks.strong b) ∧
        (WeakPtr.copy (run State.init ops).blocks w0).2.block_ = w0.block_ ∧
        (∀ b, w0.block_ = some b →
          (WeakPtr.copy (run State.init ops).blocks w0).1.weak b =
            (run State.init ops).blocks.weak b + 1)) ∧
      ((step (run State.init ops) (Op.wMove i)).blocks = (run State.init ops).blocks ∧
        (WeakPtr.move w0).1.block_ = w0.block_ ∧ (WeakPtr.move w0).1.ptr_ = w0.ptr_ ∧
        (WeakPtr.move w0).2 = { block_ := none, ptr_ := none }) := by
  have hr0 : (run State.init ops).inRange := inRange_of_step hr
  have hinv := invL_run State.init ops invL_init hr0
  generalize run State.init ops = s at *
  have hj' := State.sh_eq_some.mp hj
  have hi' := State.wk_eq_some.mp hi
  have hlen : (step s (Op.wFromShared j)).weak.length = s.weak.length + 1 := by
    simp [step, hj]
  have h2 := hr.2
  rw [hlen] at h2
  -- every block that either handle holds is allocated, and its `weak_cnt` can grow
  have key : ∀ b, 1 ≤ s.sharedHolders b ∨ 1 ≤ s.weakHolders b →
      ∃ c, s.blocks[b]? = some c ∧ incr c.weak_cnt = c.weak_cnt + 1 := by
    intro b hb
    have hlt : b < s.blocks.length := by
      by_contra hge
      have := hinv.1 b (by omega)
      omega
    have hc := List.getElem?_eq_getElem hlt
    obtain ⟨_, _, f3, _, _⟩ := hinv.2 b _ hc
    have hm : s.weakHolders b ≤ s.weak.length := holders_le_length s.weak b
    exact ⟨_, hc, incr_eq _ (by omega)⟩
  rw [WeakPtr.fromShared_eq, WeakPtr.weak_copy_eq]
  refine ⟨⟨fun b => strong_acquireWeak _ _ b, rfl, ?_, ?_, ?_⟩,
    ⟨fun b => strong_acquireWeak _ _ b, rfl, ?_⟩, ?_, rfl, rfl, rfl⟩
  · intro b hb
    obtain ⟨c, hc, hinc⟩ := key b (Or.inl (one_le_holders s.shared j h1 hj' b hb))
    show (s.blocks.acquireWeak h1.block_).weak b = s.blocks.weak b + 1
    rw [weak_acquireWeak _ _ _ c hc, if_pos hb, hinc]
    unfold Heap.weak
    rw [hc]
  · show SharedPtr.UseCount (s.blocks.acquireWeak h1.block_) h1 = _
    unfold SharedPtr.UseCount
    cases h1.block_ with
    | none => rfl
    | some b => exact strong_acquireWeak _ _ b
  · show WeakPtr.UseCount (s.blocks.acquireWeak h1.block_)
      { block_ := h1.block_, ptr_ := h1.ptr_ } = SharedPtr.UseCount s.blocks h1
    unfold SharedPtr.UseCount WeakPtr.UseCount
    cases h1.block_ with
    | none => rfl
    | some b => exact strong_acquireWeak _ _ b
  · intro b hb
    obtain ⟨c, hc, hinc⟩ := key b (Or.inr (one_le_holders s.weak i w0 hi' b hb))
    show (s.blocks.acquireWeak w0.block_).weak b = s.blocks.weak b + 1
    rw [weak_acquireWeak _ _ _ c hc, if_pos hb, hinc]
    unfold Heap.weak
    rw [hc]
  · simp [step, hi]

theorem C14_weak_construction_keeps_strong_witness :
    (run State.init progShared).sh 0 = some { block_ := some 0, ptr_ := some (Addr.raw 7) } ∧
      (run State.init progShared).wk 0 = some { block_ := some 0, ptr_ := some (Addr.raw 7) } ∧
      (WeakPtr.fromShared (run State.init progShared).blocks
          { block_ := some 0, ptr_ := some (Addr.raw 7) }).1.weak 0 =
        (run State.init progShared).blocks.weak 0 + 1 :=
  ⟨by decide, by decide,
    (C14_weak_construction_keeps_strong progShared 0 0
      { block_ := some 0, ptr_ := some (Addr.raw 7) }
      { block_ := some 0, ptr_ := some (Addr.raw 7) }
      (by decide) (by decide) (by unfold State.inRange; decide)).1.2.2.1 0 rfl⟩

theorem releaseWeak_of_deleted (c : ControlBlockBase) (h1 : 1 ≤ c.weak_cnt)
    (h2 : c.weak_cnt < SIZE_MOD) (hp : c.strong_cnt = 0 → c.ptr_deleted = true) :
    c.releaseWeak =
      { c with weak_cnt := c.weak_cnt - 1,
               freed := c.freed + (if c.strong_cnt = 0 ∧ c.weak_cnt = 1 then 1 else 0) } := by
  have hd : decr c.weak_cnt = c.weak_cnt - 1 := decr_eq _ h1 h2
  obtain ⟨s, w, pd, k, d, f⟩ := c
  simp only [ControlBlockBase.releaseWeak, ControlBlockBase.decWeak,
    ControlBlockBase.delete_eq, ControlBlockBase.DeletePtr_eq] at *
  rw [hd]
  by_cases hs : s = 0
  · have hpd := hp hs
    subst hpd
    by_cases hw : w = 1
    · subst hw; simp [hs]
    · have hw' : ¬ (w - 1 = 0) := by omega
      simp [hs, hw, hw']
  · simp [hs]

/-- The heap after a `WeakPtr` destructor, `Reset` or assignment: the release
block of the handle in slot `i` (if that slot is live and the statement is not
a self-assignment), then at most one `++weak_cnt`. -/
theorem weak_statement_heap (s : State) (i j : Nat) (op : Op)
    (hop : op ∈ [Op.wDtor i, Op.wReset i, Op.wCopyAssign i j, Op.wMoveAssign i j]) :
    ∃ x y, (step s op).blocks = (s.blocks.dropWeak x).acquireWeak y ∧
      ∀ b, x = some b → ∃ a, s.wk i = some a ∧ a.block_ = some b := by
  simp only [List.mem_cons, List.mem_singleton, List.not_mem_nil, or_false] at hop
  have hnone : ∃ x y, s.blocks = (s.blocks.dropWeak x).acquireWeak y ∧
      ∀ b, x = some b → ∃ a, s.wk i = some a ∧ a.block_ = some b :=
    ⟨none, none, rfl, fun b hb => by cases hb⟩
  rcases hop with h | h | h | h <;> subst h
  · cases hi : s.wk i with
    | none => simpa [step, hi] using hnone
    | some a =>
      refine ⟨a.block_, none, ?_, fun b hb => ⟨a, rfl, hb⟩⟩
      simp [step, hi, WeakPtr.destructor, WeakPtr.releaseBlock_eq, Heap.acquireWeak]
  · cases hi : s.wk i with
    | none => simpa [step, hi] using hnone
    | some a =>
      refine ⟨a.block_, none, ?_, fun b hb => ⟨a, rfl, hb⟩⟩
      simp [step, hi, WeakPtr.Reset, WeakPtr.releaseBlock_eq, Heap.acquireWeak]
  · cases hi : s.wk i with
    | none => simpa [step, hi] using hnone
    | some a =>
      cases hj : s.wk j with
      | none => simpa [step, hi, hj] using hnone
      | some o =>
        by_cases hij : i = j
        · subst hij
          refine ⟨none, none, ?_, fun b hb => by cases hb⟩
          simp [step, hi, WeakPtr.copyAssign, Heap.acquireWeak, Heap.dropWeak]
        · refine ⟨a.block_, o.block_, ?_, fun b hb => ⟨a, rfl, hb⟩⟩
          simp [step, hi, hj, hij, WeakPtr.weak_copyAssign_eq]
  · cases hi : s.wk i with
    | none => simpa [step, hi] using hnone
    | some a =>
      cases hj : s.wk j with
      | none => simpa [step, hi, hj] using hnone
      | some o =>
        by_cases hij : i = j
        · subst hij
          refine ⟨none, none, ?_, fun b hb => by cases hb⟩
          simp [step, hi, WeakPtr.moveAssign, Heap.acquireWeak, Heap.dropWeak]
        · refine ⟨a.block_, none, ?_, fun b hb => ⟨a, rfl, hb⟩⟩
          simp [step, hi, hj, hij, WeakPtr.weak_moveAssign_eq, Heap.acquireWeak]

/-- Plain element type (no object holds a handle).
At any point of any program (with so few handles that no `size_t`
wraps; `Lock` and every other statement included), for a `WeakPtr` destructor,
`Reset`, copy assignment or move assignment issued on slot `i`, and for every
control block: the statement leaves the tally of destructions of the object,
`ptr_deleted`, `strong_cnt` and the kind of the block as they were, so it
destroys no object.  For the block the weak handle holds: if `strong_cnt == 0`
(the case in which the release block calls `DeletePtr()` or frees the block)
then `ptr_deleted` is already true, and the release block only decrements
`weak_cnt` and, when `strong_cnt` is 0 and this was the last weak handle, frees
the block. -/
theorem weak_release_destroys_nothing (ops : List Op) (i j : Nat) (op : Op)
    (hop : op ∈ [Op.wDtor i, Op.wReset i, Op.wCopyAssign i j, Op.wMoveAssign i j])
    (hr : (run State.init ops).inRange) (b : Nat) (c : ControlBlockBase)
    (hc : (run State.init ops).blocks[b]? = some c) :
    (∃ c2, (step (run State.init ops) op).blocks[b]? = some c2 ∧
        c2.destroyed = c.destroyed ∧ c2.ptr_deleted = c.ptr_deleted ∧
        c2.strong_cnt = c.strong_cnt ∧ c2.kind = c.kind) ∧
      (∀ a, (run State.init ops).wk i = some a → a.block_ = some b →
        (c.strong_cnt = 0 → c.ptr_deleted = true) ∧
        (WeakPtr.releaseBlock (run State.init ops).blocks a)[b]? =
          some { c with weak_cnt := c.weak_cnt - 1,
                        freed := c.freed + (if c.strong_cnt = 0 ∧ c.weak_cnt = 1 then 1 else 0) })
      := by
  have hinv := invP_run State.init ops invP_init hr
  generalize run State.init ops = s at *
  obtain ⟨⟨_, hf⟩, hp⟩ := hinv
  obtain ⟨_, _, f3, _, _⟩ := hf b c hc
  obtain ⟨_, p2⟩ := hp b c hc
  have hb := (holders_lt_of_inRange hr b).2.2
  -- the release block, when a weak handle holds the block
  have hpd : 1 ≤ s.weakHolders b → c.strong_cnt = 0 → c.ptr_deleted = true :=
    fun h1 h0 => p2 h0 (by omega)
  have hrel := fun (h1 : 1 ≤ s.weakHolders b) =>
    And.intro (hpd h1) (releaseWeak_of_deleted c (by omega) (by omega) (hpd h1))
  constructor
  · obtain ⟨x, y, hxy, hx⟩ := weak_statement_heap s i j op hop
    rw [hxy, Heap.getElem?_acquireWeak, Heap.getElem?_dropWeak, hc]
    have h1 : x = some b → 1 ≤ s.weakHolders b := by
      intro hxb
      obtain ⟨a, ha, hab⟩ := hx b hxb
      exact one_le_holders s.weak i a (State.wk_eq_some.mp ha) b hab
    by_cases hxb : x = some b
    · have e := (hrel (h1 hxb)).2
      by_cases hyb : y = some b
      · simp only [if_pos hxb, if_pos hyb, Option.map_some']
        exact ⟨_, rfl, by rw [e]; rfl, by rw [e]; rfl, by rw [e]; rfl, by rw [e]; rfl⟩
      · simp only [if_pos hxb, if_neg hyb, Option.map_some']
        exact ⟨_, rfl, by rw [e], by rw [e], by rw [e], by rw [e]⟩
    · by_cases hyb : y = some b
      · simp only [if_neg hxb, if_pos hyb, Option.map_some']
        exact ⟨_, rfl, rfl, rfl, rfl, rfl⟩
      · simp only [if_neg hxb, if_neg hyb]
        exact ⟨_, rfl, rfl, rfl, rfl, rfl⟩
  · intro a ha hab
    have h1 := one_le_holders s.weak i a (State.wk_eq_some.mp ha) b hab
    refine ⟨(hrel h1).1, ?_⟩
    rw [WeakPtr.releaseBlock_eq, Heap.getElem?_dropWeak, if_pos hab, hc, Option.map_some',
      (hrel h1).2]

theorem weak_release_destroys_nothing_witness :
    Op.wReset 0 ∈ [Op.wDtor 0, Op.wReset 0, Op.wCopyAssign 0 0, Op.wMoveAssign 0 0] ∧
      (run State.init progExpired).blocks[0]? =
        some { strong_cnt := 0, weak_cnt := 1, ptr_deleted := true,
               kind := BlockKind.pointer (some (Addr.raw 7)), destroyed := 1 } ∧
      (step (run State.init progExpired) (Op.wReset 0)).blocks[0]? =
        some { strong_cnt := 0, weak_cnt := 0, ptr_deleted := true,
               kind := BlockKind.pointer (some (Addr.raw 7)), destroyed := 1, freed := 1 } ∧
      ∃ c2, (step (run State.init progExpired) (Op.wReset 0)).blocks[0]? = some c2 ∧
        c2.destroyed = 1 ∧ c2.ptr_deleted = true ∧ c2.strong_cnt = 0 ∧
        c2.kind = BlockKind.pointer (some (Addr.raw 7)) :=
  ⟨by decide, by decide, by decide,
    (weak_release_destroys_nothing progExpired 0 0 (Op.wReset 0) (by decide)
      (by unfold State.inRange; decide) 0
      { strong_cnt := 0, weak_cnt := 1, ptr_deleted := true,
        kind := BlockKind.pointer (some (Addr.raw 7)), destroyed := 1 } (by decide)).1⟩

theorem getElem?_alloc_self (heap : Heap) (c : ControlBlockBase) :
    (heap ++ [c])[heap.length]? = some c := by
  simp

/-- C16. For every heap: wrapping an object of an `EnableSharedFromThis` type
with `MakeShared`, or with `SharedPtr(T*)` at any non-null address, yields a
handle `h` with `UseCount() == 1`; `SharedFromThis()` on the object then
returns a handle `s` that holds the same block as `h` (the block just
allocated) with `s.Get() == h.Get()`, and afterwards
`h.UseCount() == s.UseCount() == 2`. -/
theorem C16_shared_from_this_shares_block (heap : Heap) (p : Addr) :
    (SharedPtr.UseCount (MakeSharedWired heap).1 (MakeSharedWired heap).2.1 = 1 ∧
      ∃ heap2 s,
        EnableSharedFromThis.SharedFromThis (MakeSharedWired heap).1 (MakeSharedWired heap).2.2 =
          (heap2, Except.ok s) ∧
        s.block_ = (MakeSharedWired heap).2.1.block_ ∧ s.block_ = some heap.length ∧
        SharedPtr.Get s = SharedPtr.Get (MakeSharedWired heap).2.1 ∧
        SharedPtr.UseCount heap2 (MakeSharedWired heap).2.1 = 2 ∧
        SharedPtr.UseCount heap2 s = 2) ∧
      ∃ heap1 h obj, SharedPtr.fromRawWired heap (some p) = some (heap1, h, obj) ∧
        SharedPtr.UseCount heap1 h = 1 ∧
        ∃ heap2 s, EnableSharedFromThis.SharedFromThis heap1 obj = (heap2, Except.ok s) ∧
          s.block_ = h.block_ ∧ s.block_ = some heap.length ∧
          SharedPtr.Get s = SharedPtr.Get h ∧ SharedPtr.Get s = some p ∧
          SharedPtr.UseCount heap2 h = 2 ∧ SharedPtr.UseCount heap2 s = 2 := by
  have h2 : incr 1 = 2 := by decide
  have key : ∀ k : BlockKind,
      ((heap ++ [({ kind := k } : ControlBlockBase)]).modify heap.length
        ControlBlockBase.incStrong).strong heap.length = 2 := by
    intro k
    unfold Heap.strong
    rw [Heap.getElem?_modify, if_pos rfl, getElem?_alloc_self]
    exact h2
  have one : ∀ k : BlockKind,
      (heap ++ [({ kind := k } : ControlBlockBase)]).strong heap.length = 1 := by
    intro k
    unfold Heap.strong
    rw [getElem?_alloc_self]
  refine ⟨⟨one _, _, _, rfl, rfl, rfl, rfl, key _, key _⟩,
    _, _, _, rfl, one _, _, _, rfl, rfl, rfl, rfl, rfl, key _, key _⟩

/-- Counterexample to C17 as stated: on the empty heap, `SharedFromThis()` of an
object whose stored block is unset reports no error; it returns a handle. -/
theorem C17_shared_from_this_unset_returns_handle :
    (¬ ∃ e, (EnableSharedFromThis.SharedFromThis [] { block_ := none, ptr_ := none }).2 =
        Except.error e) ∧
      (EnableSharedFromThis.SharedFromThis [] { block_ := none, ptr_ := none }).2 =
        Except.ok { block_ := none, ptr_ := none } := by
  constructor
  · rintro ⟨e, he⟩
    cases he
  · rfl

/-- C17, amended. For every heap and every object of an `EnableSharedFromThis`
type whose stored block is unset, the non-const `SharedFromThis()` (lines
345-347) reports no error: it returns a handle that holds no block (`UseCount() == 0`, `bool` false) and
carries the stored address, which is `nullptr` for an object that was never
wrapped, and it leaves the heap untouched. -/
theorem C17_shared_from_this_unset_is_empty (heap : Heap) (self : EnableSharedFromThis)
    (h : self.block_ = none) :
    EnableSharedFromThis.SharedFromThis heap self =
        (heap, Except.ok { block_ := none, ptr_ := self.ptr_ }) ∧
      SharedPtr.UseCount heap { block_ := none, ptr_ := self.ptr_ } = 0 ∧
      SharedPtr.toBool { block_ := none, ptr_ := self.ptr_ } = false := by
  obtain ⟨b, p⟩ := self
  simp only at h
  subst h
  exact ⟨rfl, rfl, rfl⟩

theorem C17_shared_from_this_unset_is_empty_witness :
    ({ block_ := none, ptr_ := none } : EnableSharedFromThis).block_ = none ∧
      EnableSharedFromThis.SharedFromThis
          [{ kind := BlockKind.emplace }] { block_ := none, ptr_ := none } =
        ([{ kind := BlockKind.emplace }], Except.ok { block_ := none, ptr_ := none }) :=
  ⟨rfl, (C17_shared_from_this_unset_is_empty [{ kind := BlockKind.emplace }]
    { block_ := none, ptr_ := none } rfl).1⟩

/-- The `const` overload of `SharedFromThis()` on an object whose stored block
is unset: the conversion of the empty temporary goes through the unguarded
cross-type move constructor, so no handle is produced and no error is
reported either. -/
theorem sharedFromThisConst_unset (heap : Heap) (p : Ptr) :
    EnableSharedFromThis.SharedFromThisConst heap { block_ := none, ptr_ := p } = none := by
  rfl

/-- The `const` overload of `SharedFromThis()` on an object just wrapped by
`MakeShared`: a handle on the new block, whose `strong_cnt` is 2 afterwards. -/
theorem sharedFromThisConst_wired (heap : Heap) :
    ∃ heap2 s, EnableSharedFromThis.SharedFromThisConst (MakeSharedWired heap).1
        (MakeSharedWired heap).2.2 = some (heap2, s) ∧
      s.block_ = some heap.length ∧ SharedPtr.UseCount heap2 s = 2 := by
  have h2 : incr 1 = 2 := by decide
  have h3 : incr 2 = 3 := by decide
  have h4 : decr 3 = 2 := by decide
  refine ⟨_, _, rfl, rfl, ?_⟩
  show Heap.strong _ heap.length = 2
  unfold Heap.strong
  simp only [SharedPtr.Reset_eq, MakeSharedWired, MakeShared, SharedPtr.fromEmplace,
    SharedPtr.fromBlock, SharedPtr.GetBlock]
  rw [getElem?_dropStrong_some _ _ _
    (({ kind := BlockKind.emplace } : ControlBlockBase).incStrong.incStrong)]
  · rw [if_pos rfl]
    show (ControlBlockBase.releaseStrong _).1.strong_cnt = 2
    rw [ControlBlockBase.releaseStrong_strong]
    show decr (incr (incr 1)) = 2
    rw [h2, h3, h4]
  · rw [Heap.getElem?_modify, if_pos rfl, Heap.getElem?_modify, if_pos rfl, getElem?_alloc_self]
    rfl

theorem iterate_of_idempotent {α : Type} (f : α → α) (hf : ∀ x, f (f x) = f x) (k : Nat)
    (x : α) : Nat.iterate f (k + 1) x = f x := by
  induction k generalizing x with
  | zero => rfl
  | succ k ih => rw [Function.iterate_succ_apply, ih, hf]

/-- Plain element type (no object holds a handle).
For `ControlBlockPointer` and for `ControlBlockEmplace`, on every
block: `DeletePtr()` twice leaves the state `DeletePtr()` once leaves; and on
every block whose object is alive (`ptr_deleted` false), for every `k`: one
`DeletePtr()` destroys the object once, a second one destroys nothing, `k`
calls destroy it once if `k > 0` and not at all if `k == 0`, and `k` calls
followed by the destructor of the block destroy it exactly once in total. -/
theorem delete_ptr_idempotent (c : ControlBlockBase) (k : Nat)
    (h : c.ptr_deleted = false) :
    (ControlBlockPointer.DeletePtr (ControlBlockPointer.DeletePtr c) =
        ControlBlockPointer.DeletePtr c ∧
      (ControlBlockPointer.DeletePtr c).destroyed = c.destroyed + 1 ∧
      (ControlBlockPointer.DeletePtr (ControlBlockPointer.DeletePtr c)).destroyed =
        c.destroyed + 1 ∧
      (Nat.iterate ControlBlockPointer.DeletePtr k c).destroyed =
        c.destroyed + (if k = 0 then 0 else 1) ∧
      (ControlBlockPointer.destructor (Nat.iterate ControlBlockPointer.DeletePtr k c)).destroyed
        = c.destroyed + 1) ∧
    (ControlBlockEmplace.DeletePtr (ControlBlockEmplace.DeletePtr c) =
        ControlBlockEmplace.DeletePtr c ∧
      (ControlBlockEmplace.DeletePtr c).destroyed = c.destroyed + 1 ∧
      (ControlBlockEmplace.DeletePtr (ControlBlockEmplace.DeletePtr c)).destroyed =
        c.destroyed + 1 ∧
      (Nat.iterate ControlBlockEmplace.DeletePtr k c).destroyed =
        c.destroyed + (if k = 0 then 0 else 1) ∧
      (ControlBlockEmplace.destructor (Nat.iterate ControlBlockEmplace.DeletePtr k c)).destroyed
        = c.destroyed + 1) := by
  have idP : ∀ x, ControlBlockPointer.DeletePtr (ControlBlockPointer.DeletePtr x) =
      ControlBlockPointer.DeletePtr x := by
    intro x
    obtain ⟨s, w, pd, kd, d, f⟩ := x
    cases pd <;> rfl
  have idE : ∀ x, ControlBlockEmplace.DeletePtr (ControlBlockEmplace.DeletePtr x) =
      ControlBlockEmplace.DeletePtr x := by
    intro x
    obtain ⟨s, w, pd, kd, d, f⟩ := x
    cases pd <;> rfl
  obtain ⟨s, w, pd, kd, d, f⟩ := c
  simp only at h
  subst h
  refine ⟨⟨idP _, rfl, rfl, ?_, ?_⟩, ⟨idE _, rfl, rfl, ?_, ?_⟩⟩
  · cases k with
    | zero => rfl
    | succ k => rw [iterate_of_idempotent _ idP]; rfl
  · cases k with
    | zero => rfl
    | succ k => rw [iterate_of_idempotent _ idP]; rfl
  · cases k with
    | zero => rfl
    | succ k => rw [iterate_of_idempotent _ idE]; rfl
  · cases k with
    | zero => rfl
    | succ k => rw [iterate_of_idempotent _ idE]; rfl

theorem delete_ptr_idempotent_witness :
    ({ kind := BlockKind.pointer (some (Addr.raw 7)) } : ControlBlockBase).ptr_deleted = false ∧
      (ControlBlockPointer.destructor (Nat.iterate ControlBlockPointer.DeletePtr 3
        { kind := BlockKind.pointer (some (Addr.raw 7)) })).destroyed = 0 + 1 :=
  ⟨rfl, (delete_ptr_idempotent { kind := BlockKind.pointer (some (Addr.raw 7)) } 3 rfl).1.2.2.2.2⟩

/-- C19. For every heap and address `p`: `SharedPtr(p)` and `MakeShared`
append one control block to the heap, with `strong_cnt` 1, `weak_cnt` 0 and
`ptr_deleted` false, leave the blocks already there as they were, and return a
handle that holds the new block, with `UseCount() == 1` and `bool` true, and
with `Get() == p` for the raw form; a default- or `nullptr`-constructed handle
holds no block, has `UseCount() == 0`, `Get() == nullptr` and `bool` false. -/
theorem C19_fresh_handle_counts (heap : Heap) (p : Ptr) :
    ((SharedPtr.fromRaw heap p).1 =
        heap ++ [{ strong_cnt := 1, weak_cnt := 0, ptr_deleted := false,
                   kind := BlockKind.pointer p }] ∧
      (SharedPtr.fromRaw heap p).2.block_ = some heap.length ∧
      SharedPtr.UseCount (SharedPtr.fromRaw heap p).1 (SharedPtr.fromRaw heap p).2 = 1 ∧
      SharedPtr.toBool (SharedPtr.fromRaw heap p).2 = true ∧
      SharedPtr.Get (SharedPtr.fromRaw heap p).2 = p) ∧
    ((MakeShared heap).1 =
        heap ++ [{ strong_cnt := 1, weak_cnt := 0, ptr_deleted := false,
                   kind := BlockKind.emplace }] ∧
      (MakeShared heap).2.block_ = some heap.length ∧
      SharedPtr.UseCount (MakeShared heap).1 (MakeShared heap).2 = 1 ∧
      SharedPtr.toBool (MakeShared heap).2 = true) ∧
    (SharedPtr.default.block_ = none ∧ SharedPtr.UseCount heap SharedPtr.default = 0 ∧
      SharedPtr.Get SharedPtr.default = none ∧ SharedPtr.toBool SharedPtr.default = false) := by
  have one : ∀ k : BlockKind,
      (heap ++ [({ kind := k } : ControlBlockBase)]).strong heap.length = 1 := by
    intro k
    unfold Heap.strong
    rw [getElem?_alloc_self]
  exact ⟨⟨rfl, rfl, one _, rfl, rfl⟩, ⟨rfl, rfl, one _, rfl⟩, rfl, rfl, rfl, rfl⟩

/-- C21. For every log of earlier deleter calls, every `UniquePtr` `u` with
deleter `d` holding a non-null address `p`, every address `q` and every other
handle: the destructor of `u`, `u.Reset(q)`, the move assignment
`u = std::move(other)` from a distinct handle and `u = nullptr` each add
exactly one call to the log, the call of the deleter of `u` with argument `p`;
so none of them calls the deleter on another address.  The destructor and
`Reset` of the array specialisation do the same. -/
theorem C21_one_deleter_call_on_held_address (log : Calls) (d : Deleter) (p : Addr) (q : Ptr)
    (other : UniquePtr) :
    UniquePtr.destructor log { first := some p, second := d } = log ++ [(d, some p)] ∧
      (UniquePtr.Reset log { first := some p, second := d } q).1 = log ++ [(d, some p)] ∧
      (UniquePtr.moveAssign log { first := some p, second := d } other false).1 =
        log ++ [(d, some p)] ∧
      (UniquePtr.assignNull log { first := some p, second := d }).1 = log ++ [(d, some p)] ∧
      UniquePtrArray.destructor log { first := some p, second := d } = log ++ [(d, some p)] ∧
      (UniquePtrArray.Reset log { first := some p, second := d } q).1 = log ++ [(d, some p)] :=
  ⟨rfl, rfl, rfl, rfl, rfl, rfl⟩

theorem on_append_single (log : Calls) (d : Deleter) (a p : Ptr) :
    Calls.on (log ++ [(d, a)]) p = Calls.on log p + (if a = p then 1 else 0) := by
  unfold Calls.on
  rw [List.countP_append]
  by_cases h : a = p <;> simp [List.countP_cons, h]

/-- Counterexample to C22 as stated: for an empty handle (`UniquePtr<T> u;`)
`u.Release()` returns `nullptr`, and the destructor of `u` afterwards calls the
deleter once with argument `nullptr`, the returned address: before the two
statements no call had that argument, afterwards one has. -/
theorem C22_destructor_calls_deleter_on_returned_null :
    (UniquePtr.Release [] (UniquePtr.fromRaw none)).2.1 = none ∧
      UniquePtr.destructor (UniquePtr.Release [] (UniquePtr.fromRaw none)).1
          (UniquePtr.Release [] (UniquePtr.fromRaw none)).2.2 = [(0, none)] ∧
      Calls.on [] (UniquePtr.Release [] (UniquePtr.fromRaw none)).2.1 = 0 ∧
      Calls.on (UniquePtr.destructor (UniquePtr.Release [] (UniquePtr.fromRaw none)).1
          (UniquePtr.Release [] (UniquePtr.fromRaw none)).2.2)
        (UniquePtr.Release [] (UniquePtr.fromRaw none)).2.1 = 1 := by
  decide

/-- C22, amended. For every log of earlier deleter calls and every `UniquePtr` `u`:
`u.Release()` returns the address `u.Get()` held before the call, leaves
`u.Get() == nullptr` and the boolean conversion false, and makes no deleter
call; the destructor of `u` afterwards makes exactly one call, with argument
`nullptr`.  So for every address `x` of an object, and in particular for the
returned one, the number of deleter calls on `x` after the destruction of `u`
is what it was before `Release()`. -/
theorem C22_release_gives_up_ownership (log : Calls) (u : UniquePtr) :
    (UniquePtr.Release log u).2.1 = UniquePtr.Get u ∧
      UniquePtr.Get (UniquePtr.Release log u).2.2 = none ∧
      UniquePtr.toBool (UniquePtr.Release log u).2.2 = false ∧
      (UniquePtr.Release log u).1 = log ∧
      UniquePtr.destructor (UniquePtr.Release log u).1 (UniquePtr.Release log u).2.2 =
        log ++ [(UniquePtr.GetDeleter u, none)] ∧
      ∀ x : Addr,
        Calls.on (UniquePtr.Release log u).1 (some x) = Calls.on log (some x) ∧
        Calls.on (UniquePtr.destructor (UniquePtr.Release log u).1 (UniquePtr.Release log u).2.2)
          (some x) = Calls.on log (some x) := by
  refine ⟨rfl, rfl, rfl, rfl, rfl, fun x => ⟨rfl, ?_⟩⟩
  show Calls.on (log ++ [(u.second, none)]) (some x) = _
  rw [on_append_single]
  simp

/-- C23. `Reset(q)` on an empty handle does not adopt `q`: for every log,
deleter and address `q` the handle is afterwards what it was, with
`Get() == nullptr`, and no deleter call is made; the array specialisation does
the same.  For a handle created by the default constructor and
`q = (T*)7`: `Get()` is `nullptr` after `Reset(q)`, not `q`. -/
theorem C23_reset_on_empty_handle_drops_address (log : Calls) (d : Deleter) (q : Ptr) :
    UniquePtr.Reset log { first := none, second := d } q =
        (log, { first := none, second := d }) ∧
      UniquePtrArray.Reset log { first := none, second := d } q =
        (log, { first := none, second := d }) ∧
      UniquePtr.Get (UniquePtr.Reset [] (UniquePtr.fromRaw none) (some (Addr.raw 7))).2 = none ∧
      UniquePtr.Get (UniquePtr.Reset [] (UniquePtr.fromRaw none) (some (Addr.raw 7))).2 ≠
        some (Addr.raw 7) :=
  ⟨rfl, rfl, rfl, by decide⟩

/-- `Reset(q)` on a handle that holds an address: the handle holds `q`
afterwards, in both the primary template and the array specialisation. -/
theorem reset_on_holder_adopts (log : Calls) (d : Deleter) (p : Addr) (q : Ptr) :
    UniquePtr.Get (UniquePtr.Reset log { first := some p, second := d } q).2 = q ∧
      UniquePtr.Get (UniquePtrArray.Reset log { first := some p, second := d } q).2 = q :=
  ⟨rfl, rfl⟩

/-! ### The two `SharedPtr` implementations step by step -/

theorem dual_incStrong (c : Single.ControlBlockBase) :
    c.dual.incStrong = c.incStrong.dual := rfl

theorem dual_releaseStrong (c : Single.ControlBlockBase) :
    c.dual.releaseStrong.1 = c.releaseStrong.dual := by
  obtain ⟨s, k, d, f⟩ := c
  simp only [ControlBlockBase.releaseStrong, Single.ControlBlockBase.releaseStrong,
    ControlBlockBase.decStrong, Single.ControlBlockBase.decStrong,
    Single.ControlBlockBase.dual]
  by_cases h : decr s = 0
  · simp only [h, and_self, if_true]
    cases k <;> rfl
  · simp only [h, false_and, if_false]

theorem map_dual_modify (h : Single.Heap) (b : Nat)
    (f : ControlBlockBase → ControlBlockBase)
    (g : Single.ControlBlockBase → Single.ControlBlockBase)
    (hfg : ∀ c : Single.ControlBlockBase, f c.dual = (g c).dual) :
    Heap.modify (h.map Single.ControlBlockBase.dual) b f =
      (Single.Heap.modify h b g).map Single.ControlBlockBase.dual := by
  unfold Heap.modify Single.Heap.modify
  rw [List.getElem?_map]
  cases h[b]? with
  | none => rfl
  | some c => simp [List.map_set, hfg]

theorem map_dual_acquireStrong (h : Single.Heap) (ob : Option Nat) :
    Heap.acquireStrong (h.map Single.ControlBlockBase.dual) ob =
      (match ob with
        | some b => Single.Heap.modify h b Single.ControlBlockBase.incStrong
        | none => h).map Single.ControlBlockBase.dual := by
  cases ob with
  | none => rfl
  | some b => exact map_dual_modify h b _ _ dual_incStrong

theorem map_dual_dropStrong (h : Single.Heap) (a : Handle) :
    Heap.dropStrong (h.map Single.ControlBlockBase.dual) a.block_ =
      (Single.SharedPtr.releaseBlock h a).map Single.ControlBlockBase.dual := by
  unfold Single.SharedPtr.releaseBlock
  cases a.block_ with
  | none => rfl
  | some b => exact map_dual_modify h b _ _ dual_releaseStrong

theorem single_length_releaseBlock (h : Single.Heap) (a : Handle) :
    (Single.SharedPtr.releaseBlock h a).length = h.length := by
  unfold Single.SharedPtr.releaseBlock Single.Heap.modify
  cases a.block_ with
  | none => rfl
  | some b =>
    show (match h[b]? with
      | some c => h.set b c.releaseStrong
      | none => h).length = h.length
    cases h[b]? <;> simp

theorem sim_sh {t : Single.State} {s : State} (h : Sim t s) (i : Nat) : s.sh i = t.sh i := by
  unfold State.sh Single.State.sh
  rw [h.2.1]

theorem sim_init : Sim Single.State.init State.init := ⟨rfl, rfl, rfl⟩

theorem sim_step (t : Single.State) (s : State) (op : SharedOp) (h : Sim t s) :
    Sim (Single.step t op) (step s op.toOp) := by
  have hsh := sim_sh h
  obtain ⟨hb, hs, hw⟩ := h
  cases op with
  | sDefault => exact ⟨hb, by simp only [SharedOp.toOp, step, Single.step, hs]; rfl, hw⟩
  | sRaw p =>
    simp only [SharedOp.toOp, step, Single.step, SharedPtr.fromRaw, Single.SharedPtr.fromRaw]
    refine ⟨?_, ?_, hw⟩
    · simp [hb]; rfl
    · simp [hb, hs]
  | sMake =>
    simp only [SharedOp.toOp, step, Single.step, MakeShared, Single.MakeShared,
      SharedPtr.fromEmplace, Single.SharedPtr.fromEmplace]
    refine ⟨?_, ?_, hw⟩
    · simp [hb]; rfl
    · simp [hb, hs]
  | sCopy j =>
    simp only [SharedOp.toOp, step, Single.step, hsh j]
    cases t.sh j with
    | none => exact ⟨hb, hs, hw⟩
    | some o =>
      refine ⟨?_, ?_, hw⟩
      · simp only [SharedPtr.copy_eq, hb, map_dual_acquireStrong]; rfl
      · simp only [SharedPtr.copy_eq, hs]; rfl
  | sMove j =>
    simp only [SharedOp.toOp, step, Single.step, hsh j]
    cases t.sh j with
    | none => exact ⟨hb, hs, hw⟩
    | some o => exact ⟨hb, by simp only [hs]; rfl, hw⟩
  | sAlias j p =>
    simp only [SharedOp.toOp, step, Single.step, hsh j]
    cases t.sh j with
    | none => exact ⟨hb, hs, hw⟩
    | some o =>
      refine ⟨?_, ?_, hw⟩
      · simp only [SharedPtr.aliasing_eq, hb, map_dual_acquireStrong]
        unfold Single.SharedPtr.aliasing
        cases o.block_ <;> rfl
      · simp only [SharedPtr.aliasing_eq, hs]
        unfold Single.SharedPtr.aliasing
        cases o.block_ <;> rfl
  | sCopyAssign i j =>
    simp only [SharedOp.toOp, step, Single.step, hsh i, hsh j]
    cases t.sh i with
    | none => exact ⟨hb, hs, hw⟩
    | some a =>
      cases t.sh j with
      | none => exact ⟨hb, hs, hw⟩
      | some o =>
        by_cases hij : i = j
        · simp only [hij, decide_True, SharedPtr.copyAssign, Single.SharedPtr.copyAssign, if_true]
          exact ⟨hb, by simp only [hs], hw⟩
        · simp only [hij, decide_False, SharedPtr.copyAssign_eq]
          unfold Single.SharedPtr.copyAssign
          refine ⟨?_, ?_, hw⟩
          · simp only [hb, map_dual_dropStrong, map_dual_acquireStrong]
            cases o.block_ <;> rfl
          · simp only [hs]
            cases o.block_ <;> rfl
  | sMoveAssign i j =>
    simp only [SharedOp.toOp, step, Single.step, hsh i, hsh j]
    cases t.sh i with
    | none => exact ⟨hb, hs, hw⟩
    | some a =>
      cases t.sh j with
      | none => exact ⟨hb, hs, hw⟩
      | some o =>
        by_cases hij : i = j
        · simp only [hij, decide_True, SharedPtr.moveAssign, Single.SharedPtr.moveAssign, if_true]
          exact ⟨hb, by simp only [hs], hw⟩
        · simp only [hij, decide_False, SharedPtr.moveAssign_eq]
          unfold Single.SharedPtr.moveAssign
          refine ⟨?_, ?_, hw⟩
          · simp only [hb, map_dual_dropStrong]; rfl
          · simp only [hs]; rfl
  | sDtor i =>
    simp only [SharedOp.toOp, step, Single.step, hsh i]
    cases t.sh i with
    | none => exact ⟨hb, hs, hw⟩
    | some a =>
      refine ⟨?_, by simp only [hs], hw⟩
      simp only [SharedPtr.destructor_eq, hb, map_dual_dropStrong]; rfl
  | sReset i =>
    simp only [SharedOp.toOp, step, Single.step, hsh i]
    cases t.sh i with
    | none => exact ⟨hb, hs, hw⟩
    | some a =>
      refine ⟨?_, by simp only [SharedPtr.Reset_eq, hs]; rfl, hw⟩
      simp only [SharedPtr.Reset_eq, hb, map_dual_dropStrong]; rfl
  | sResetPtr i p =>
    simp only [SharedOp.toOp, step, Single.step, hsh i]
    cases t.sh i with
    | none => exact ⟨hb, hs, hw⟩
    | some a =>
      simp only [SharedPtr.ResetPtr_eq, Single.SharedPtr.ResetPtr]
      refine ⟨?_, ?_, hw⟩
      · simp only [hb, map_dual_dropStrong, List.map_append]; rfl
      · simp only [hs, hb, List.length_map, single_length_releaseBlock]
  | sSwap i j =>
    simp only [SharedOp.toOp, step, Single.step, hsh i, hsh j]
    cases t.sh i with
    | none => exact ⟨hb, hs, hw⟩
    | some a =>
      cases t.sh j with
      | none => exact ⟨hb, hs, hw⟩
      | some o => exact ⟨hb, by simp only [hs]; rfl, hw⟩

theorem sim_run (t : Single.State) (s : State) (ops : List SharedOp) (h : Sim t s) :
    Sim (Single.run t ops) (run s (ops.map SharedOp.toOp)) := by
  induction ops generalizing t s with
  | nil => exact h
  | cons op ops ih => exact ih _ _ (sim_step t s op h)

/-- C24. For every program of shared-handle statements (constructors, copy,
move, aliasing, both assignments, `Reset()`, `Reset(T*)`, `Swap`,
destructor) and every prefix of it, run on `src/shared/shared.h` and on
`src/shared-from-this/shared.h` from the empty state: the two handle tables
are equal slot by slot (the same handles are alive, with the same block and
the same `Get()`, hence the same boolean conversion), `UseCount()` agrees on
every handle, the two heaps have the same blocks with the same tallies of
object destructions and of block deletions (so each object is destroyed and
each block freed at the same statement), and on the dual-counter side no weak
handle exists and every `weak_cnt` is 0. -/
theorem C24_single_and_dual_counter_agree (ops : List SharedOp) (n : Nat) :
    (run State.init ((ops.take n).map SharedOp.toOp)).shared =
        (Single.run Single.State.init (ops.take n)).shared ∧
      (∀ i, (run State.init ((ops.take n).map SharedOp.toOp)).sh i =
        (Single.run Single.State.init (ops.take n)).sh i) ∧
      (∀ h : Handle,
        SharedPtr.UseCount (run State.init ((ops.take n).map SharedOp.toOp)).blocks h =
          Single.SharedPtr.UseCount (Single.run Single.State.init (ops.take n)).blocks h ∧
        SharedPtr.Get h = Single.SharedPtr.Get h ∧
        SharedPtr.toBool h = Single.SharedPtr.toBool h) ∧
      (run State.init ((ops.take n).map SharedOp.toOp)).blocks.length =
        (Single.run Single.State.init (ops.take n)).blocks.length ∧
      (∀ b : Nat, ((run State.init ((ops.take n).map SharedOp.toOp)).blocks[b]?).map
            (fun c : ControlBlockBase => (c.destroyed, c.freed)) =
          ((Single.run Single.State.init (ops.take n)).blocks[b]?).map
            (fun c : Single.ControlBlockBase => (c.destroyed, c.freed))) ∧
      (run State.init ((ops.take n).map SharedOp.toOp)).weak = [] ∧
      ∀ b, (run State.init ((ops.take n).map SharedOp.toOp)).blocks.weak b = 0 := by
  have h := sim_run _ _ (ops.take n) sim_init
  have hsh := sim_sh h
  generalize run State.init ((ops.take n).map SharedOp.toOp) = s at *
  generalize Single.run Single.State.init (ops.take n) = t at *
  obtain ⟨hb, hs, hw⟩ := h
  refine ⟨hs, hsh, ?_, ?_, ?_, hw, ?_⟩
  · intro h
    refine ⟨?_, rfl, rfl⟩
    unfold SharedPtr.UseCount Single.SharedPtr.UseCount
    cases h.block_ with
    | none => rfl
    | some b =>
      show Heap.strong s.blocks b = Single.Heap.strong t.blocks b
      unfold Heap.strong Single.Heap.strong
      rw [hb, List.getElem?_map]
      cases t.blocks[b]? <;> rfl
  · rw [hb, List.length_map]
  · intro b
    rw [hb, List.getElem?_map]
    cases t.blocks[b]? <;> rfl
  · intro b
    unfold Heap.weak
    rw [hb, List.getElem?_map]
    cases t.blocks[b]? <;> rfl

/-! ## Objects that hold handles: claims C1, C2, C3, C10, C15 and C18 -/

/-- C1. The program `struct Node { SharedPtr<Node> m; };  SharedPtr<Node> h(p0);
Node* n = new Node{h};  h.Reset(n);  h = std::move(n->m);` uses one handle
made by `SharedPtr(T*)`, a copy construction, `Reset(T*)` and a move
assignment.  Before the assignment `h.UseCount()` is 1 and one live handle
holds its block.  The assignment returns; its release block destroys `*n`,
which ends `n->m` and with it the last share of the block of `p0`, so that
block is freed; the fields of `n->m` are read afterwards, and `h` is left
holding that freed block with `UseCount() == 0` while one live shared handle,
`h` itself, holds the block. -/
theorem C1_move_assign_from_member_breaks_use_count :
    (execProg 20 {} progOwner).done = true ∧
      Mem.UseCount (execProg 20 {} progOwner).mem 1 = 1 ∧
      Mem.sharedHolders (execProg 20 {} progOwner).mem 1 = 1 ∧
      (execStmt 20 (execProg 20 {} progOwner).mem (Stmt.sMoveAssign 1 2)).done = true ∧
      (execStmt 20 (execProg 20 {} progOwner).mem (Stmt.sMoveAssign 1 2)).mem.sh 1 =
        some { block_ := some 0, ptr_ := some (Addr.raw 0) } ∧
      (execStmt 20 (execProg 20 {} progOwner).mem (Stmt.sMoveAssign 1 2)).mem.blocks[0]? =
        some { strong_cnt := 0, kind := BlockKind.pointer (some (Addr.raw 0)),
               destroyed := 1, freed := 1 } ∧
      Mem.UseCount (execStmt 20 (execProg 20 {} progOwner).mem (Stmt.sMoveAssign 1 2)).mem 1
        = 0 ∧
      Mem.sharedHolders (execStmt 20 (execProg 20 {} progOwner).mem (Stmt.sMoveAssign 1 2)).mem 0
        = 1 := by
  decide

/-- C3. After `struct Node { SharedPtr<Node> next; };  SharedPtr<Node> tail(n1);
SharedPtr<Node> head(new Node{tail});  tail.Reset();` the block of `n1` (block
0) has `strong_cnt` 1 and is not freed.  The copy assignment
`head = head->next` returns; its release block destroys the first node, which
ends `head->next`, the last share of block 0, and frees that block; the
assignment then reads `head->next` and increments `strong_cnt` in the freed
block, so block 0 has been freed once while the live handle `head` holds it.
The destructor of `head` then takes that count to 0 and frees block 0 a
second time. -/
theorem C3_copy_assign_from_member_frees_block_twice :
    (execProg 20 {} progList).done = true ∧
      (execProg 20 {} progList).mem.blocks[0]? =
        some { strong_cnt := 1, kind := BlockKind.pointer (some (Addr.raw 1)) } ∧
      (execStmt 20 (execProg 20 {} progList).mem (Stmt.sCopyAssign 3 2)).done = true ∧
      (execStmt 20 (execProg 20 {} progList).mem (Stmt.sCopyAssign 3 2)).mem.blocks[0]? =
        some { strong_cnt := 1, kind := BlockKind.pointer (some (Addr.raw 1)),
               destroyed := 1, freed := 1 } ∧
      Mem.sharedHolders
        (execStmt 20 (execProg 20 {} progList).mem (Stmt.sCopyAssign 3 2)).mem 0 = 1 ∧
      (execProg 20 {} (progList ++ [Stmt.sCopyAssign 3 2, Stmt.sDtor 3])).done = true ∧
      (execProg 20 {} (progList ++ [Stmt.sCopyAssign 3 2, Stmt.sDtor 3])).mem.blocks[0]? =
        some { strong_cnt := 0, kind := BlockKind.pointer (some (Addr.raw 1)),
               destroyed := 2, freed := 2 } := by
  decide

/-- C10. In the state after `struct Node { SharedPtr<Node> next; };
SharedPtr<Node> tail(n1);  SharedPtr<Node> head(new Node{tail});
tail.Reset();` the handle `a = head` holds block 1, the handle
`b = head->next` holds block 0 and the address of `n1`, and the `strong_cnt`
of block 0 is 1.  After `a = b` the handle `a` holds block 0 and the address
of `n1`, but the `strong_cnt` of block 0 is 1, not 2, and block 0 has been
freed and its object destroyed: the release block ran before `b` was read and
destroyed the node that held `b`. -/
theorem C10_copy_assign_from_member_reads_freed_handle :
    (execProg 20 {} progList).mem.sh 3 =
        some { block_ := some 1, ptr_ := some (Addr.raw 0) } ∧
      (execProg 20 {} progList).mem.sh 2 =
        some { block_ := some 0, ptr_ := some (Addr.raw 1), owner := some (Addr.raw 0) } ∧
      (execProg 20 {} progList).mem.blocks.strong 0 = 1 ∧
      (execStmt 20 (execProg 20 {} progList).mem (Stmt.sCopyAssign 3 2)).done = true ∧
      (execStmt 20 (execProg 20 {} progList).mem (Stmt.sCopyAssign 3 2)).mem.sh 3 =
        some { block_ := some 0, ptr_ := some (Addr.raw 1) } ∧
      (execStmt 20 (execProg 20 {} progList).mem (Stmt.sCopyAssign 3 2)).mem.blocks.strong 0
        = 1 ∧
      (execStmt 20 (execProg 20 {} progList).mem (Stmt.sCopyAssign 3 2)).mem.blocks[0]? =
        some { strong_cnt := 1, kind := BlockKind.pointer (some (Addr.raw 1)),
               destroyed := 1, freed := 1 } ∧
      (execStmt 20 (execProg 20 {} progList).mem (Stmt.sCopyAssign 3 2)).mem.sh 2 = none := by
  decide

/-- C2. After `struct Node { WeakPtr<Node> self; };  SharedPtr<Node> h(n0);
h->self = h;` the one block has `strong_cnt` 1, `weak_cnt` 1 and a live object.
`h.Reset()` brings `strong_cnt` from 1 to 0 and calls `DeletePtr()`; the
destructor of the object ends `self`, whose release block finds both counts 0
and deletes the block, and the destructor of the block, finding `ptr_deleted`
still false, destroys the object again: seven levels into the call the object
has been destroyed twice, and `ptr_deleted` is still false. -/
theorem C2_weak_member_destroys_object_twice :
    (execProg 20 {} progSelf).done = true ∧
      (execProg 20 {} progSelf).mem.blocks =
        [{ strong_cnt := 1, weak_cnt := 1, kind := BlockKind.pointer (some (Addr.raw 0)) }] ∧
      (execStmt 7 (execProg 20 {} progSelf).mem (Stmt.sReset 1)).mem.blocks =
        [{ strong_cnt := 0, weak_cnt := 0, ptr_deleted := false,
           kind := BlockKind.pointer (some (Addr.raw 0)), destroyed := 2 }] := by
  decide

/-- C15. In `h.Reset()` after `struct Node { WeakPtr<Node> self; };
SharedPtr<Node> h(n0);  h->self = h;`, the destructor of the member `self`
is entered (four levels into the call) with `strong_cnt` 0, `weak_cnt` 1,
`ptr_deleted` false and the object destroyed once.  From that memory the
release block of that `WeakPtr` takes `weak_cnt` to 0 and runs `delete block_`,
and the destructor of the block destroys the object: the tally of destructions
goes from 1 to 2 inside the `WeakPtr` destructor. -/
theorem C15_weak_destructor_destroys_object :
    (execStmt 4 (execProg 20 {} progSelf).mem (Stmt.sReset 1)).mem.blocks =
        [{ strong_cnt := 0, weak_cnt := 1, ptr_deleted := false,
           kind := BlockKind.pointer (some (Addr.raw 0)), destroyed := 1 }] ∧
      (execStmt 4 (execProg 20 {} progSelf).mem (Stmt.sReset 1)).mem.wk 0 =
        some { isWeak := true, block_ := some 0, ptr_ := some (Addr.raw 0),
               owner := some (Addr.raw 0) } ∧
      (exec 3 (Call.releaseWeak 0)
          (execStmt 4 (execProg 20 {} progSelf).mem (Stmt.sReset 1)).mem).mem.blocks =
        [{ strong_cnt := 0, weak_cnt := 0, ptr_deleted := false,
           kind := BlockKind.pointer (some (Addr.raw 0)), destroyed := 2 }] := by
  decide

/-- C18. In `h.Reset()` after `struct Node { WeakPtr<Node> self; };
SharedPtr<Node> h(n0);  h->self = h;`, `DeletePtr()` is called on the block
with `strong_cnt` 0, `weak_cnt` 1, `ptr_deleted` false and a live object.
That one call of `ControlBlockPointer::DeletePtr()` destroys the object twice
before it has set `ptr_deleted`: `delete ptr_` runs the destructor of `self`,
which deletes the block, and the destructor of the block runs `delete ptr_`
again.  `ControlBlockEmplace::DeletePtr()` does the same when `h` comes from
`MakeShared<Node>()`. -/
theorem C18_one_delete_ptr_destroys_twice :
    (execStmt 1 (execProg 20 {} progSelf).mem (Stmt.sReset 1)).mem.blocks =
        [{ strong_cnt := 0, weak_cnt := 1, ptr_deleted := false,
           kind := BlockKind.pointer (some (Addr.raw 0)), destroyed := 0 }] ∧
      (exec 6 (Call.DeletePtr 0)
          (execStmt 1 (execProg 20 {} progSelf).mem (Stmt.sReset 1)).mem).mem.blocks =
        [{ strong_cnt := 0, weak_cnt := 0, ptr_deleted := false,
           kind := BlockKind.pointer (some (Addr.raw 0)), destroyed := 2 }] ∧
      (execStmt 1 (execProg 20 {} progSelfMake).mem (Stmt.sReset 1)).mem.blocks =
        [{ strong_cnt := 0, weak_cnt := 1, ptr_deleted := false,
           kind := BlockKind.emplace, destroyed := 0 }] ∧
      (exec 6 (Call.DeletePtr 0)
          (execStmt 1 (execProg 20 {} progSelfMake).mem (Stmt.sReset 1)).mem).mem.blocks =
        [{ strong_cnt := 0, weak_cnt := 0, ptr_deleted := false,
           kind := BlockKind.emplace, destroyed := 2 }] := by
  decide

/-! ### A release that never returns -/

theorem exec_deleteObject_memSelf (fuel w d : Nat) :
    exec (fuel + 1) (Call.deleteObject 0) (memSelf w d) =
      exec fuel (Call.destroyMembers [0]) (memSelf w (d + 1)) := rfl

theorem exec_destroyMembers_memSelf (fuel w d : Nat)
    (h : (exec fuel (Call.releaseWeak 0) (memSelf w d)).done = false) :
    exec (fuel + 1) (Call.destroyMembers [0]) (memSelf w d) =
      exec fuel (Call.releaseWeak 0) (memSelf w d) := by
  show (if (exec fuel (Call.releaseWeak 0) (memSelf w d)).done = true then _ else _) = _
  rw [h]
  rfl

theorem exec_releaseWeak_memSelf (fuel w d : Nat) :
    exec (fuel + 1) (Call.releaseWeak 0) (memSelf w d) =
      if decr w = 0 then exec fuel (Call.deleteBlock 0) (memSelf (decr w) d)
      else exec fuel (Call.DeletePtr 0) (memSelf (decr w) d) := by
  show (if (0 = 0 ∧ decr w = 0) then exec fuel (Call.deleteBlock 0) (memSelf (decr w) d)
    else if 0 = 0 then exec fuel (Call.DeletePtr 0) (memSelf (decr w) d) else _) = _
  by_cases hw : decr w = 0 <;> simp [hw]

theorem exec_deleteBlock_memSelf (fuel w d : Nat)
    (h : (exec fuel (Call.deleteObject 0) (memSelf w d)).done = false) :
    exec (fuel + 1) (Call.deleteBlock 0) (memSelf w d) =
      exec fuel (Call.deleteObject 0) (memSelf w d) := by
  show (if (exec fuel (Call.deleteObject 0) (memSelf w d)).done = true then _ else _) = _
  rw [h]
  rfl

theorem exec_DeletePtr_memSelf (fuel w d : Nat)
    (h : (exec fuel (Call.deleteObject 0) (memSelf w d)).done = false) :
    exec (fuel + 1) (Call.DeletePtr 0) (memSelf w d) =
      exec fuel (Call.deleteObject 0) (memSelf w d) := by
  show (if (exec fuel (Call.deleteObject 0) (memSelf w d)).done = true then _ else _) = _
  rw [h]
  rfl

/-- Inside `h.Reset()` of `progSelf` no call returns, whatever the nesting
allowed, and the tally of destructions never goes down; a `delete ptr_` that
is entered raises it. -/
theorem exec_memSelf (fuel : Nat) : ∀ w d : Nat,
    (∀ call ∈ [Call.deleteObject 0, Call.destroyMembers [0], Call.releaseWeak 0,
        Call.deleteBlock 0, Call.DeletePtr 0],
      (exec fuel call (memSelf w d)).done = false ∧
      ∃ c, (exec fuel call (memSelf w d)).mem.blocks[0]? = some c ∧ d ≤ c.destroyed) ∧
    ∃ c, (exec (fuel + 1) (Call.deleteObject 0) (memSelf w d)).mem.blocks[0]? = some c ∧
      d + 1 ≤ c.destroyed := by
  induction fuel with
  | zero =>
    intro w d
    refine ⟨?_, ⟨_, rfl, Nat.le_refl _⟩⟩
    intro call hcall
    exact ⟨rfl, ⟨_, rfl, Nat.le_refl _⟩⟩
  | succ fuel ih =>
    have hO := fun w d => (ih w d).1 (Call.deleteObject 0) (by simp)
    have hM := fun w d => (ih w d).1 (Call.destroyMembers [0]) (by simp)
    have hW := fun w d => (ih w d).1 (Call.releaseWeak 0) (by simp)
    have hB := fun w d => (ih w d).1 (Call.deleteBlock 0) (by simp)
    have hP := fun w d => (ih w d).1 (Call.DeletePtr 0) (by simp)
    -- the five calls, one level deeper
    have kO : ∀ w d, (exec (fuel + 1) (Call.deleteObject 0) (memSelf w d)).done = false ∧
        ∃ c, (exec (fuel + 1) (Call.deleteObject 0) (memSelf w d)).mem.blocks[0]? = some c ∧
          d ≤ c.destroyed := by
      intro w d
      rw [exec_deleteObject_memSelf]
      obtain ⟨c, hc, hd⟩ := (hM w (d + 1)).2
      exact ⟨(hM w (d + 1)).1, c, hc, by omega⟩
    have kW : ∀ w d, (exec (fuel + 1) (Call.releaseWeak 0) (memSelf w d)).done = false ∧
        ∃ c, (exec (fuel + 1) (Call.releaseWeak 0) (memSelf w d)).mem.blocks[0]? = some c ∧
          d ≤ c.destroyed := by
      intro w d
      rw [exec_releaseWeak_memSelf]
      split_ifs
      · exact hB (decr w) d
      · exact hP (decr w) d
    have kM : ∀ w d, (exec (fuel + 1) (Call.destroyMembers [0]) (memSelf w d)).done = false ∧
        ∃ c, (exec (fuel + 1) (Call.destroyMembers [0]) (memSelf w d)).mem.blocks[0]? = some c ∧
          d ≤ c.destroyed := by
      intro w d
      rw [exec_destroyMembers_memSelf _ _ _ (hW w d).1]
      exact hW w d
    have kB : ∀ w d, (exec (fuel + 1) (Call.deleteBlock 0) (memSelf w d)).done = false ∧
        ∃ c, (exec (fuel + 1) (Call.deleteBlock 0) (memSelf w d)).mem.blocks[0]? = some c ∧
          d ≤ c.destroyed := by
      intro w d
      rw [exec_deleteBlock_memSelf _ _ _ (hO w d).1]
      exact hO w d
    have kP : ∀ w d, (exec (fuel + 1) (Call.DeletePtr 0) (memSelf w d)).done = false ∧
        ∃ c, (exec (fuel + 1) (Call.DeletePtr 0) (memSelf w d)).mem.blocks[0]? = some c ∧
          d ≤ c.destroyed := by
      intro w d
      rw [exec_DeletePtr_memSelf _ _ _ (hO w d).1]
      exact hO w d
    intro w d
    refine ⟨?_, ?_⟩
    · intro call hcall
      simp only [List.mem_cons, List.mem_singleton, List.not_mem_nil, or_false] at hcall
      rcases hcall with h | h | h | h | h <;> subst h
      · exact kO w d
      · exact kM w d
      · exact kW w d
      · exact kB w d
      · exact kP w d
    · rw [exec_deleteObject_memSelf]
      exact (kM w (d + 1)).2

theorem decr_one : decr 1 = 0 := by decide

/-- After `struct Node { WeakPtr<Node> self; };  SharedPtr<Node> h(n0);
h->self = h;` the statement `h.Reset()` does not return, whatever the nesting
allowed, and once seven levels are allowed the object has been destroyed at
least twice. -/
theorem reset_with_weak_member_never_returns (fuel : Nat) :
    (execStmt fuel (execProg 20 {} progSelf).mem (Stmt.sReset 1)).done = false ∧
      (7 ≤ fuel →
        ∃ c, (execStmt fuel (execProg 20 {} progSelf).mem (Stmt.sReset 1)).mem.blocks[0]? =
            some c ∧ 2 ≤ c.destroyed) := by
  have hm : (execProg 20 {} progSelf).mem =
      { blocks := [{ strong_cnt := 1, weak_cnt := 1,
                     kind := BlockKind.pointer (some (Addr.raw 0)) }],
        cells := (memSelf 0 0).cells } := by decide
  rw [hm]
  have nd : ∀ n w d (call : Call), call ∈ [Call.deleteObject 0, Call.destroyMembers [0],
      Call.releaseWeak 0, Call.deleteBlock 0, Call.DeletePtr 0] →
      (exec n call (memSelf w d)).done = false :=
    fun n w d call hc => ((exec_memSelf n w d).1 call hc).1
  cases fuel with
  | zero => exact ⟨rfl, fun h => absurd h (by omega)⟩
  | succ n =>
    have hP : (exec n (Call.DeletePtr 0) (memSelf 1 0)).done = false := nd n 1 0 _ (by simp)
    have e1 : exec (n + 1) (Call.releaseShared 1)
        { blocks := [{ strong_cnt := 1, weak_cnt := 1,
                       kind := BlockKind.pointer (some (Addr.raw 0)) }],
          cells := (memSelf 0 0).cells } =
        exec n (Call.DeletePtr 0) (memSelf 1 0) := by
      show (if (0 = 0 ∧ 1 = 0) then exec n (Call.deleteBlock 0) (memSelf 1 0)
        else if 0 = 0 then
          (if (exec n (Call.DeletePtr 0) (memSelf 1 0)).done = true then
            ({ mem := (exec n (Call.DeletePtr 0) (memSelf 1 0)).mem.modCell 1
                (fun c => { c with ptr_ := none }), done := true } : Outcome)
          else exec n (Call.DeletePtr 0) (memSelf 1 0))
        else ({ mem := memSelf 1 0, done := true } : Outcome)) = _
      simp [hP]
    have e : execStmt (n + 1)
        { blocks := [{ strong_cnt := 1, weak_cnt := 1,
                       kind := BlockKind.pointer (some (Addr.raw 0)) }],
          cells := (memSelf 0 0).cells } (Stmt.sReset 1) =
        exec n (Call.DeletePtr 0) (memSelf 1 0) := by
      rw [← e1]
      show (if (exec (n + 1) (Call.releaseShared 1) _).done = true then (_ : Outcome)
        else exec (n + 1) (Call.releaseShared 1) _) = _
      rw [e1, hP]
      rfl
    rw [e]
    refine ⟨hP, ?_⟩
    intro h7
    obtain ⟨k, rfl⟩ : ∃ k, n = k + 6 := ⟨n - 6, by omega⟩
    rw [exec_DeletePtr_memSelf _ _ _ (nd _ 1 0 _ (by simp)), exec_deleteObject_memSelf,
      exec_destroyMembers_memSelf _ _ _ (nd _ 1 1 _ (by simp)), exec_releaseWeak_memSelf,
      if_pos decr_one, decr_one, exec_deleteBlock_memSelf _ _ _ (nd _ 0 1 _ (by simp))]
    exact (exec_memSelf k 0 1).2

/-! ### Plain element types: the nested calls are single updates -/

theorem membersOf_of_plain (m : Mem) (h : m.plain) (a : Ptr) : m.membersOf a = [] := by
  cases a with
  | none => rfl
  | some x =>
    simp only [Mem.membersOf, List.reverse_eq_nil_iff, List.filter_eq_nil_iff]
    intro i _
    cases hc : m.cells[i]? with
    | none => simp
    | some c =>
      have hmem : c ∈ m.cells := List.getElem?_mem hc
      simp [h c hmem]

theorem plain_modBlock (m : Mem) (h : m.plain) (b : Nat)
    (f : ControlBlockBase → ControlBlockBase) : (m.modBlock b f).plain := h

theorem modBlock_modBlock (m : Mem) (b : Nat) (f g : ControlBlockBase → ControlBlockBase) :
    (m.modBlock b f).modBlock b g = m.modBlock b (fun c => g (f c)) := by
  unfold Mem.modBlock Heap.modify
  cases hc : m.blocks[b]? with
  | none => simp [hc]
  | some c =>
    have hlt : b < m.blocks.length := (List.getElem?_eq_some.mp hc).1
    simp [hc, List.getElem?_set_self, hlt]

theorem list_set_self {α : Type} (l : List α) (i : Nat) (a : α) (h : l[i]? = some a) :
    l.set i a = l := by
  have hlt : i < l.length := (List.getElem?_eq_some.mp h).1
  apply List.ext_getElem?
  intro k
  by_cases hk : i = k
  · subst hk
    rw [List.getElem?_set_self hlt, h]
  · rw [List.getElem?_set_ne hk]

theorem modBlock_self (m : Mem) (b : Nat) (f : ControlBlockBase → ControlBlockBase)
    (c : ControlBlockBase) (hc : m.blocks[b]? = some c) (h : f c = c) : m.modBlock b f = m := by
  unfold Mem.modBlock Heap.modify
  rw [hc]
  simp only [h, list_set_self _ _ _ hc]

theorem modBlock_of_none (m : Mem) (b : Nat) (f : ControlBlockBase → ControlBlockBase)
    (h : m.blocks[b]? = none) : m.modBlock b f = m := by
  unfold Mem.modBlock Heap.modify
  rw [h]

theorem modBlock_congr (m : Mem) (b : Nat) (f g : ControlBlockBase → ControlBlockBase)
    (c : ControlBlockBase) (hc : m.blocks[b]? = some c) (h : f c = g c) :
    m.modBlock b f = m.modBlock b g := by
  unfold Mem.modBlock Heap.modify
  rw [hc]
  simp [h]

/-- With no handle inside the object, `delete ptr_` only raises the tally. -/
theorem exec_deleteObject_plain (m : Mem) (h : m.plain) (b fuel : Nat) :
    exec (fuel + 2) (Call.deleteObject b) m =
      { mem := m.modBlock b (fun c => { c with destroyed := c.destroyed + 1 }), done := true } := by
  rw [exec]
  cases hc : m.blocks[b]? with
  | none => simp only [modBlock_of_none m b _ hc]
  | some c =>
    simp only []
    rw [membersOf_of_plain _ (plain_modBlock m h b _), exec]

/-- With no handle inside the object, the virtual call `DeletePtr()` is the
single update `ControlBlockBase.DeletePtr` of the block. -/
theorem exec_DeletePtr_plain (m : Mem) (h : m.plain) (b fuel : Nat) :
    exec (fuel + 3) (Call.DeletePtr b) m =
      { mem := m.modBlock b ControlBlockBase.DeletePtr, done := true } := by
  rw [exec]
  cases hc : m.blocks[b]? with
  | none => simp only [modBlock_of_none m b _ hc]
  | some c =>
    by_cases hp : c.ptr_deleted = false
    · simp only [hp, if_true]
      rw [exec_deleteObject_plain m h b fuel]
      simp only [if_true, modBlock_modBlock]
      congr 1
      apply modBlock_congr m b _ _ c hc
      rw [ControlBlockBase.DeletePtr_eq]
      simp [hp]
    · have hp' : c.ptr_deleted = true := by simpa using hp
      simp only [hp', Bool.true_eq_false, if_false]
      congr 1
      refine (modBlock_self m b _ c hc ?_).symm
      rw [ControlBlockBase.DeletePtr_eq]
      simp [hp']

/-- With no handle inside the object, `delete block_` is the single update
`ControlBlockBase.delete` of the block. -/
theorem exec_deleteBlock_plain (m : Mem) (h : m.plain) (b fuel : Nat) :
    exec (fuel + 3) (Call.deleteBlock b) m =
      { mem := m.modBlock b ControlBlockBase.delete, done := true } := by
  rw [exec]
  cases hc : m.blocks[b]? with
  | none => simp only [modBlock_of_none m b _ hc]
  | some c =>
    by_cases hp : c.ptr_deleted = false
    · simp only [hp, if_true]
      rw [exec_deleteObject_plain m h b fuel]
      simp only [if_true, modBlock_modBlock]
      congr 1
      apply modBlock_congr m b _ _ c hc
      rw [ControlBlockBase.delete_eq]
      simp [hp]
    · have hp' : c.ptr_deleted = true := by simpa using hp
      simp only [hp', Bool.true_eq_false, if_false, if_true]
      congr 1
      apply modBlock_congr m b _ _ c hc
      rw [ControlBlockBase.delete_eq]
      simp [hp']

theorem strong_modBlock (m : Mem) (b : Nat) (f : ControlBlockBase → ControlBlockBase)
    (c : ControlBlockBase) (hc : m.blocks[b]? = some c) :
    (m.modBlock b f).blocks.strong b = (f c).strong_cnt ∧
      (m.modBlock b f).blocks.weak b = (f c).weak_cnt := by
  unfold Mem.modBlock Heap.strong Heap.weak
  simp only [Heap.getElem?_modify, if_true, hc, Option.map_some']
  exact ⟨trivial, trivial⟩

theorem blocks_modBlock_congr (m : Mem) (b : Nat) (f g : ControlBlockBase → ControlBlockBase)
    (c : ControlBlockBase) (hc : m.blocks[b]? = some c) (h : f c = g c) :
    (m.modBlock b f).blocks = m.blocks.modify b g := by
  rw [modBlock_congr m b f g c hc h]
  rfl

theorem modCell_blocks (m : Mem) (i : Nat) (f : Cell → Cell) :
    (m.modCell i f).blocks = m.blocks := by
  unfold Mem.modCell
  cases m.cells[i]? <;> rfl

theorem modCell_modBlock_cells (m : Mem) (b i : Nat) (g : ControlBlockBase → ControlBlockBase)
    (f : Cell → Cell) : ((m.modBlock b g).modCell i f).cells = (m.modCell i f).cells := by
  unfold Mem.modCell Mem.modBlock
  cases m.cells[i]? <;> rfl

/-- With no handle inside any object, the release block of a `SharedPtr`
returns, is the single update `releaseStrong` of its block, and leaves the
handle objects as they were but for the address of the handle itself, which
the `DeletePtr()` branch clears. -/
theorem exec_releaseShared_plain (m : Mem) (h : m.plain) (i fuel : Nat) :
    (exec (fuel + 4) (Call.releaseShared i) m).done = true ∧
      (exec (fuel + 4) (Call.releaseShared i) m).mem.blocks =
        m.blocks.dropStrong ((m.cells[i]?).bind Cell.block_) ∧
      ((exec (fuel + 4) (Call.releaseShared i) m).mem.cells = m.cells ∨
        (exec (fuel + 4) (Call.releaseShared i) m).mem.cells =
          (m.modCell i (fun c => { c with ptr_ := none })).cells) := by
  rw [exec]
  cases hb : (m.cells[i]?).bind Cell.block_ with
  | none => exact ⟨rfl, rfl, Or.inl rfl⟩
  | some b =>
    simp only []
    cases hc : m.blocks[b]? with
    | none =>
      have e1 : m.modBlock b ControlBlockBase.decStrong = m := modBlock_of_none m b _ hc
      have e2 : m.blocks.strong b = 0 ∧ m.blocks.weak b = 0 := by
        unfold Heap.strong Heap.weak
        rw [hc]
        exact ⟨rfl, rfl⟩
      have e3 : m.blocks.dropStrong (some b) = m.blocks := by
        unfold Heap.dropStrong Heap.modify
        simp only [hc]
      simp only [e1, e2, and_self, if_true]
      rw [exec_deleteBlock_plain _ h, modBlock_of_none m b _ hc]
      exact ⟨rfl, e3.symm, Or.inl rfl⟩
    | some c =>
      obtain ⟨hs, hw⟩ := strong_modBlock m b ControlBlockBase.decStrong c hc
      have hp1 := plain_modBlock m h b ControlBlockBase.decStrong
      simp only [hs, hw]
      by_cases h0 : c.decStrong.strong_cnt = 0
      · by_cases hw0 : c.decStrong.weak_cnt = 0
        · simp only [h0, hw0, and_self, if_true]
          rw [exec_deleteBlock_plain _ hp1, modBlock_modBlock]
          refine ⟨rfl, ?_, Or.inl rfl⟩
          apply blocks_modBlock_congr m b _ _ c hc
          simp [ControlBlockBase.releaseStrong, h0, hw0]
        · simp only [h0, hw0, and_false, if_false, if_true]
          rw [exec_DeletePtr_plain _ hp1, modBlock_modBlock]
          simp only [if_true]
          refine ⟨trivial, ?_, Or.inr (modCell_modBlock_cells _ _ _ _ _)⟩
          rw [modCell_blocks]
          apply blocks_modBlock_congr m b _ _ c hc
          simp [ControlBlockBase.releaseStrong, h0, hw0]
      · simp only [h0, false_and, if_false]
        refine ⟨trivial, ?_, Or.inl rfl⟩
        apply blocks_modBlock_congr m b _ _ c hc
        simp [ControlBlockBase.releaseStrong, h0]

theorem getElem?_modCell (m : Mem) (i k : Nat) (f : Cell → Cell) :
    (m.modCell i f).cells[k]? = if i = k then (m.cells[k]?).map f else m.cells[k]? := by
  unfold Mem.modCell
  by_cases hik : i = k
  · subst hik
    cases hc : m.cells[i]? with
    | none => simp [hc]
    | some c =>
      have hlt : i < m.cells.length := (List.getElem?_eq_some.mp hc).1
      simp [List.getElem?_set_self hlt]
  · cases hc : m.cells[i]? with
    | none => simp [hik]
    | some c => simp [hik, List.getElem?_set_ne hik]

theorem cell_of_sh {m : Mem} {i : Nat} {a : Cell} (h : m.sh i = some a) :
    m.cells[i]? = some a := by
  unfold Mem.sh at h
  cases hc : m.cells[i]? with
  | none => rw [hc] at h; cases h
  | some c =>
    rw [hc] at h
    simp only at h
    split_ifs at h
    cases h
    rfl

/-- What the release block of handle `i` leaves of the handle objects, in a
memory with no handle inside any object: every other handle as it was, and
handle `i` still there. -/
theorem cells_after_release_plain (m : Mem) (h : m.plain) (i fuel : Nat) (a : Cell)
    (ha : m.cells[i]? = some a) :
    (∀ k, k ≠ i → (exec (fuel + 4) (Call.releaseShared i) m).mem.cells[k]? = m.cells[k]?) ∧
      ∃ a1, (exec (fuel + 4) (Call.releaseShared i) m).mem.cells[i]? = some a1 ∧
        a1.isWeak = a.isWeak ∧ a1.owner = a.owner ∧ a1.ended = a.ended := by
  rcases (exec_releaseShared_plain m h i fuel).2.2 with e | e
  · rw [e]
    exact ⟨fun _ _ => rfl, a, ha, rfl, rfl, rfl⟩
  · rw [e]
    refine ⟨fun k hk => ?_, ?_⟩
    · rw [getElem?_modCell, if_neg (fun hik => hk hik.symm)]
    · rw [getElem?_modCell, if_pos rfl, ha]
      exact ⟨_, rfl, rfl, rfl, rfl⟩

/-- For a plain element type the move assignment of the machine with objects
is `SharedPtr.moveAssign`: it returns, and the heap, `*this` and `other` are
the ones that definition gives. -/
theorem execStmt_sMoveAssign_plain (m : Mem) (h : m.plain) (i j fuel : Nat) (hij : i ≠ j)
    (a o : Cell) (hi : m.sh i = some a) (hj : m.sh j = some o) :
    (execStmt (fuel + 4) m (Stmt.sMoveAssign i j)).done = true ∧
      (execStmt (fuel + 4) m (Stmt.sMoveAssign i j)).mem.blocks =
        (SharedPtr.moveAssign m.blocks a.handle o.handle false).1 ∧
      ((execStmt (fuel + 4) m (Stmt.sMoveAssign i j)).mem.cells[i]?).map Cell.handle =
        some (SharedPtr.moveAssign m.blocks a.handle o.handle false).2.1 ∧
      ((execStmt (fuel + 4) m (Stmt.sMoveAssign i j)).mem.cells[j]?).map Cell.handle =
        some (SharedPtr.moveAssign m.blocks a.handle o.handle false).2.2 := by
  have ha := cell_of_sh hi
  have ho := cell_of_sh hj
  obtain ⟨hd, hbk, _⟩ := exec_releaseShared_plain m h i fuel
  obtain ⟨hk, a1, ha1, _⟩ := cells_after_release_plain m h i fuel a ha
  have hoj := hk j (fun e => hij e.symm)
  rw [ho] at hoj
  rw [ha] at hbk
  simp only [execStmt, hi, hj, hij, if_false, hd, if_true, hoj, SharedPtr.moveAssign_eq]
  generalize exec (fuel + 4) (Call.releaseShared i) m = r at *
  refine ⟨trivial, ?_, ?_, ?_⟩
  · rw [modCell_blocks, modCell_blocks, hbk]
    rfl
  · rw [getElem?_modCell, if_neg (fun e => hij e.symm), getElem?_modCell, if_pos rfl, ha1]
    rfl
  · rw [getElem?_modCell, if_pos rfl, getElem?_modCell, if_neg hij, hoj]
    rfl

/-- For a plain element type the copy assignment of the machine with objects
is `SharedPtr.copyAssign`: it returns, and the heap, `*this` and `other` are
the ones that definition gives. -/
theorem execStmt_sCopyAssign_plain (m : Mem) (h : m.plain) (i j fuel : Nat) (hij : i ≠ j)
    (a o : Cell) (hi : m.sh i = some a) (hj : m.sh j = some o) :
    (execStmt (fuel + 4) m (Stmt.sCopyAssign i j)).done = true ∧
      (execStmt (fuel + 4) m (Stmt.sCopyAssign i j)).mem.blocks =
        (SharedPtr.copyAssign m.blocks a.handle o.handle false).1 ∧
      ((execStmt (fuel + 4) m (Stmt.sCopyAssign i j)).mem.cells[i]?).map Cell.handle =
        some (SharedPtr.copyAssign m.blocks a.handle o.handle false).2 ∧
      (execStmt (fuel + 4) m (Stmt.sCopyAssign i j)).mem.cells[j]? = some o := by
  have ha := cell_of_sh hi
  have ho := cell_of_sh hj
  obtain ⟨hd, hbk, _⟩ := exec_releaseShared_plain m h i fuel
  obtain ⟨hk, a1, ha1, _⟩ := cells_after_release_plain m h i fuel a ha
  have hoj := hk j (fun e => hij e.symm)
  rw [ho] at hoj
  rw [ha] at hbk
  simp only [execStmt, hi, hj, hij, if_false, hd, if_true, hoj, SharedPtr.copyAssign_eq]
  generalize exec (fuel + 4) (Call.releaseShared i) m = r at *
  cases hob : o.block_ with
  | none =>
    simp only []
    refine ⟨trivial, ?_, ?_, ?_⟩
    · rw [modCell_blocks, hbk]
      simp [Cell.handle, hob, Heap.acquireStrong]
    · rw [getElem?_modCell, if_pos rfl, ha1]
      simp [Cell.handle, hob]
    · rw [getElem?_modCell, if_neg hij, hoj]
  | some b =>
    simp only []
    refine ⟨trivial, ?_, ?_, ?_⟩
    · show ((r.mem.modCell i _).modBlock b _).blocks = _
      unfold Mem.modBlock
      simp only [modCell_blocks, hbk]
      simp [Cell.handle, hob, Heap.acquireStrong]
    · show ((r.mem.modCell i _).modBlock b _).cells[i]?.map Cell.handle = _
      unfold Mem.modBlock
      simp only [getElem?_modCell, if_true, ha1]
      simp [Cell.handle, hob]
    · show ((r.mem.modCell i _).modBlock b _).cells[j]? = _
      unfold Mem.modBlock
      simp only [getElem?_modCell, if_neg hij, hoj]

end SmartPtr
